import Mathlib

/-!
Verification model of the create-emitter library (src/lib/create-emitter.ts).

The TypeScript source wraps each callable member of a configuration object in
a queueing wrapper: every invocation enqueues a zero-argument settle closure,
and an asynchronous drain loop (`dequeue`) executes the queued closures one at
a time, in order.  A subscription registry receives fan-out notifications
after each settle.  This file gives a small-step operational embedding of that
code: machine states carry the queue, the three flags, the registry and an
event log, and one `step` function executes a caller action or one scheduler
turn.  Underlying callables are modelled as pure functions from the argument
list to an `Except` outcome; an asynchronous callable additionally has a
duration, the number of scheduler turns it stays in flight.  Because those
functions are pure, a settle closure capturing the callable and the arguments
is embedded as a task record carrying the precomputed outcome; the event
marking the callable's execution is still emitted at the turn where the
drain loop actually runs the closure.

Granularity: the source's `dequeue` performs `await fn?.()` and then recurses;
one recursion turn of the drain loop is one `tick` of the model, and the
microtask boundary between a task's completion and the recursive queue check
is collapsed into the completing tick.  Caller actions (invocations,
subscribe/unsubscribe, enable/disable) happen between ticks, which matches
the single-threaded event-loop interleaving of the source.
-/

/-- Reserved configuration key, `'initialize'` in the source. -/
def initKey : String := "initialize"

/-- Outcome behaviour of an observer callback when it is invoked: it can
return normally, throw synchronously, or return a rejecting promise. -/
inductive CbKind
  | ok
  | throwSync
  | rejectAsync
deriving DecidableEq, Repr

/-- Subscription record (src/lib/types.ts `Subscription`): optional per-member
callbacks plus the reserved `all` and `catch` callbacks.  Only the presence
and failure behaviour of each callback matters to the emitter's control flow,
so a callback is embedded as its `CbKind`. -/
structure SubRecord where
  memberCbs : List (String × CbKind)
  allCb : Option CbKind
  catchCb : Option CbKind
deriving DecidableEq, Repr

/-- Configuration entry (a value of the `config` object): a plain value, a
synchronous callable, or an asynchronous callable with a duration counted in
scheduler turns.  The callable body is a pure function from the argument list
to a result (`Except.ok`) or a thrown error (`Except.error`). -/
inductive Entry
  | value (v : Nat)
  | syncFn (f : List Nat → Except Nat Nat)
  | asyncFn (dur : Nat) (f : List Nat → Except Nat Nat)

/-- A configuration object: an association list from member name to entry. -/
def Config : Type := List (String × Entry)

/-- Property lookup on the configuration object. -/
def lookupEntry (cfg : Config) (key : String) : Option Entry :=
  (cfg.find? (fun p => p.1 = key)).map (fun p => p.2)

/-- Mirrors `typeOf(config.initialize) === Type.Undefined` (line 49 of
create-emitter.ts): true when the configuration has no `initialize` property
at all. -/
def noInitProp (cfg : Config) : Bool :=
  (lookupEntry cfg initKey).isNone

deriving instance DecidableEq for Except

/-- A queued zero-argument task (an element of the source's `queue` array):
either a settle closure of an asynchronous member, a settle closure of a
synchronous member, or the deferred subscription-removal closure pushed by
`unsubscribe` while flushing.  `uid` is the identity of the closure object,
`out` the precomputed outcome of the captured callable on the captured
arguments. -/
inductive QTask
  | settleAsync (uid : Nat) (key : String) (args : List Nat) (dur : Nat) (out : Except Nat Nat)
  | settleSync (uid : Nat) (key : String) (args : List Nat) (out : Except Nat Nat)
  | removeSub (uid : Nat) (sid : Nat)
deriving DecidableEq, Repr

/-- Identity of a queued task. -/
def QTask.uid : QTask → Nat
  | .settleAsync u _ _ _ _ => u
  | .settleSync u _ _ _ => u
  | .removeSub u _ => u

/-- An asynchronous settle currently in flight inside the drain loop:
`rem` is the number of scheduler turns before the awaited callable settles. -/
structure Running where
  uid : Nat
  key : String
  args : List Nat
  out : Except Nat Nat
  rem : Nat
deriving DecidableEq, Repr

/-- Observable events recorded by the model, in chronological order. -/
inductive Ev
  | invoked (key : String) (args : List Nat)
  | returnedPromise (uid : Nat) (key : String)
  | returnedUndef (key : String)
  | threwOnce (key : String)
  | rejectedOnce (uid : Nat)
  | enqueued (uid : Nat) (key : String) (front : Bool)
  | enqueuedRemove (uid : Nat) (sid : Nat)
  | settleStart (uid : Nat) (key : String)
  | ranUnderlying (uid : Nat) (key : String) (args : List Nat)
  | notifyMember (sid : Nat) (key : String) (result : Nat) (args : List Nat)
  | notifyAll (sid : Nat) (key : String) (result : Nat) (args : List Nat)
  | notifyCatch (sid : Nat) (key : String) (error : Nat) (args : List Nat)
  | resolvedEv (uid : Nat) (result : Nat)
  | rejectedEv (uid : Nat) (error : Nat)
  | settleEnd (uid : Nat) (key : String)
  | removedSub (uid : Nat) (sid : Nat)
  | drainHalted (uid : Nat) (key : String)
deriving DecidableEq, Repr

/-- The state owned by one emitter instance (lines 18-24 of
create-emitter.ts), plus the scheduler bookkeeping (`running`, `halted`),
fresh-identity counters and the event log. `halted` records that the drain
loop's promise rejected (a synchronous settle threw out of `await fn?.()`),
after which no further `dequeue` recursion ever happens. -/
structure EmState where
  queue : List QTask
  subs : List (Nat × SubRecord)
  enabled : Bool
  flushing : Bool
  initialized : Bool
  running : Option Running
  halted : Bool
  nextUid : Nat
  nextSid : Nat
  log : List Ev
deriving DecidableEq, Repr

/-- The freshly constructed emitter state (lines 18-24). -/
def initState : EmState :=
  { queue := [], subs := [], enabled := true, flushing := false,
    initialized := false, running := none, halted := false,
    nextUid := 0, nextSid := 0, log := [] }

/-- Success fan-out events produced for one subscription record (the body of
the loop at lines 74-81 / 112-117): the per-member callback is invoked when
present; the `all` callback is invoked when present unless the per-member
callback threw synchronously first (the throw aborts evaluation before the
`all` callback is reached, and is then swallowed by the surrounding
try/catch).  A callback that merely returns a rejecting promise does not
prevent the `all` callback, and rejections are swallowed by
`Promise.allSettled` (async path) or simply never observed (sync path). -/
def successEvsFor (key : String) (result : Nat) (args : List Nat)
    (sid : Nat) (r : SubRecord) : List Ev :=
  match (r.memberCbs.find? (fun p => p.1 = key)).map (fun p => p.2), r.allCb with
  | none, none => []
  | none, some _ => [.notifyAll sid key result args]
  | some CbKind.throwSync, _ => [.notifyMember sid key result args]
  | some _, none => [.notifyMember sid key result args]
  | some _, some _ => [.notifyMember sid key result args, .notifyAll sid key result args]

/-- Success fan-out over the whole registry, in insertion order (the `for`
loop over `subscriptions` at lines 74-81 / 112-117).  Errors of one record's
callbacks are swallowed per record and never stop the iteration. -/
def successFanOut (key : String) (result : Nat) (args : List Nat) :
    List (Nat × SubRecord) → List Ev
  | [] => []
  | (sid, r) :: rest =>
      successEvsFor key result args sid r ++ successFanOut key result args rest

/-- Failure fan-out over the whole registry (the loop at lines 86-90 /
122-126): every record's `catch` callback is invoked when present,
irrespective of the `enabled` flag; its own errors are swallowed. -/
def catchFanOut (key : String) (err : Nat) (args : List Nat) :
    List (Nat × SubRecord) → List Ev
  | [] => []
  | (sid, r) :: rest =>
      (match r.catchCb with
        | none => []
        | some _ => [.notifyCatch sid key err args]) ++ catchFanOut key err args rest

/-- Mirrors lines 56-62 of `flush`: if not initialized or already flushing,
return without starting a drain; otherwise raise the `flushing` flag (the
drain itself proceeds on subsequent ticks). -/
def kick (st : EmState) : EmState :=
  if !st.initialized || st.flushing then st else { st with flushing := true }

/-- Mirrors lines 40-63 (`flush`): decide placement of the settle task and
maintain `initialized`; `none` signals the returned
`Error('initialize() can only be called once.')`. -/
def flushTask (cfg : Config) (key : String) (t : QTask) (st : EmState) :
    Option EmState :=
  if key = initKey then
    if st.initialized then none
    else
      some (kick { st with initialized := true, queue := t :: st.queue,
                           log := st.log ++ [.enqueued t.uid key true] })
  else
    let st1 := if noInitProp cfg then { st with initialized := true } else st
    some (kick { st1 with queue := st1.queue ++ [t],
                          log := st1.log ++ [.enqueued t.uid key false] })

/-- One invocation of a wrapped member (lines 65-142, `wrapValue`'s result):
an asynchronous member returns a pending promise and enqueues an asynchronous
settle (lines 67-104); a synchronous member enqueues a synchronous settle and
returns `undefined` on the non-error path (lines 106-139); the double-
initialize error is delivered as an immediate rejection (async) or a
synchronous throw (sync).  Invoking a non-callable entry is outside the
wrapped surface and leaves the state unchanged. -/
def invoke (cfg : Config) (st : EmState) (key : String) (args : List Nat) :
    EmState :=
  match lookupEntry cfg key with
  | some (.asyncFn dur f) =>
      let uid := st.nextUid
      let st1 := { st with nextUid := uid + 1,
                           log := st.log ++ [.invoked key args, .returnedPromise uid key] }
      match flushTask cfg key (.settleAsync uid key args dur (f args)) st1 with
      | some st2 => st2
      | none => { st1 with log := st1.log ++ [.rejectedOnce uid] }
  | some (.syncFn f) =>
      let uid := st.nextUid
      let st1 := { st with nextUid := uid + 1,
                           log := st.log ++ [.invoked key args] }
      match flushTask cfg key (.settleSync uid key args (f args)) st1 with
      | some st2 => { st2 with log := st2.log ++ [.returnedUndef key] }
      | none => { st1 with log := st1.log ++ [.threwOnce key] }
  | _ => st

/-- Resets `flushing` when the drain loop observes an empty queue (lines
27-30, reached through the recursion after the current task finished). -/
def settleQueueCheck (st : EmState) : EmState :=
  if st.queue.isEmpty then { st with flushing := false } else st

/-- The drain loop begins executing the task just removed from the queue
front (line 32-33).  An asynchronous settle starts its callable and stays in
flight for its duration; a synchronous settle runs to completion within this
turn: on success its return value is discarded by `await fn?.()` and the loop
continues, on a throw the loop's promise rejects and the drain halts with
`flushing` stuck true (nothing in the source ever resets it).  A removal
closure deletes its registry entry and the loop continues. -/
def startTask (st : EmState) (t : QTask) : EmState :=
  match t with
  | .settleAsync uid key args dur out =>
      { st with running := some { uid := uid, key := key, args := args, out := out, rem := dur },
                log := st.log ++ [.settleStart uid key, .ranUnderlying uid key args] }
  | .settleSync uid key args out =>
      match out with
      | .ok r =>
          let evs := if st.enabled then successFanOut key r args st.subs else []
          settleQueueCheck
            { st with log := st.log ++ [.settleStart uid key, .ranUnderlying uid key args]
                        ++ evs ++ [.settleEnd uid key] }
      | .error e =>
          { st with halted := true,
                    log := st.log ++ [.settleStart uid key, .ranUnderlying uid key args]
                      ++ catchFanOut key e args st.subs ++ [.settleEnd uid key, .drainHalted uid key] }
  | .removeSub uid sid =>
      settleQueueCheck
        { st with subs := st.subs.filter (fun p => p.1 != sid),
                  log := st.log ++ [.removedSub uid sid] }

/-- Completion of an in-flight asynchronous settle (lines 70-93): on success,
fan out to the registry when `enabled`, then resolve the pending promise; on
failure, fan out to every `catch` callback regardless of `enabled`, then
reject the pending promise.  Either way the settle closure itself returns
normally, so the drain loop proceeds. -/
def completeRun (st : EmState) (r : Running) : EmState :=
  match r.out with
  | .ok v =>
      let evs := if st.enabled then successFanOut r.key v r.args st.subs else []
      settleQueueCheck
        { st with running := none,
                  log := st.log ++ evs ++ [.resolvedEv r.uid v, .settleEnd r.uid r.key] }
  | .error e =>
      settleQueueCheck
        { st with running := none,
                  log := st.log ++ catchFanOut r.key e r.args st.subs
                    ++ [.rejectedEv r.uid e, .settleEnd r.uid r.key] }

/-- One scheduler turn of the drain loop (`dequeue`, lines 26-35): progress
the in-flight settle or, when idle and flushing, pop and start the next task;
an empty queue resets `flushing`.  After a halt nothing ever runs again. -/
def tick (st : EmState) : EmState :=
  if st.halted then st
  else
    match st.running with
    | some r =>
        match r.rem with
        | n + 1 => { st with running := some { r with rem := n } }
        | 0 => completeRun st r
    | none =>
        if st.flushing then
          match st.queue with
          | [] => { st with flushing := false }
          | t :: rest => startTask { st with queue := rest } t
        else st

/-- Caller-visible actions plus the scheduler turn. -/
inductive Act
  | invoke (key : String) (args : List Nat)
  | subscribe (rec : SubRecord)
  | unsubscribe (sid : Nat)
  | enable
  | disable
  | tick

/-- One step of the whole system.  `subscribe` (lines 178-182) inserts the
record immediately and unconditionally; `unsubscribe` (lines 183-193) removes
immediately when idle and defers through a queued removal closure while
flushing; `enable`/`disable` (lines 170-176) toggle the flag synchronously. -/
def step (cfg : Config) (st : EmState) : Act → EmState
  | .invoke key args => invoke cfg st key args
  | .subscribe rec =>
      { st with subs := st.subs ++ [(st.nextSid, rec)], nextSid := st.nextSid + 1 }
  | .unsubscribe sid =>
      if st.flushing then
        { st with queue := st.queue ++ [.removeSub st.nextUid sid],
                  nextUid := st.nextUid + 1,
                  log := st.log ++ [.enqueuedRemove st.nextUid sid] }
      else
        { st with subs := st.subs.filter (fun p => p.1 != sid) }
  | .enable => { st with enabled := true }
  | .disable => { st with enabled := false }
  | .tick => tick st

/-- Running the emitter from construction through a list of actions. -/
def run (cfg : Config) (acts : List Act) : EmState :=
  acts.foldl (step cfg) initState

/-- Uid carried by an event, when it has one (used for freshness bookkeeping). -/
def evUid : Ev → Option Nat
  | .returnedPromise u _ => some u
  | .rejectedOnce u => some u
  | .enqueued u _ _ => some u
  | .enqueuedRemove u _ => some u
  | .settleStart u _ => some u
  | .ranUnderlying u _ _ => some u
  | .resolvedEv u _ => some u
  | .rejectedEv u _ => some u
  | .settleEnd u _ => some u
  | .removedSub u _ => some u
  | .drainHalted u _ => some u
  | _ => none

/-- Projection to execution events: the drain loop began executing the task
with this uid (a settle start, or the run of a deferred removal closure). -/
def execProj : Ev → Option Nat
  | .settleStart u _ => some u
  | .removedSub u _ => some u
  | _ => none

/-- Projection to back-of-queue insertion events (the `queue.push` calls);
the front insertion of the first initialize settle is deliberately excluded. -/
def enqProj : Ev → Option Nat
  | .enqueued u _ false => some u
  | .enqueuedRemove u _ => some u
  | _ => none

/-- Uids of tasks whose execution has begun, in execution order. -/
def execUids (l : List Ev) : List Nat := l.filterMap execProj

/-- Uids of the queued tasks, front first. -/
def queueUids (q : List QTask) : List Nat := q.map QTask.uid

/-- The global service order: tasks already taken by the drain loop, in the
order the loop took them, followed by the still-pending queue. -/
def tracked (st : EmState) : List Nat := execUids st.log ++ queueUids st.queue

/-- The uid of the in-flight settle, if any. -/
def runningUid (st : EmState) : Option Nat := st.running.map Running.uid

/-- Strict precedence of an occurrence of `u` over a later occurrence of `v`
in a list of uids. -/
def before2 (l : List Nat) (u v : Nat) : Prop :=
  List.Sublist [u, v] l

/-- An event satisfying `p` occurs strictly before an event satisfying `q`. -/
def evBefore (l : List Ev) (p q : Ev → Prop) : Prop :=
  ∃ e1 e2, p e1 ∧ q e2 ∧ List.Sublist [e1, e2] l

/-- This event is the back-insertion of the task `u`. -/
def enqEvOf (u : Nat) (ev : Ev) : Prop := enqProj ev = some u

/-- This event is the execution of the task `u`. -/
def execEvOf (u : Nat) (ev : Ev) : Prop := execProj ev = some u

/-- Some settle task of `u` was pushed or unshifted (member invocation). -/
def hasEnqEv (l : List Ev) (u : Nat) : Prop :=
  ∃ k fr, Ev.enqueued u k fr ∈ l

/-- Some removal task of `u` was pushed (deferred unsubscribe). -/
def hasEnqRemEv (l : List Ev) (u : Nat) : Prop :=
  ∃ s, Ev.enqueuedRemove u s ∈ l

/-- One transition of the settle open/close discipline recorded in the log:
at most one settle is open at a time, an end matches the open settle, and a
removal closure runs only between settles.  `none` means the discipline is
violated. -/
def openStep (s : Option Nat) : Ev → Option (Option Nat)
  | .settleStart u _ =>
      match s with
      | none => some (some u)
      | some _ => none
  | .settleEnd u' _ =>
      match s with
      | some u => if u = u' then some none else none
      | none => none
  | .removedSub _ _ =>
      match s with
      | none => some none
      | some _ => none
  | _ => some s

/-- Folding the open/close discipline over a log from a given open state. -/
def openFoldAux : Option Nat → List Ev → Option (Option Nat)
  | s, [] => some s
  | s, ev :: rest =>
      match openStep s ev with
      | none => none
      | some s' => openFoldAux s' rest

/-- The open/close discipline over a whole log, starting with no open settle. -/
def openFold (l : List Ev) : Option (Option Nat) := openFoldAux none l

/-- Number of underlying-callable executions of the given member in the log. -/
def countRanOf (key : String) (l : List Ev) : Nat :=
  (l.filter (fun ev => match ev with
    | Ev.ranUnderlying _ k _ => k == key
    | _ => false)).length

/-- Whether a queued task is the settle of the initialize member. -/
def taskKeyIsInit : QTask → Bool
  | .settleAsync _ k _ _ _ => k == initKey
  | .settleSync _ k _ _ => k == initKey
  | .removeSub _ _ => false

/-- Number of queued initialize settle tasks. -/
def countInitTasks (q : List QTask) : Nat :=
  (q.filter taskKeyIsInit).length

/-- Whether the queue's front task is an initialize settle. -/
def headIsInit (q : List QTask) : Bool :=
  match q with
  | [] => false
  | t :: _ => taskKeyIsInit t

/-- Whether the initialize settle has begun executing. -/
def initStartedB (l : List Ev) : Bool :=
  l.any (fun ev => match ev with
    | Ev.settleStart _ k => k == initKey
    | _ => false)

/-- No settle lifecycle event of the initialize member occurs in the log. -/
def noInitSettleEv (l : List Ev) : Bool :=
  l.all (fun ev => match ev with
    | Ev.enqueued _ k _ => !(k == initKey)
    | Ev.settleStart _ k => !(k == initKey)
    | Ev.ranUnderlying _ k _ => !(k == initKey)
    | Ev.settleEnd _ k => !(k == initKey)
    | _ => true)

/-- Whether a queued task is a settle closure (as opposed to a removal). -/
def isSettleTask : QTask → Bool
  | .settleAsync _ _ _ _ _ => true
  | .settleSync _ _ _ _ => true
  | .removeSub _ _ => false

/-- Uids of the settle tasks currently pending or in flight. -/
def pendingSettleUids (st : EmState) : List Nat :=
  (st.queue.filter isSettleTask).map QTask.uid ++ (runningUid st).toList

/-- Member name used by concrete scenarios. -/
def kFirst : String := "first"

/-- Member name used by concrete scenarios. -/
def kSecond : String := "second"

/-- Member name used by concrete scenarios. -/
def kOther : String := "other"

/-- Member name used by concrete scenarios. -/
def kA : String := "a"

/-- Member name used by concrete scenarios. -/
def kB : String := "b"

/-- Member name used by concrete scenarios. -/
def kM : String := "m"

/-- Scenario: configuration with an initialize member and one other member. -/
def cfgGate : Config :=
  [(initKey, Entry.asyncFn 0 (fun _ => Except.ok 0)),
   (kOther, Entry.asyncFn 0 (fun _ => Except.ok 1))]

/-- Scenario: configuration whose initialize callable takes five turns. -/
def cfgSlowInit : Config :=
  [(initKey, Entry.asyncFn 5 (fun _ => Except.ok 0))]

/-- Scenario: one synchronous member returning 42. -/
def cfgSyncOk : Config :=
  [(kFirst, Entry.syncFn (fun _ => Except.ok 42))]

/-- Scenario: a throwing synchronous member followed by a healthy one. -/
def cfgSyncThrow : Config :=
  [(kFirst, Entry.syncFn (fun _ => Except.error 7)),
   (kSecond, Entry.syncFn (fun _ => Except.ok 1))]

/-- Scenario subscription: only a catch callback. -/
def subCatchOnly : SubRecord :=
  { memberCbs := [], allCb := none, catchCb := some CbKind.ok }

/-- Scenario: one asynchronous member resolving to 3. -/
def cfgOneAsync : Config :=
  [(kFirst, Entry.asyncFn 0 (fun _ => Except.ok 3))]

/-- Scenario subscription: a synchronously throwing member callback next to
an `all` callback. -/
def subThrowMember : SubRecord :=
  { memberCbs := [(kFirst, CbKind.throwSync)], allCb := some CbKind.ok,
    catchCb := none }

/-- Scenario: a slow member and a fast member, for the ordering witness. -/
def cfgTwoAsync : Config :=
  [(kA, Entry.asyncFn 1 (fun _ => Except.ok 0)),
   (kB, Entry.asyncFn 0 (fun _ => Except.ok 1))]

/-- Scenario: initialize plus a member, for the gate witness. -/
def cfgInitM : Config :=
  [(initKey, Entry.asyncFn 0 (fun _ => Except.ok 0)),
   (kM, Entry.asyncFn 0 (fun _ => Except.ok 2))]

/-- Scenario subscription: a plain member callback on `first`. -/
def subMemberOnly : SubRecord :=
  { memberCbs := [(kFirst, CbKind.ok)], allCb := none, catchCb := none }

/-- Scenario: a single slow asynchronous member, for the unsubscribe witness. -/
def cfgSlowFirst : Config :=
  [(kFirst, Entry.asyncFn 1 (fun _ => Except.ok 0))]

/-- Scenario actions: invoke the slow member, then the fast member, then let
the scheduler drain completely. -/
def actsTwo : List Act :=
  [Act.invoke kA [], Act.invoke kB [], Act.tick, Act.tick, Act.tick, Act.tick,
   Act.tick]

/-- Scenario actions before the deferred unsubscribe: register an observer
and invoke the slow member, which raises `flushing`. -/
def actsUnsubPre : List Act :=
  [Act.subscribe subMemberOnly, Act.invoke kFirst []]

/-- Scenario actions after the deferred unsubscribe: enough scheduler turns
to drain the settle and then the removal task. -/
def actsUnsubMore : List Act :=
  [Act.tick, Act.tick, Act.tick, Act.tick, Act.tick]

/-- No completion event of the initialize member occurs in the log. -/
def noInitEnd (l : List Ev) : Bool :=
  l.all (fun ev => match ev with
    | Ev.settleEnd _ k => !(k == initKey)
    | _ => true)

/-- Basic reachable-state invariant of the emitter: coherence of the three
flags with the scheduler, the initialization gate, the at-most-one execution
of the initialize callable, the front position of a pending initialize
settle, and the open/close discipline of settle execution in the log. -/
structure InvB (cfg : Config) (st : EmState) : Prop where
  runFlush : st.running.isSome = true → st.flushing = true
  flushInit : st.flushing = true → st.initialized = true
  gate : lookupEntry cfg initKey ≠ none → st.initialized = false →
      st.flushing = false ∧ st.running = none ∧ st.halted = false ∧
        execUids st.log = []
  initCount : lookupEntry cfg initKey ≠ none →
      countRanOf initKey st.log + countInitTasks st.queue =
        (if st.initialized then 1 else 0)
  noInitEvs : st.initialized = false → noInitSettleEv st.log = true
  initFront : lookupEntry cfg initKey ≠ none → st.initialized = true →
      initStartedB st.log = true ∨
        (st.running = none ∧ headIsInit st.queue = true)
  flushIff : st.halted = false → st.initialized = true →
      (st.flushing = true ↔ (st.queue ≠ [] ∨ st.running.isSome = true))
  opens : openFold st.log = some (runningUid st)
  c2a : lookupEntry cfg initKey ≠ none →
      ∀ A u k B2, st.log = A ++ Ev.settleStart u k :: B2 → k ≠ initKey →
        ∃ u' k', Ev.settleStart u' initKey ∈ A ∧ Ev.settleEnd u' k' ∈ A

/-- Order invariant of the emitter: task identities are fresh and unique,
the global service order (`tracked`: executions already taken by the drain
loop followed by the pending queue) refines the order in which tasks were
pushed at the back of the queue, and every execution or queue entry can be
traced back to its insertion event, with settle tasks and removal tasks kept
apart. -/
structure InvO (st : EmState) : Prop where
  logUb : ∀ u ∈ st.log.filterMap evUid, u < st.nextUid
  queueUb : ∀ u ∈ queueUids st.queue, u < st.nextUid
  runUb : ∀ r, st.running = some r → r.uid < st.nextUid
  nodup : (tracked st).Nodup
  pairOrd : ∀ u v, u ≠ v → evBefore st.log (enqEvOf u) (enqEvOf v) →
      before2 (tracked st) u v
  enqMem : ∀ u ev, ev ∈ st.log → enqProj ev = some u → u ∈ tracked st
  kindSep : ∀ u, ¬(hasEnqEv st.log u ∧ hasEnqRemEv st.log u)
  startSrc : ∀ u k, Ev.settleStart u k ∈ st.log → hasEnqEv st.log u
  remSrc : ∀ u s, Ev.removedSub u s ∈ st.log → hasEnqRemEv st.log u
  qSrc : ∀ t ∈ st.queue, (isSettleTask t = true → hasEnqEv st.log t.uid) ∧
      (isSettleTask t = false → hasEnqRemEv st.log t.uid)
  runSrc : ∀ r, st.running = some r → hasEnqEv st.log r.uid

/-- C4.  The claim says every callable member, including synchronous ones,
returns a pending promise-like handle later settled with the underlying
outcome.  The code disagrees: `enqueueSynchronousMethod` (lines 106-139)
returns `undefined` immediately on the non-error path, and the settle
closure's return value is discarded by `await fn?.()` inside `dequeue`, so
the underlying result 42 is never delivered to the caller.  The full log of
the run shows the immediate `undefined` return, the discarded execution, and
the absence of any promise or resolution event. -/
theorem sync_member_returns_undefined :
    (run cfgSyncOk [Act.invoke kFirst [], Act.tick, Act.tick]).log =
      [Ev.invoked kFirst [], Ev.enqueued 0 kFirst false, Ev.returnedUndef kFirst,
       Ev.settleStart 0 kFirst, Ev.ranUnderlying 0 kFirst [],
       Ev.settleEnd 0 kFirst] ∧
    (run cfgSyncOk [Act.invoke kFirst [], Act.tick, Act.tick]).queue = [] := by
  constructor
  · rfl
  · rfl

/-- C5.  The claim says a failing settle fans out to catch observers, then
rejects the original pending result, and the Sequencer still runs the next
queued task.  For a synchronous member the code disagrees: the settle
closure's rethrow (line 128) rejects the drain loop's own promise, so there
is no pending result to reject (the caller already received `undefined`),
`flushing` stays true forever, and the already-queued second member never
executes.  The catch fan-out itself does happen. -/
theorem sync_throw_halts_drain :
    (run cfgSyncThrow
        [Act.subscribe subCatchOnly, Act.invoke kFirst [], Act.invoke kSecond [],
         Act.tick, Act.tick, Act.tick, Act.tick]).log =
      [Ev.invoked kFirst [], Ev.enqueued 0 kFirst false, Ev.returnedUndef kFirst,
       Ev.invoked kSecond [], Ev.enqueued 1 kSecond false, Ev.returnedUndef kSecond,
       Ev.settleStart 0 kFirst, Ev.ranUnderlying 0 kFirst [],
       Ev.notifyCatch 0 kFirst 7 [], Ev.settleEnd 0 kFirst,
       Ev.drainHalted 0 kFirst] ∧
    (run cfgSyncThrow
        [Act.subscribe subCatchOnly, Act.invoke kFirst [], Act.invoke kSecond [],
         Act.tick, Act.tick, Act.tick, Act.tick]).flushing = true ∧
    (run cfgSyncThrow
        [Act.subscribe subCatchOnly, Act.invoke kFirst [], Act.invoke kSecond [],
         Act.tick, Act.tick, Act.tick, Act.tick]).queue =
      [QTask.settleSync 1 kSecond [] (Except.ok 1)] := by
  refine ⟨rfl, rfl, rfl⟩

/-- C6 counterexample.  The claim says the per-member callback and the `all`
callback are invoked independently of each other.  When the per-member
callback throws synchronously, its throw happens while the argument array of
`Promise.allSettled` is still being built (line 76-79), so the `all` callback
of the same subscription record is never invoked for that settle: in this
run the registered record has both callbacks, the settle succeeds with the
emitter enabled, the member callback is invoked, yet no `all` notification
ever appears. -/
theorem observer_all_skipped_on_sync_throw :
    (run cfgOneAsync
        [Act.subscribe subThrowMember, Act.invoke kFirst [],
         Act.tick, Act.tick, Act.tick]).log =
      [Ev.invoked kFirst [], Ev.returnedPromise 0 kFirst,
       Ev.enqueued 0 kFirst false, Ev.settleStart 0 kFirst,
       Ev.ranUnderlying 0 kFirst [], Ev.notifyMember 0 kFirst 3 [],
       Ev.resolvedEv 0 3, Ev.settleEnd 0 kFirst] ∧
    (run cfgOneAsync
        [Act.subscribe subThrowMember, Act.invoke kFirst [],
         Act.tick, Act.tick, Act.tick]).enabled = true := by
  refine ⟨rfl, rfl⟩

/-- C7 counterexample.  The claim says `flushing` is true iff the queue is
non-empty or a settle task is executing.  With an initialize member
configured, invoking another member enqueues its settle but the gate (line
56) refuses to start draining, so the queue is non-empty while `flushing` is
false and nothing is running. -/
theorem flushing_false_with_pending_queue :
    (run cfgGate [Act.invoke kOther []]).queue ≠ [] ∧
    (run cfgGate [Act.invoke kOther []]).flushing = false ∧
    (run cfgGate [Act.invoke kOther []]).running = none ∧
    (run cfgGate [Act.invoke kOther []]).halted = false := by
  refine ⟨?_, rfl, rfl, rfl⟩
  intro h
  simp [run, cfgGate, step, invoke, initState, lookupEntry, kOther, initKey,
    flushTask, noInitProp, kick] at h

/-- C8 counterexample.  The claim says `initialized` becomes true only after
the underlying initialize callable completes.  The code sets `initialized =
true` synchronously inside `flush` (line 45) at the moment of invocation:
right after invoking a five-turn asynchronous initialize, the flag is already
true while the log contains no completion (`settleEnd`) of the initialize
settle. -/
theorem initialized_true_before_completion :
    (run cfgSlowInit [Act.invoke initKey []]).initialized = true ∧
    (run cfgSlowInit [Act.invoke initKey []]).log =
      [Ev.invoked initKey [], Ev.returnedPromise 0 initKey,
       Ev.enqueued 0 initKey true] := by
  refine ⟨rfl, rfl⟩

theorem before2_append_right {l l2 : List Nat} {u v : Nat}
    (h : before2 l u v) : before2 (l ++ l2) u v :=
  h.trans (List.sublist_append_left l l2)

theorem before2_insert_middle {X Y : List Nat} {u v w : Nat}
    (h : before2 (X ++ Y) u v) : before2 (X ++ w :: Y) u v :=
  h.trans (List.Sublist.append (List.Sublist.refl X) (List.sublist_cons_self w Y))

theorem before2_snoc {l : List Nat} {u v : Nat} (h : u ∈ l) :
    before2 (l ++ [v]) u v := by
  have h1 : List.Sublist [u] l := List.singleton_sublist.mpr h
  simpa [before2] using List.Sublist.append h1 (List.Sublist.refl [v])

theorem before2_elim {l : List Nat} {u v : Nat} (h : before2 l u v) :
    ∃ r1 r2, l = r1 ++ r2 ∧ u ∈ r1 ∧ v ∈ r2 := by
  rw [before2, List.cons_sublist_iff] at h
  obtain ⟨r1, r2, rfl, hu, hv⟩ := h
  exact ⟨r1, r2, rfl, hu, List.singleton_sublist.mp hv⟩

theorem before2_intro {r1 r2 : List Nat} {u v : Nat}
    (hu : u ∈ r1) (hv : v ∈ r2) : before2 (r1 ++ r2) u v := by
  have h1 : List.Sublist [u] r1 := List.singleton_sublist.mpr hu
  have h2 : List.Sublist [v] r2 := List.singleton_sublist.mpr hv
  simpa [before2] using List.Sublist.append h1 h2

theorem before2_mem_left {l : List Nat} {u v : Nat} (h : before2 l u v) : u ∈ l :=
  h.subset (by simp)

theorem before2_mem_right {l : List Nat} {u v : Nat} (h : before2 l u v) : v ∈ l :=
  h.subset (by simp)

theorem before2_prefix {X Y : List Nat} {u v : Nat}
    (h : before2 (X ++ Y) u v) (hv : v ∈ X)
    (hnd : (X ++ Y).Nodup) : before2 X u v := by
  obtain ⟨r1, r2, heq, hur, hvr⟩ := before2_elim h
  have hdisj := (List.nodup_append.mp hnd).2.2
  rcases List.append_eq_append_iff.mp heq.symm with ⟨m, hm1, hm2⟩ | ⟨m, hm1, hm2⟩
  · -- X = r1 ++ m and r2 = m ++ Y
    rw [hm2] at hvr
    rcases List.mem_append.mp hvr with hvm | hvY
    · rw [hm1]; exact before2_intro hur hvm
    · exact absurd hvY (hdisj hv)
  · -- r1 = X ++ m and Y = m ++ r2 : then v would occur in Y as well
    have : v ∈ Y := by rw [hm2]; exact List.mem_append_of_mem_right m hvr
    exact absurd this (hdisj hv)

theorem before2_of_mid {XA XB : List Nat} {u r : Nat}
    (h : before2 (XA ++ r :: XB) u r) (hrB : r ∉ XB) : u ∈ XA := by
  obtain ⟨r1, r2, heq, hur, hvr⟩ := before2_elim h
  rcases List.append_eq_append_iff.mp heq.symm with ⟨m, hm1, hm2⟩ | ⟨m, hm1, hm2⟩
  · -- XA = r1 ++ m and r :: XB = m ++ r2
    rw [hm1]; exact List.mem_append_of_mem_left m hur
  · -- r1 = XA ++ m and r :: XB = m ++ r2
    cases m with
    | nil =>
        simp only [List.append_nil] at hm1
        rw [hm1] at hur
        exact hur
    | cons x m' =>
        simp only [List.cons_append] at hm2
        injection hm2 with hx htl
        have : r ∈ XB := by
          rw [htl]
          exact List.mem_append_of_mem_right m' hvr
        exact absurd this hrB

theorem evBefore_mono {l : List Ev} {p q p' q' : Ev → Prop} (h : evBefore l p q)
    (hp : ∀ e, p e → p' e) (hq : ∀ e, q e → q' e) : evBefore l p' q' := by
  obtain ⟨e1, e2, h1, h2, hs⟩ := h
  exact ⟨e1, e2, hp _ h1, hq _ h2, hs⟩

theorem evBefore_append_right {l l2 : List Ev} {p q : Ev → Prop}
    (h : evBefore l p q) : evBefore (l ++ l2) p q := by
  obtain ⟨e1, e2, h1, h2, hs⟩ := h
  exact ⟨e1, e2, h1, h2, hs.trans (List.sublist_append_left l l2)⟩

theorem evBefore_intro {l1 l2 : List Ev} {p q : Ev → Prop} {e1 e2 : Ev}
    (h1 : e1 ∈ l1) (h2 : e2 ∈ l2) (hp : p e1) (hq : q e2) :
    evBefore (l1 ++ l2) p q := by
  refine ⟨e1, e2, hp, hq, ?_⟩
  have s1 : List.Sublist [e1] l1 := List.singleton_sublist.mpr h1
  have s2 : List.Sublist [e2] l2 := List.singleton_sublist.mpr h2
  simpa using List.Sublist.append s1 s2

theorem evBefore_append_elim {l1 l2 : List Ev} {p q : Ev → Prop}
    (h : evBefore (l1 ++ l2) p q) :
    evBefore l1 p q ∨ evBefore l2 p q ∨
      ((∃ e ∈ l1, p e) ∧ (∃ e ∈ l2, q e)) := by
  obtain ⟨e1, e2, h1, h2, hs⟩ := h
  rw [List.sublist_append_iff] at hs
  obtain ⟨s1, s2, hsplit, hs1, hs2⟩ := hs
  match s1, hsplit with
  | [], hsplit =>
      right; left
      refine ⟨e1, e2, h1, h2, ?_⟩
      simp only [List.nil_append] at hsplit
      rw [← hsplit] at hs2
      exact hs2
  | [x], hsplit =>
      simp only [List.cons_append, List.nil_append] at hsplit
      injection hsplit with hx htl
      subst hx
      right; right
      refine ⟨⟨e1, hs1.subset (by simp), h1⟩, ⟨e2, ?_, h2⟩⟩
      rw [← htl] at hs2
      exact hs2.subset (by simp)
  | x :: y :: s1'', hsplit =>
      simp only [List.cons_append] at hsplit
      injection hsplit with hx htl
      injection htl with hy htl2
      subst hx; subst hy
      have hnil : s1'' = [] := by
        cases s1'' with
        | nil => rfl
        | cons z t => simp at htl2
      subst hnil
      left
      exact ⟨e1, e2, h1, h2, hs1⟩

theorem evBefore_mem_left {l : List Ev} {p q : Ev → Prop}
    (h : evBefore l p q) : ∃ e ∈ l, p e := by
  obtain ⟨e1, e2, h1, _, hs⟩ := h
  exact ⟨e1, hs.subset (by simp), h1⟩

theorem evBefore_mem_right {l : List Ev} {p q : Ev → Prop}
    (h : evBefore l p q) : ∃ e ∈ l, q e := by
  obtain ⟨e1, e2, _, h2, hs⟩ := h
  exact ⟨e2, hs.subset (by simp), h2⟩

theorem sublist_filterMap_lift {α β : Type} (f : α → Option β) :
    ∀ (l : List α) (s : List β), List.Sublist s (l.filterMap f) →
      ∃ t, List.Sublist t l ∧ t.filterMap f = s := by
  intro l
  induction l with
  | nil =>
      intro s h
      simp only [List.filterMap_nil] at h
      exact ⟨[], List.nil_sublist [], by simpa using List.sublist_nil.mp h⟩
  | cons a rest ih =>
      intro s h
      cases hfa : f a with
      | none =>
          rw [List.filterMap_cons_none hfa] at h
          obtain ⟨t, ht, hfm⟩ := ih s h
          exact ⟨t, ht.trans (List.sublist_cons_self a rest), hfm⟩
      | some b =>
          rw [List.filterMap_cons_some hfa] at h
          rcases List.sublist_cons_iff.mp h with h' | ⟨s', rfl, h'⟩
          · obtain ⟨t, ht, hfm⟩ := ih s h'
            exact ⟨t, ht.trans (List.sublist_cons_self a rest), hfm⟩
          · obtain ⟨t, ht, hfm⟩ := ih s' h'
            refine ⟨a :: t, List.cons_sublist_cons.mpr ht, ?_⟩
            rw [List.filterMap_cons_some hfa, hfm]

theorem filterMap_eq_pair {α β : Type} {f : α → Option β} :
    ∀ {t : List α} {u v : β}, t.filterMap f = [u, v] →
      ∃ e1 e2, f e1 = some u ∧ f e2 = some v ∧ List.Sublist [e1, e2] t := by
  intro t
  induction t with
  | nil => intro u v h; simp at h
  | cons a rest ih =>
      intro u v h
      cases hfa : f a with
      | none =>
          rw [List.filterMap_cons_none hfa] at h
          obtain ⟨e1, e2, h1, h2, hs⟩ := ih h
          exact ⟨e1, e2, h1, h2, hs.trans (List.sublist_cons_self a rest)⟩
      | some b =>
          rw [List.filterMap_cons_some hfa] at h
          injection h with hb htl
          subst hb
          have he2 : ∃ e2 ∈ rest, f e2 = some v := by
            have : v ∈ rest.filterMap f := by rw [htl]; simp
            simpa using List.mem_filterMap.mp this
          obtain ⟨e2, he2m, he2f⟩ := he2
          refine ⟨a, e2, hfa, he2f, ?_⟩
          exact List.cons_sublist_cons.mpr (List.singleton_sublist.mpr he2m)

theorem before2_filterMap {f : Ev → Option Nat} {l : List Ev} {u v : Nat}
    (h : before2 (l.filterMap f) u v) :
    evBefore l (fun e => f e = some u) (fun e => f e = some v) := by
  obtain ⟨t, ht, hfm⟩ := sublist_filterMap_lift f l [u, v] h
  obtain ⟨e1, e2, h1, h2, hs⟩ := filterMap_eq_pair hfm
  exact ⟨e1, e2, h1, h2, hs.trans ht⟩

theorem openFoldAux_append (s : Option Nat) (l1 l2 : List Ev) :
    openFoldAux s (l1 ++ l2) =
      match openFoldAux s l1 with
      | none => none
      | some s' => openFoldAux s' l2 := by
  induction l1 generalizing s with
  | nil => simp [openFoldAux]
  | cons ev rest ih =>
      simp only [List.cons_append, openFoldAux]
      cases openStep s ev with
      | none => rfl
      | some s1 => exact ih s1

theorem openFold_closes_from_open {u : Nat} :
    ∀ (l : List Ev) (s' : Option Nat), openFoldAux (some u) l = some s' →
      (∃ k, Ev.settleEnd u k ∈ l) ∨ s' = some u := by
  intro l
  induction l with
  | nil =>
      intro s' h
      right
      simpa [openFoldAux] using h.symm
  | cons ev rest ih =>
      intro s' h
      simp only [openFoldAux] at h
      match ev, h with
      | .settleEnd u' k, h =>
          by_cases hu : u = u'
          · subst hu
            exact Or.inl ⟨k, by simp⟩
          · simp [openStep, hu] at h
      | .settleStart _ _, h => simp [openStep] at h
      | .removedSub _ _, h => simp [openStep] at h
      | .invoked _ _, h =>
          rcases ih s' (by simpa [openStep] using h) with ⟨k, hk⟩ | hr
          · exact Or.inl ⟨k, by simp [hk]⟩
          · exact Or.inr hr
      | .returnedPromise _ _, h =>
          rcases ih s' (by simpa [openStep] using h) with ⟨k, hk⟩ | hr
          · exact Or.inl ⟨k, by simp [hk]⟩
          · exact Or.inr hr
      | .returnedUndef _, h =>
          rcases ih s' (by simpa [openStep] using h) with ⟨k, hk⟩ | hr
          · exact Or.inl ⟨k, by simp [hk]⟩
          · exact Or.inr hr
      | .threwOnce _, h =>
          rcases ih s' (by simpa [openStep] using h) with ⟨k, hk⟩ | hr
          · exact Or.inl ⟨k, by simp [hk]⟩
          · exact Or.inr hr
      | .rejectedOnce _, h =>
          rcases ih s' (by simpa [openStep] using h) with ⟨k, hk⟩ | hr
          · exact Or.inl ⟨k, by simp [hk]⟩
          · exact Or.inr hr
      | .enqueued _ _ _, h =>
          rcases ih s' (by simpa [openStep] using h) with ⟨k, hk⟩ | hr
          · exact Or.inl ⟨k, by simp [hk]⟩
          · exact Or.inr hr
      | .enqueuedRemove _ _, h =>
          rcases ih s' (by simpa [openStep] using h) with ⟨k, hk⟩ | hr
          · exact Or.inl ⟨k, by simp [hk]⟩
          · exact Or.inr hr
      | .ranUnderlying _ _ _, h =>
          rcases ih s' (by simpa [openStep] using h) with ⟨k, hk⟩ | hr
          · exact Or.inl ⟨k, by simp [hk]⟩
          · exact Or.inr hr
      | .notifyMember _ _ _ _, h =>
          rcases ih s' (by simpa [openStep] using h) with ⟨k, hk⟩ | hr
          · exact Or.inl ⟨k, by simp [hk]⟩
          · exact Or.inr hr
      | .notifyAll _ _ _ _, h =>
          rcases ih s' (by simpa [openStep] using h) with ⟨k, hk⟩ | hr
          · exact Or.inl ⟨k, by simp [hk]⟩
          · exact Or.inr hr
      | .notifyCatch _ _ _ _, h =>
          rcases ih s' (by simpa [openStep] using h) with ⟨k, hk⟩ | hr
          · exact Or.inl ⟨k, by simp [hk]⟩
          · exact Or.inr hr
      | .resolvedEv _ _, h =>
          rcases ih s' (by simpa [openStep] using h) with ⟨k, hk⟩ | hr
          · exact Or.inl ⟨k, by simp [hk]⟩
          · exact Or.inr hr
      | .rejectedEv _ _, h =>
          rcases ih s' (by simpa [openStep] using h) with ⟨k, hk⟩ | hr
          · exact Or.inl ⟨k, by simp [hk]⟩
          · exact Or.inr hr
      | .drainHalted _ _, h =>
          rcases ih s' (by simpa [openStep] using h) with ⟨k, hk⟩ | hr
          · exact Or.inl ⟨k, by simp [hk]⟩
          · exact Or.inr hr

theorem openStep_some_open {s : Option Nat} {ev : Ev} {u : Nat}
    (h : openStep s ev = some (some u)) :
    s = some u ∨ ∃ k, ev = Ev.settleStart u k := by
  match ev, h with
  | .settleStart u' k, h =>
      cases s with
      | none =>
          right
          refine ⟨k, ?_⟩
          have : u' = u := by simpa [openStep] using h
          rw [this]
      | some w => simp [openStep] at h
  | .settleEnd u' k, h =>
      cases s with
      | none => simp [openStep] at h
      | some w =>
          by_cases hw : w = u'
          · simp [openStep, hw] at h
          · simp [openStep, hw] at h
  | .removedSub _ _, h =>
      cases s with
      | none => simp [openStep] at h
      | some w => simp [openStep] at h
  | .invoked _ _, h => exact Or.inl (by simpa [openStep] using h)
  | .returnedPromise _ _, h => exact Or.inl (by simpa [openStep] using h)
  | .returnedUndef _, h => exact Or.inl (by simpa [openStep] using h)
  | .threwOnce _, h => exact Or.inl (by simpa [openStep] using h)
  | .rejectedOnce _, h => exact Or.inl (by simpa [openStep] using h)
  | .enqueued _ _ _, h => exact Or.inl (by simpa [openStep] using h)
  | .enqueuedRemove _ _, h => exact Or.inl (by simpa [openStep] using h)
  | .ranUnderlying _ _ _, h => exact Or.inl (by simpa [openStep] using h)
  | .notifyMember _ _ _ _, h => exact Or.inl (by simpa [openStep] using h)
  | .notifyAll _ _ _ _, h => exact Or.inl (by simpa [openStep] using h)
  | .notifyCatch _ _ _ _, h => exact Or.inl (by simpa [openStep] using h)
  | .resolvedEv _ _, h => exact Or.inl (by simpa [openStep] using h)
  | .rejectedEv _ _, h => exact Or.inl (by simpa [openStep] using h)
  | .drainHalted _ _, h => exact Or.inl (by simpa [openStep] using h)

theorem openFold_started_closes {l : List Ev} {u : Nat} {k : String}
    {s s' : Option Nat} (h : openFoldAux s l = some s')
    (hst : Ev.settleStart u k ∈ l) :
    (∃ k', Ev.settleEnd u k' ∈ l) ∨ s' = some u := by
  obtain ⟨A, B, rfl⟩ := List.append_of_mem hst
  rw [openFoldAux_append] at h
  cases hA : openFoldAux s A with
  | none => rw [hA] at h; simp at h
  | some sA =>
      rw [hA] at h
      simp only [openFoldAux] at h
      cases sA with
      | none =>
          simp only [openStep] at h
          rcases openFold_closes_from_open B s' h with ⟨k', hk'⟩ | hr
          · exact Or.inl ⟨k', by simp [hk']⟩
          · exact Or.inr hr
      | some w => simp [openStep] at h

theorem openFold_open_started {u : Nat} :
    ∀ (l : List Ev) (s : Option Nat), openFoldAux s l = some (some u) →
      s = some u ∨ ∃ k, Ev.settleStart u k ∈ l := by
  intro l
  induction l with
  | nil =>
      intro s h
      left
      simpa [openFoldAux] using h
  | cons ev rest ih =>
      intro s h
      simp only [openFoldAux] at h
      cases hos : openStep s ev with
      | none => rw [hos] at h; simp at h
      | some s1 =>
          rw [hos] at h
          rcases ih s1 h with hs1 | ⟨k, hk⟩
          · subst hs1
            rcases openStep_some_open hos with hl | ⟨k, hk⟩
            · exact Or.inl hl
            · exact Or.inr ⟨k, by simp [hk]⟩
          · exact Or.inr ⟨k, by simp [hk]⟩

theorem openFold_removal_prefix {A B : List Ev} {r sid : Nat} {s' : Option Nat}
    (h : openFoldAux none (A ++ Ev.removedSub r sid :: B) = some s') :
    openFoldAux none A = some none := by
  rw [openFoldAux_append] at h
  cases hA : openFoldAux none A with
  | none => rw [hA] at h; simp at h
  | some sA =>
      rw [hA] at h
      cases sA with
      | none => rfl
      | some w => simp [openFoldAux, openStep] at h

theorem countRanOf_append (key : String) (l1 l2 : List Ev) :
    countRanOf key (l1 ++ l2) = countRanOf key l1 + countRanOf key l2 := by
  simp [countRanOf, List.filter_append]

theorem countInitTasks_append (q1 q2 : List QTask) :
    countInitTasks (q1 ++ q2) = countInitTasks q1 + countInitTasks q2 := by
  simp [countInitTasks, List.filter_append]

theorem countInitTasks_cons (t : QTask) (q : List QTask) :
    countInitTasks (t :: q) =
      (if taskKeyIsInit t then 1 else 0) + countInitTasks q := by
  by_cases h : taskKeyIsInit t <;>
    simp [countInitTasks, List.filter_cons, h, Nat.add_comm]

theorem mem_execUids {l : List Ev} {u : Nat} :
    u ∈ execUids l ↔ ∃ e ∈ l, execProj e = some u := by
  simp [execUids, List.mem_filterMap]

theorem execProj_shape {e : Ev} {u : Nat} (h : execProj e = some u) :
    (∃ k, e = Ev.settleStart u k) ∨ ∃ s, e = Ev.removedSub u s := by
  match e, h with
  | .settleStart u' k, h =>
      left
      refine ⟨k, ?_⟩
      have : u' = u := by simpa [execProj] using h
      rw [this]
  | .removedSub u' s, h =>
      right
      refine ⟨s, ?_⟩
      have : u' = u := by simpa [execProj] using h
      rw [this]

theorem enqProj_shape {e : Ev} {u : Nat} (h : enqProj e = some u) :
    (∃ k, e = Ev.enqueued u k false) ∨ ∃ s, e = Ev.enqueuedRemove u s := by
  match e, h with
  | .enqueued u' k fr, h =>
      match fr, h with
      | false, h =>
          left
          refine ⟨k, ?_⟩
          have : u' = u := by simpa [enqProj] using h
          rw [this]
  | .enqueuedRemove u' s, h =>
      right
      refine ⟨s, ?_⟩
      have : u' = u := by simpa [enqProj] using h
      rw [this]

theorem run_append (cfg : Config) (acts acts2 : List Act) :
    run cfg (acts ++ acts2) = acts2.foldl (step cfg) (run cfg acts) := by
  simp [run, List.foldl_append]

theorem run_snoc (cfg : Config) (acts : List Act) (a : Act) :
    run cfg (acts ++ [a]) = step cfg (run cfg acts) a := by
  simp [run, List.foldl_append]

theorem kick_queue (st : EmState) : (kick st).queue = st.queue := by
  unfold kick; split <;> rfl

theorem kick_subs (st : EmState) : (kick st).subs = st.subs := by
  unfold kick; split <;> rfl

theorem kick_enabled (st : EmState) : (kick st).enabled = st.enabled := by
  unfold kick; split <;> rfl

theorem kick_initialized (st : EmState) : (kick st).initialized = st.initialized := by
  unfold kick; split <;> rfl

theorem kick_running (st : EmState) : (kick st).running = st.running := by
  unfold kick; split <;> rfl

theorem kick_halted (st : EmState) : (kick st).halted = st.halted := by
  unfold kick; split <;> rfl

theorem kick_nextUid (st : EmState) : (kick st).nextUid = st.nextUid := by
  unfold kick; split <;> rfl

theorem kick_nextSid (st : EmState) : (kick st).nextSid = st.nextSid := by
  unfold kick; split <;> rfl

theorem kick_log (st : EmState) : (kick st).log = st.log := by
  unfold kick; split <;> rfl

theorem kick_flushing (st : EmState) :
    (kick st).flushing = (st.flushing || st.initialized) := by
  unfold kick
  by_cases hi : st.initialized <;> by_cases hf : st.flushing <;> simp [hi, hf]

theorem sqc_initialized (st : EmState) :
    (settleQueueCheck st).initialized = st.initialized := by
  unfold settleQueueCheck; split <;> rfl

theorem sqc_enabled (st : EmState) :
    (settleQueueCheck st).enabled = st.enabled := by
  unfold settleQueueCheck; split <;> rfl

theorem sqc_queue (st : EmState) :
    (settleQueueCheck st).queue = st.queue := by
  unfold settleQueueCheck; split <;> rfl

theorem sqc_subs (st : EmState) :
    (settleQueueCheck st).subs = st.subs := by
  unfold settleQueueCheck; split <;> rfl

theorem sqc_running (st : EmState) :
    (settleQueueCheck st).running = st.running := by
  unfold settleQueueCheck; split <;> rfl

theorem sqc_halted (st : EmState) :
    (settleQueueCheck st).halted = st.halted := by
  unfold settleQueueCheck; split <;> rfl

theorem sqc_nextUid (st : EmState) :
    (settleQueueCheck st).nextUid = st.nextUid := by
  unfold settleQueueCheck; split <;> rfl

theorem sqc_nextSid (st : EmState) :
    (settleQueueCheck st).nextSid = st.nextSid := by
  unfold settleQueueCheck; split <;> rfl

theorem sqc_log (st : EmState) :
    (settleQueueCheck st).log = st.log := by
  unfold settleQueueCheck; split <;> rfl

theorem sqc_flushing (st : EmState) :
    (settleQueueCheck st).flushing =
      (if st.queue.isEmpty then false else st.flushing) := by
  unfold settleQueueCheck; split <;> simp_all

theorem completeRun_initialized (st : EmState) (r : Running) :
    (completeRun st r).initialized = st.initialized := by
  cases hro : r.out <;> simp [completeRun, hro, sqc_initialized]

theorem completeRun_enabled (st : EmState) (r : Running) :
    (completeRun st r).enabled = st.enabled := by
  cases hro : r.out <;> simp [completeRun, hro, sqc_enabled]

theorem completeRun_queue (st : EmState) (r : Running) :
    (completeRun st r).queue = st.queue := by
  cases hro : r.out <;> simp [completeRun, hro, sqc_queue]

theorem completeRun_subs (st : EmState) (r : Running) :
    (completeRun st r).subs = st.subs := by
  cases hro : r.out <;> simp [completeRun, hro, sqc_subs]

theorem completeRun_running (st : EmState) (r : Running) :
    (completeRun st r).running = none := by
  cases hro : r.out <;> simp [completeRun, hro, sqc_running]

theorem completeRun_halted (st : EmState) (r : Running) :
    (completeRun st r).halted = st.halted := by
  cases hro : r.out <;> simp [completeRun, hro, sqc_halted]

theorem completeRun_nextUid (st : EmState) (r : Running) :
    (completeRun st r).nextUid = st.nextUid := by
  cases hro : r.out <;> simp [completeRun, hro, sqc_nextUid]

theorem completeRun_nextSid (st : EmState) (r : Running) :
    (completeRun st r).nextSid = st.nextSid := by
  cases hro : r.out <;> simp [completeRun, hro, sqc_nextSid]

theorem startTask_initialized (st : EmState) (t : QTask) :
    (startTask st t).initialized = st.initialized := by
  cases t with
  | settleAsync u k a d o => rfl
  | settleSync u k a o => cases o <;> simp [startTask, sqc_initialized]
  | removeSub u s => simp [startTask, sqc_initialized]

theorem startTask_enabled (st : EmState) (t : QTask) :
    (startTask st t).enabled = st.enabled := by
  cases t with
  | settleAsync u k a d o => rfl
  | settleSync u k a o => cases o <;> simp [startTask, sqc_enabled]
  | removeSub u s => simp [startTask, sqc_enabled]

theorem startTask_nextUid (st : EmState) (t : QTask) :
    (startTask st t).nextUid = st.nextUid := by
  cases t with
  | settleAsync u k a d o => rfl
  | settleSync u k a o => cases o <;> simp [startTask, sqc_nextUid]
  | removeSub u s => simp [startTask, sqc_nextUid]

theorem startTask_nextSid (st : EmState) (t : QTask) :
    (startTask st t).nextSid = st.nextSid := by
  cases t with
  | settleAsync u k a d o => rfl
  | settleSync u k a o => cases o <;> simp [startTask, sqc_nextSid]
  | removeSub u s => simp [startTask, sqc_nextSid]

theorem startTask_queue (st : EmState) (t : QTask) :
    (startTask st t).queue = st.queue := by
  cases t with
  | settleAsync u k a d o => rfl
  | settleSync u k a o => cases o <;> simp [startTask, sqc_queue]
  | removeSub u s => simp [startTask, sqc_queue]

theorem tick_initialized (st : EmState) : (tick st).initialized = st.initialized := by
  unfold tick
  by_cases hh : st.halted
  · simp [hh]
  · simp only [hh]
    cases hr : st.running with
    | some r =>
        cases hrem : r.rem with
        | zero => simp [hrem, completeRun_initialized]
        | succ n => simp [hrem]
    | none =>
        by_cases hf : st.flushing
        · simp only [hf]
          cases hq : st.queue with
          | nil => simp
          | cons t rest => simp [startTask_initialized]
        · simp [hf]

theorem tick_enabled (st : EmState) : (tick st).enabled = st.enabled := by
  unfold tick
  by_cases hh : st.halted
  · simp [hh]
  · simp only [hh]
    cases hr : st.running with
    | some r =>
        cases hrem : r.rem with
        | zero => simp [hrem, completeRun_enabled]
        | succ n => simp [hrem]
    | none =>
        by_cases hf : st.flushing
        · simp only [hf]
          cases hq : st.queue with
          | nil => simp
          | cons t rest => simp [startTask_enabled]
        · simp [hf]

theorem tick_nextUid (st : EmState) : (tick st).nextUid = st.nextUid := by
  unfold tick
  by_cases hh : st.halted
  · simp [hh]
  · simp only [hh]
    cases hr : st.running with
    | some r =>
        cases hrem : r.rem with
        | zero => simp [hrem, completeRun_nextUid]
        | succ n => simp [hrem]
    | none =>
        by_cases hf : st.flushing
        · simp only [hf]
          cases hq : st.queue with
          | nil => simp
          | cons t rest => simp [startTask_nextUid]
        · simp [hf]

theorem tick_nextSid (st : EmState) : (tick st).nextSid = st.nextSid := by
  unfold tick
  by_cases hh : st.halted
  · simp [hh]
  · simp only [hh]
    cases hr : st.running with
    | some r =>
        cases hrem : r.rem with
        | zero => simp [hrem, completeRun_nextSid]
        | succ n => simp [hrem]
    | none =>
        by_cases hf : st.flushing
        · simp only [hf]
          cases hq : st.queue with
          | nil => simp
          | cons t rest => simp [startTask_nextSid]
        · simp [hf]

theorem invoke_missing {cfg : Config} {st : EmState} {key : String}
    {args : List Nat} (h : lookupEntry cfg key = none) :
    invoke cfg st key args = st := by
  unfold invoke
  rw [h]

theorem invoke_value {cfg : Config} {st : EmState} {key : String}
    {args : List Nat} {v : Nat} (h : lookupEntry cfg key = some (Entry.value v)) :
    invoke cfg st key args = st := by
  unfold invoke
  rw [h]

theorem invoke_async_double {cfg : Config} {st : EmState} {args : List Nat}
    {d : Nat} {f : List Nat → Except Nat Nat}
    (h : lookupEntry cfg initKey = some (Entry.asyncFn d f))
    (hi : st.initialized = true) :
    invoke cfg st initKey args =
      { st with nextUid := st.nextUid + 1,
                log := st.log ++ [Ev.invoked initKey args,
                  Ev.returnedPromise st.nextUid initKey,
                  Ev.rejectedOnce st.nextUid] } := by
  unfold invoke
  rw [h]
  simp [flushTask, hi, List.append_assoc]

theorem invoke_async_init_first {cfg : Config} {st : EmState} {args : List Nat}
    {d : Nat} {f : List Nat → Except Nat Nat}
    (h : lookupEntry cfg initKey = some (Entry.asyncFn d f))
    (hi : st.initialized = false) :
    invoke cfg st initKey args =
      { st with nextUid := st.nextUid + 1,
                initialized := true,
                flushing := true,
                queue := QTask.settleAsync st.nextUid initKey args d (f args) :: st.queue,
                log := st.log ++ [Ev.invoked initKey args,
                  Ev.returnedPromise st.nextUid initKey,
                  Ev.enqueued st.nextUid initKey true] } := by
  unfold invoke
  rw [h]
  simp only [flushTask, if_pos rfl, hi, Bool.false_eq_true, if_false]
  unfold kick
  by_cases hf : st.flushing <;> simp [hf, List.append_assoc, QTask.uid]

theorem invoke_async_other {cfg : Config} {st : EmState} {key : String}
    {args : List Nat} {d : Nat} {f : List Nat → Except Nat Nat}
    (h : lookupEntry cfg key = some (Entry.asyncFn d f)) (hk : key ≠ initKey) :
    invoke cfg st key args =
      kick { st with nextUid := st.nextUid + 1,
                     initialized := (if noInitProp cfg then true else st.initialized),
                     queue := st.queue ++ [QTask.settleAsync st.nextUid key args d (f args)],
                     log := st.log ++ [Ev.invoked key args,
                       Ev.returnedPromise st.nextUid key,
                       Ev.enqueued st.nextUid key false] } := by
  unfold invoke
  rw [h]
  simp only [flushTask, if_neg hk]
  by_cases hni : noInitProp cfg <;> simp [hni, List.append_assoc, QTask.uid]

theorem invoke_sync_double {cfg : Config} {st : EmState} {args : List Nat}
    {f : List Nat → Except Nat Nat}
    (h : lookupEntry cfg initKey = some (Entry.syncFn f))
    (hi : st.initialized = true) :
    invoke cfg st initKey args =
      { st with nextUid := st.nextUid + 1,
                log := st.log ++ [Ev.invoked initKey args, Ev.threwOnce initKey] } := by
  unfold invoke
  rw [h]
  simp [flushTask, hi, List.append_assoc]

theorem invoke_sync_init_first {cfg : Config} {st : EmState} {args : List Nat}
    {f : List Nat → Except Nat Nat}
    (h : lookupEntry cfg initKey = some (Entry.syncFn f))
    (hi : st.initialized = false) :
    invoke cfg st initKey args =
      { st with nextUid := st.nextUid + 1,
                initialized := true,
                flushing := true,
                queue := QTask.settleSync st.nextUid initKey args (f args) :: st.queue,
                log := st.log ++ [Ev.invoked initKey args,
                  Ev.enqueued st.nextUid initKey true,
                  Ev.returnedUndef initKey] } := by
  unfold invoke
  rw [h]
  simp only [flushTask, if_pos rfl, hi, Bool.false_eq_true, if_false]
  unfold kick
  by_cases hf : st.flushing <;> simp [hf, List.append_assoc, QTask.uid]

theorem invoke_sync_other {cfg : Config} {st : EmState} {key : String}
    {args : List Nat} {f : List Nat → Except Nat Nat}
    (h : lookupEntry cfg key = some (Entry.syncFn f)) (hk : key ≠ initKey) :
    invoke cfg st key args =
      kick { st with nextUid := st.nextUid + 1,
                     initialized := (if noInitProp cfg then true else st.initialized),
                     queue := st.queue ++ [QTask.settleSync st.nextUid key args (f args)],
                     log := st.log ++ [Ev.invoked key args,
                       Ev.enqueued st.nextUid key false,
                       Ev.returnedUndef key] } := by
  unfold invoke
  rw [h]
  simp only [flushTask, if_neg hk]
  unfold kick
  by_cases hni : noInitProp cfg <;> by_cases hf : st.flushing <;>
    by_cases hi : st.initialized <;> simp [hni, hf, hi, List.append_assoc, QTask.uid]

theorem step_invoke (cfg : Config) (st : EmState) (key : String) (args : List Nat) :
    step cfg st (Act.invoke key args) = invoke cfg st key args := rfl

theorem step_subscribe (cfg : Config) (st : EmState) (sr : SubRecord) :
    step cfg st (Act.subscribe sr) =
      { st with subs := st.subs ++ [(st.nextSid, sr)],
                nextSid := st.nextSid + 1 } := rfl

theorem step_unsub_idle {cfg : Config} {st : EmState} {sid : Nat}
    (h : st.flushing = false) :
    step cfg st (Act.unsubscribe sid) =
      { st with subs := st.subs.filter (fun p => p.1 != sid) } := by
  simp [step, h]

theorem step_unsub_flushing {cfg : Config} {st : EmState} {sid : Nat}
    (h : st.flushing = true) :
    step cfg st (Act.unsubscribe sid) =
      { st with queue := st.queue ++ [QTask.removeSub st.nextUid sid],
                nextUid := st.nextUid + 1,
                log := st.log ++ [Ev.enqueuedRemove st.nextUid sid] } := by
  simp [step, h]

theorem step_enable (cfg : Config) (st : EmState) :
    step cfg st Act.enable = { st with enabled := true } := rfl

theorem step_disable (cfg : Config) (st : EmState) :
    step cfg st Act.disable = { st with enabled := false } := rfl

theorem step_tick (cfg : Config) (st : EmState) :
    step cfg st Act.tick = tick st := rfl

theorem tick_of_halted {st : EmState} (h : st.halted = true) : tick st = st := by
  simp [tick, h]

theorem tick_decrement {st : EmState} {r : Running} {n : Nat}
    (hh : st.halted = false) (hr : st.running = some r) (hrem : r.rem = n + 1) :
    tick st = { st with running := some { r with rem := n } } := by
  simp [tick, hh, hr, hrem]

theorem tick_complete {st : EmState} {r : Running}
    (hh : st.halted = false) (hr : st.running = some r) (hrem : r.rem = 0) :
    tick st = completeRun st r := by
  simp [tick, hh, hr, hrem]

theorem tick_idle {st : EmState}
    (hh : st.halted = false) (hr : st.running = none) (hf : st.flushing = false) :
    tick st = st := by
  simp [tick, hh, hr, hf]

theorem tick_empty {st : EmState}
    (hh : st.halted = false) (hr : st.running = none) (hf : st.flushing = true)
    (hq : st.queue = []) :
    tick st = { st with flushing := false } := by
  simp [tick, hh, hr, hf, hq]

theorem tick_pop {st : EmState} {t : QTask} {rest : List QTask}
    (hh : st.halted = false) (hr : st.running = none) (hf : st.flushing = true)
    (hq : st.queue = t :: rest) :
    tick st = startTask { st with queue := rest } t := by
  simp [tick, hh, hr, hf, hq]

theorem initialized_mono (cfg : Config) (st : EmState) (a : Act)
    (h : st.initialized = true) : (step cfg st a).initialized = true := by
  cases a with
  | invoke key args =>
      rw [step_invoke]
      cases hl : lookupEntry cfg key with
      | none => rw [invoke_missing hl]; exact h
      | some e =>
          cases e with
          | value v => rw [invoke_value hl]; exact h
          | asyncFn d f =>
              by_cases hk : key = initKey
              · subst hk
                rw [invoke_async_double hl h]
                exact h
              · rw [invoke_async_other hl hk, kick_initialized]
                by_cases hni : noInitProp cfg <;> simp [hni, h]
          | syncFn f =>
              by_cases hk : key = initKey
              · subst hk
                rw [invoke_sync_double hl h]
                exact h
              · rw [invoke_sync_other hl hk, kick_initialized]
                by_cases hni : noInitProp cfg <;> simp [hni, h]
  | subscribe sr => rw [step_subscribe]; exact h
  | unsubscribe sid =>
      by_cases hf : st.flushing
      · rw [step_unsub_flushing hf]; exact h
      · rw [step_unsub_idle (by simpa using hf)]; exact h
  | enable => rw [step_enable]; exact h
  | disable => rw [step_disable]; exact h
  | tick => rw [step_tick, tick_initialized]; exact h

theorem initialized_mono_run (cfg : Config) (acts : List Act) (more : List Act)
    (h : (run cfg acts).initialized = true) :
    (run cfg (acts ++ more)).initialized = true := by
  induction more using List.reverseRecOn with
  | nil => simpa using h
  | append_singleton ms a ih =>
      rw [← List.append_assoc, run_snoc]
      exact initialized_mono cfg _ a ih

theorem execUids_append (l1 l2 : List Ev) :
    execUids (l1 ++ l2) = execUids l1 ++ execUids l2 := by
  simp [execUids]

theorem noInitSettleEv_append (l1 l2 : List Ev) :
    noInitSettleEv (l1 ++ l2) = (noInitSettleEv l1 && noInitSettleEv l2) := by
  simp [noInitSettleEv, List.all_append]

theorem initStartedB_append (l1 l2 : List Ev) :
    initStartedB (l1 ++ l2) = (initStartedB l1 || initStartedB l2) := by
  simp [initStartedB, List.any_append]

theorem initStartedB_elim {l : List Ev} (h : initStartedB l = true) :
    ∃ u, Ev.settleStart u initKey ∈ l := by
  obtain ⟨ev, hmem, hev⟩ := List.any_eq_true.mp h
  match ev, hev with
  | .settleStart u k, hev =>
      exact ⟨u, by rwa [show k = initKey from by simpa using hev] at hmem⟩

theorem initStartedB_intro {l : List Ev} {u : Nat}
    (h : Ev.settleStart u initKey ∈ l) : initStartedB l = true := by
  refine List.any_eq_true.mpr ⟨Ev.settleStart u initKey, h, by simp⟩

theorem headIsInit_append {q q2 : List QTask} (h : headIsInit q = true) :
    headIsInit (q ++ q2) = true := by
  cases q with
  | nil => simp [headIsInit] at h
  | cons t rest => simpa [headIsInit] using h

theorem noInitLookup_noInitProp {cfg : Config}
    (h : lookupEntry cfg initKey ≠ none) : noInitProp cfg = false := by
  simp [noInitProp, Option.isNone]
  cases hl : lookupEntry cfg initKey with
  | none => exact absurd hl h
  | some e => simp

theorem successEvsFor_mem {key : String} {v : Nat} {args : List Nat}
    {sid : Nat} {r : SubRecord} {e : Ev}
    (h : e ∈ successEvsFor key v args sid r) :
    e = Ev.notifyMember sid key v args ∨ e = Ev.notifyAll sid key v args := by
  unfold successEvsFor at h
  rcases hm : (r.memberCbs.find? (fun p => p.1 = key)).map (fun p => p.2) with _ | cb
  · rw [hm] at h
    cases ha : r.allCb with
    | none => rw [ha] at h; simp at h
    | some c => rw [ha] at h; simp at h; exact Or.inr h
  · rw [hm] at h
    cases cb with
    | throwSync =>
        simp at h
        exact Or.inl h
    | ok =>
        cases ha : r.allCb with
        | none => rw [ha] at h; simp at h; exact Or.inl h
        | some c =>
            rw [ha] at h
            simp at h
            rcases h with h | h
            · exact Or.inl h
            · exact Or.inr h
    | rejectAsync =>
        cases ha : r.allCb with
        | none => rw [ha] at h; simp at h; exact Or.inl h
        | some c =>
            rw [ha] at h
            simp at h
            rcases h with h | h
            · exact Or.inl h
            · exact Or.inr h

theorem successFanOut_mem {key : String} {v : Nat} {args : List Nat} :
    ∀ {subs : List (Nat × SubRecord)} {e : Ev},
      e ∈ successFanOut key v args subs →
      (∃ sid, e = Ev.notifyMember sid key v args) ∨
        (∃ sid, e = Ev.notifyAll sid key v args) := by
  intro subs
  induction subs with
  | nil => intro e h; simp [successFanOut] at h
  | cons p rest ih =>
      intro e h
      obtain ⟨sid, r⟩ := p
      simp only [successFanOut, List.mem_append] at h
      rcases h with h | h
      · rcases successEvsFor_mem h with h1 | h1
        · exact Or.inl ⟨sid, h1⟩
        · exact Or.inr ⟨sid, h1⟩
      · exact ih h

theorem catchFanOut_mem {key : String} {err : Nat} {args : List Nat} :
    ∀ {subs : List (Nat × SubRecord)} {e : Ev},
      e ∈ catchFanOut key err args subs →
      ∃ sid, e = Ev.notifyCatch sid key err args := by
  intro subs
  induction subs with
  | nil => intro e h; simp [catchFanOut] at h
  | cons p rest ih =>
      intro e h
      obtain ⟨sid, r⟩ := p
      simp only [catchFanOut, List.mem_append] at h
      rcases h with h | h
      · cases hc : r.catchCb with
        | none => rw [hc] at h; simp at h
        | some c =>
            rw [hc] at h
            simp at h
            exact ⟨sid, h⟩
      · exact ih h

theorem openFoldAux_pass :
    ∀ {l : List Ev}, (∀ e ∈ l, ∀ s0 : Option Nat, openStep s0 e = some s0) →
      ∀ s : Option Nat, openFoldAux s l = some s := by
  intro l
  induction l with
  | nil => intro _ s; rfl
  | cons ev rest ih =>
      intro h s
      simp only [openFoldAux]
      rw [h ev (by simp) s]
      exact ih (fun e he s0 => h e (by simp [he]) s0) s

theorem openFoldAux_successFanOut (key : String) (v : Nat) (args : List Nat)
    (subs : List (Nat × SubRecord)) (s : Option Nat) :
    openFoldAux s (successFanOut key v args subs) = some s := by
  refine openFoldAux_pass ?_ s
  intro e he s0
  rcases successFanOut_mem he with ⟨sid, rfl⟩ | ⟨sid, rfl⟩ <;> rfl

theorem openFoldAux_catchFanOut (key : String) (err : Nat) (args : List Nat)
    (subs : List (Nat × SubRecord)) (s : Option Nat) :
    openFoldAux s (catchFanOut key err args subs) = some s := by
  refine openFoldAux_pass ?_ s
  intro e he s0
  obtain ⟨sid, rfl⟩ := catchFanOut_mem he
  rfl

theorem successFanOut_no_start {key : String} {v : Nat} {args : List Nat}
    {subs : List (Nat × SubRecord)} {u : Nat} {k : String} :
    Ev.settleStart u k ∉ successFanOut key v args subs := by
  intro h
  rcases successFanOut_mem h with ⟨sid, he⟩ | ⟨sid, he⟩ <;> simp at he

theorem catchFanOut_no_start {key : String} {err : Nat} {args : List Nat}
    {subs : List (Nat × SubRecord)} {u : Nat} {k : String} :
    Ev.settleStart u k ∉ catchFanOut key err args subs := by
  intro h
  obtain ⟨sid, he⟩ := catchFanOut_mem h
  simp at he

theorem successFanOut_no_ran {key : String} {v : Nat} {args : List Nat}
    {subs : List (Nat × SubRecord)} :
    countRanOf initKey (successFanOut key v args subs) = 0 := by
  rw [countRanOf, List.length_eq_zero]
  rw [List.filter_eq_nil_iff]
  intro e he
  rcases successFanOut_mem he with ⟨sid, rfl⟩ | ⟨sid, rfl⟩ <;> simp

theorem catchFanOut_no_ran {key : String} {err : Nat} {args : List Nat}
    {subs : List (Nat × SubRecord)} :
    countRanOf initKey (catchFanOut key err args subs) = 0 := by
  rw [countRanOf, List.length_eq_zero]
  rw [List.filter_eq_nil_iff]
  intro e he
  obtain ⟨sid, rfl⟩ := catchFanOut_mem he
  simp

theorem successFanOut_no_exec {key : String} {v : Nat} {args : List Nat}
    {subs : List (Nat × SubRecord)} :
    execUids (successFanOut key v args subs) = [] := by
  rw [execUids, List.filterMap_eq_nil_iff]
  intro e he
  rcases successFanOut_mem he with ⟨sid, rfl⟩ | ⟨sid, rfl⟩ <;> rfl

theorem catchFanOut_no_exec {key : String} {err : Nat} {args : List Nat}
    {subs : List (Nat × SubRecord)} :
    execUids (catchFanOut key err args subs) = [] := by
  rw [execUids, List.filterMap_eq_nil_iff]
  intro e he
  obtain ⟨sid, rfl⟩ := catchFanOut_mem he
  rfl

theorem split_append_cases {l1 l2 A B2 : List Ev} {e : Ev}
    (h : l1 ++ l2 = A ++ e :: B2) :
    (∃ B1, l1 = A ++ e :: B1 ∧ B2 = B1 ++ l2) ∨
      (∃ A2, A = l1 ++ A2 ∧ l2 = A2 ++ e :: B2) := by
  rcases List.append_eq_append_iff.mp h with ⟨m, hm1, hm2⟩ | ⟨m, hm1, hm2⟩
  · exact Or.inr ⟨m, hm1, hm2⟩
  · cases m with
    | nil =>
        right
        refine ⟨[], by simp [hm1], ?_⟩
        simpa using hm2.symm
    | cons e' m' =>
        left
        simp only [List.cons_append] at hm2
        injection hm2 with he htl
        subst he
        exact ⟨m', by rw [hm1], htl⟩

theorem c2a_prop_extend {lg l2 : List Ev}
    (hold : ∀ A u k B2, lg = A ++ Ev.settleStart u k :: B2 → k ≠ initKey →
        ∃ u' k', Ev.settleStart u' initKey ∈ A ∧ Ev.settleEnd u' k' ∈ A)
    (hno : ∀ u k, Ev.settleStart u k ∉ l2) :
    ∀ A u k B2, lg ++ l2 = A ++ Ev.settleStart u k :: B2 → k ≠ initKey →
      ∃ u' k', Ev.settleStart u' initKey ∈ A ∧ Ev.settleEnd u' k' ∈ A := by
  intro A u k B2 h hk
  rcases split_append_cases h with ⟨B1, h1, _⟩ | ⟨A2, hA, h2⟩
  · exact hold A u k B1 h1 hk
  · exfalso
    refine hno u k ?_
    rw [h2]
    exact List.mem_append_of_mem_right A2 (by simp)

theorem c2a_prop_extend_start {lg : List Ev} {u0 : Nat} {k0 : String}
    {l2 : List Ev}
    (hold : ∀ A u k B2, lg = A ++ Ev.settleStart u k :: B2 → k ≠ initKey →
        ∃ u' k', Ev.settleStart u' initKey ∈ A ∧ Ev.settleEnd u' k' ∈ A)
    (hno : ∀ u k, Ev.settleStart u k ∉ l2)
    (hinit : k0 ≠ initKey →
        ∃ u' k', Ev.settleStart u' initKey ∈ lg ∧ Ev.settleEnd u' k' ∈ lg) :
    ∀ A u k B2, lg ++ Ev.settleStart u0 k0 :: l2 = A ++ Ev.settleStart u k :: B2 →
      k ≠ initKey →
      ∃ u' k', Ev.settleStart u' initKey ∈ A ∧ Ev.settleEnd u' k' ∈ A := by
  intro A u k B2 h hk
  rcases split_append_cases h with ⟨B1, h1, _⟩ | ⟨A2, hA, h2⟩
  · exact hold A u k B1 h1 hk
  · cases A2 with
    | nil =>
        simp only [List.nil_append] at h2
        injection h2 with he htl
        injection he with hu hkk
        subst hkk
        obtain ⟨u', k', hst, hend⟩ := hinit hk
        refine ⟨u', k', ?_, ?_⟩ <;> rw [hA] <;> simp [hst, hend]
    | cons e2 A2' =>
        simp only [List.cons_append] at h2
        injection h2 with he htl
        exfalso
        refine hno u k ?_
        rw [htl]
        exact List.mem_append_of_mem_right A2' (by simp)

theorem invB_init (cfg : Config) : InvB cfg initState := by
  refine ⟨?_, ?_, ?_, ?_, ?_, ?_, ?_, ?_, ?_⟩
  · intro h; simp [initState] at h
  · intro h; simp [initState] at h
  · intro _ _; simp [initState, execUids]
  · intro _; simp [initState, countRanOf, countInitTasks]
  · intro _; simp [initState, noInitSettleEv]
  · intro _ h; simp [initState] at h
  · intro _ h; simp [initState] at h
  · simp [initState, openFold, openFoldAux, runningUid]
  · intro _ A u k B2 h _
    exfalso
    have := congrArg List.length h
    simp [initState] at this
    omega

theorem invB_subscribe (cfg : Config) (st : EmState) (sr : SubRecord)
    (h : InvB cfg st) : InvB cfg (step cfg st (Act.subscribe sr)) := by
  rw [step_subscribe]
  exact ⟨h.runFlush, h.flushInit, h.gate, h.initCount, h.noInitEvs,
    h.initFront, h.flushIff, h.opens, h.c2a⟩

theorem invB_enable (cfg : Config) (st : EmState)
    (h : InvB cfg st) : InvB cfg (step cfg st Act.enable) := by
  rw [step_enable]
  exact ⟨h.runFlush, h.flushInit, h.gate, h.initCount, h.noInitEvs,
    h.initFront, h.flushIff, h.opens, h.c2a⟩

theorem invB_disable (cfg : Config) (st : EmState)
    (h : InvB cfg st) : InvB cfg (step cfg st Act.disable) := by
  rw [step_disable]
  exact ⟨h.runFlush, h.flushInit, h.gate, h.initCount, h.noInitEvs,
    h.initFront, h.flushIff, h.opens, h.c2a⟩

theorem invB_unsubscribe (cfg : Config) (st : EmState) (sid : Nat)
    (h : InvB cfg st) : InvB cfg (step cfg st (Act.unsubscribe sid)) := by
  by_cases hf : st.flushing
  · rw [step_unsub_flushing hf]
    refine ⟨?_, ?_, ?_, ?_, ?_, ?_, ?_, ?_, ?_⟩
    · intro hr; exact h.runFlush hr
    · intro _; exact h.flushInit hf
    · intro hinit hni
      exact absurd (h.flushInit hf) (by simp [show st.initialized = false from hni])
    · intro hinit
      have := h.initCount hinit
      simp only [countRanOf_append, countInitTasks_append]
      simpa [countRanOf, countInitTasks, taskKeyIsInit] using this
    · intro hni
      exact absurd (h.flushInit hf) (by simp [show st.initialized = false from hni])
    · intro hinit hi
      rcases h.initFront hinit hi with h1 | ⟨h2, h3⟩
      · left
        rw [initStartedB_append, h1]
        rfl
      · right
        exact ⟨h2, headIsInit_append h3⟩
    · intro _ _
      constructor
      · intro _; left; simp
      · intro _; exact hf
    · have hop := h.opens
      unfold openFold at hop ⊢
      rw [openFoldAux_append, hop]
      rfl
    · intro hinit
      refine c2a_prop_extend (h.c2a hinit) ?_
      intro u k hmem
      simp at hmem
  · rw [step_unsub_idle (by simpa using hf)]
    exact ⟨h.runFlush, h.flushInit, h.gate, h.initCount, h.noInitEvs,
      h.initFront, h.flushIff, h.opens, h.c2a⟩

theorem invB_log_extend (cfg : Config) (st : EmState) (l2 : List Ev) (n' : Nat)
    (h : InvB cfg st)
    (hpass : ∀ e ∈ l2, ∀ s0 : Option Nat, openStep s0 e = some s0)
    (hnostart : ∀ u k, Ev.settleStart u k ∉ l2)
    (hnoran : countRanOf initKey l2 = 0)
    (hnoexec : execUids l2 = [])
    (hnoinit : noInitSettleEv l2 = true) :
    InvB cfg { st with nextUid := n', log := st.log ++ l2 } := by
  refine ⟨h.runFlush, h.flushInit, ?_, ?_, ?_, ?_, h.flushIff, ?_, ?_⟩
  · intro hinit hni
    obtain ⟨h1, h2, h3, h4⟩ := h.gate hinit hni
    refine ⟨h1, h2, h3, ?_⟩
    rw [execUids_append, h4, hnoexec]
    rfl
  · intro hinit
    rw [countRanOf_append, hnoran]
    simpa using h.initCount hinit
  · intro hni
    rw [noInitSettleEv_append, h.noInitEvs hni, hnoinit]
    rfl
  · intro hinit hi
    rcases h.initFront hinit hi with h1 | h2
    · left; rw [initStartedB_append, h1]; rfl
    · right; exact h2
  · have hop := h.opens
    unfold openFold at hop ⊢
    rw [openFoldAux_append, hop]
    exact openFoldAux_pass hpass _
  · intro hinit
    exact c2a_prop_extend (h.c2a hinit) hnostart

theorem invB_init_first (cfg : Config) (st : EmState) (t : QTask)
    (l2 : List Ev) (n' : Nat) (h : InvB cfg st)
    (hinit : lookupEntry cfg initKey ≠ none)
    (hi : st.initialized = false)
    (htk : taskKeyIsInit t = true)
    (hpass : ∀ e ∈ l2, ∀ s0 : Option Nat, openStep s0 e = some s0)
    (hnostart : ∀ u k, Ev.settleStart u k ∉ l2)
    (hnoran : countRanOf initKey l2 = 0) :
    InvB cfg { st with nextUid := n', initialized := true, flushing := true,
                       queue := t :: st.queue, log := st.log ++ l2 } := by
  obtain ⟨hf0, hr0, hh0, hex0⟩ := h.gate hinit hi
  have hcnt := h.initCount hinit
  rw [if_neg (by simp [hi])] at hcnt
  have hran0 : countRanOf initKey st.log = 0 := by omega
  have hq0 : countInitTasks st.queue = 0 := by omega
  refine ⟨?_, ?_, ?_, ?_, ?_, ?_, ?_, ?_, ?_⟩
  · intro _; rfl
  · intro _; rfl
  · intro _ hni; simp at hni
  · intro _
    rw [countRanOf_append, hnoran, countInitTasks_cons, htk, hran0, hq0]
    simp
  · intro hni; simp at hni
  · intro _ _
    right
    refine ⟨hr0, ?_⟩
    simpa [headIsInit] using htk
  · intro _ _
    constructor
    · intro _; left; simp
    · intro _; rfl
  · have hop := h.opens
    unfold openFold at hop ⊢
    rw [openFoldAux_append, hop]
    exact openFoldAux_pass hpass _
  · intro hinit2
    exact c2a_prop_extend (h.c2a hinit2) hnostart

theorem runningUid_kick (st : EmState) : runningUid (kick st) = runningUid st := by
  unfold runningUid
  rw [kick_running]

theorem invB_other_push (cfg : Config) (st : EmState)
    (t : QTask) (l2 : List Ev) (n' : Nat) (h : InvB cfg st)
    (htk : taskKeyIsInit t = false)
    (hpass : ∀ e ∈ l2, ∀ s0 : Option Nat, openStep s0 e = some s0)
    (hnostart : ∀ u k, Ev.settleStart u k ∉ l2)
    (hnoran : countRanOf initKey l2 = 0)
    (hnoexec : execUids l2 = [])
    (hnoinit : noInitSettleEv l2 = true) :
    InvB cfg (kick { st with
                     nextUid := n',
                     initialized := (if noInitProp cfg then true else st.initialized),
                     queue := st.queue ++ [t],
                     log := st.log ++ l2 }) := by
  refine ⟨?_, ?_, ?_, ?_, ?_, ?_, ?_, ?_, ?_⟩
  · intro hr
    rw [kick_running] at hr
    rw [kick_flushing]
    simp only [h.runFlush hr, Bool.true_or]
  · intro hfl
    rw [kick_flushing] at hfl
    rw [kick_initialized]
    rcases Bool.or_eq_true_iff.mp hfl with h1 | h1
    · have := h.flushInit h1
      simp [this]
    · exact h1
  · intro hinit hni
    rw [kick_initialized] at hni
    have hnp := noInitLookup_noInitProp hinit
    rw [hnp] at hni
    simp at hni
    obtain ⟨h1, h2, h3, h4⟩ := h.gate hinit hni
    refine ⟨?_, ?_, ?_, ?_⟩
    · rw [kick_flushing, hnp]
      simp [h1, hni]
    · rw [kick_running]; exact h2
    · rw [kick_halted]; exact h3
    · rw [kick_log]
      simp only
      rw [execUids_append, h4, hnoexec]
      rfl
  · intro hinit
    have hnp := noInitLookup_noInitProp hinit
    rw [kick_log, kick_queue, kick_initialized]
    simp only [hnp, if_false]
    rw [countRanOf_append, hnoran, countInitTasks_append]
    have : countInitTasks [t] = 0 := by
      simp [countInitTasks, List.filter, htk]
    rw [this]
    simpa using h.initCount hinit
  · intro hni
    rw [kick_initialized] at hni
    rw [kick_log]
    simp only at hni ⊢
    have hni2 : st.initialized = false := by
      rcases hnp : noInitProp cfg with _ | _
      · rw [hnp] at hni; simpa using hni
      · rw [hnp] at hni; simp at hni
    rw [noInitSettleEv_append, h.noInitEvs hni2, hnoinit]
    rfl
  · intro hinit hi
    rw [kick_initialized] at hi
    have hnp := noInitLookup_noInitProp hinit
    rw [hnp] at hi
    simp at hi
    rw [kick_log, kick_running, kick_queue]
    rcases h.initFront hinit hi with h1 | ⟨h2, h3⟩
    · left
      simp only
      rw [initStartedB_append, h1]
      rfl
    · right
      exact ⟨h2, headIsInit_append h3⟩
  · intro hh hi
    rw [kick_initialized] at hi
    rw [kick_flushing, kick_queue, kick_running]
    constructor
    · intro _
      left
      simp
    · intro _
      have hi2 : (if noInitProp cfg = true then true else st.initialized) = true := hi
      simp [hi2]
  · rw [kick_log, runningUid_kick]
    have hop := h.opens
    unfold openFold at hop ⊢
    simp only
    rw [openFoldAux_append, hop]
    exact openFoldAux_pass hpass (runningUid st)
  · intro hinit
    rw [kick_log]
    simp only
    exact c2a_prop_extend (h.c2a hinit) hnostart

theorem invB_invoke (cfg : Config) (st : EmState) (key : String)
    (args : List Nat) (h : InvB cfg st) :
    InvB cfg (step cfg st (Act.invoke key args)) := by
  rw [step_invoke]
  cases hl : lookupEntry cfg key with
  | none => rw [invoke_missing hl]; exact h
  | some e =>
    cases e with
    | value v => rw [invoke_value hl]; exact h
    | asyncFn d f =>
        by_cases hk : key = initKey
        · subst hk
          by_cases hi : st.initialized
          · rw [invoke_async_double hl hi]
            refine invB_log_extend cfg st _ _ h ?_ ?_ ?_ ?_ ?_
            · intro e he s0
              simp only [List.mem_cons, List.not_mem_nil, or_false] at he
              rcases he with rfl | rfl | rfl <;> rfl
            · intro u k hmem; simp at hmem
            · simp [countRanOf]
            · simp [execUids, execProj]
            · simp [noInitSettleEv]
          · rw [invoke_async_init_first hl (by simpa using hi)]
            refine invB_init_first cfg st _ _ _ h (by simp [hl]) (by simpa using hi)
              (by simp [taskKeyIsInit]) ?_ ?_ ?_
            · intro e he s0
              simp only [List.mem_cons, List.not_mem_nil, or_false] at he
              rcases he with rfl | rfl | rfl <;> rfl
            · intro u k hmem; simp at hmem
            · simp [countRanOf]
        · rw [invoke_async_other hl hk]
          refine invB_other_push cfg st _ _ _ h
            (by simp [taskKeyIsInit, hk]) ?_ ?_ ?_ ?_ ?_
          · intro e he s0
            simp only [List.mem_cons, List.not_mem_nil, or_false] at he
            rcases he with rfl | rfl | rfl <;> rfl
          · intro u k hmem; simp at hmem
          · simp [countRanOf]
          · simp [execUids, execProj]
          · simp [noInitSettleEv, hk]
    | syncFn f =>
        by_cases hk : key = initKey
        · subst hk
          by_cases hi : st.initialized
          · rw [invoke_sync_double hl hi]
            refine invB_log_extend cfg st _ _ h ?_ ?_ ?_ ?_ ?_
            · intro e he s0
              simp only [List.mem_cons, List.not_mem_nil, or_false] at he
              rcases he with rfl | rfl <;> rfl
            · intro u k hmem; simp at hmem
            · simp [countRanOf]
            · simp [execUids, execProj]
            · simp [noInitSettleEv]
          · rw [invoke_sync_init_first hl (by simpa using hi)]
            refine invB_init_first cfg st _ _ _ h (by simp [hl]) (by simpa using hi)
              (by simp [taskKeyIsInit]) ?_ ?_ ?_
            · intro e he s0
              simp only [List.mem_cons, List.not_mem_nil, or_false] at he
              rcases he with rfl | rfl | rfl <;> rfl
            · intro u k hmem; simp at hmem
            · simp [countRanOf]
        · rw [invoke_sync_other hl hk]
          refine invB_other_push cfg st _ _ _ h
            (by simp [taskKeyIsInit, hk]) ?_ ?_ ?_ ?_ ?_
          · intro e he s0
            simp only [List.mem_cons, List.not_mem_nil, or_false] at he
            rcases he with rfl | rfl | rfl <;> rfl
          · intro u k hmem; simp at hmem
          · simp [countRanOf]
          · simp [execUids, execProj]
          · simp [noInitSettleEv, hk]

theorem runningUid_sqc (st : EmState) :
    runningUid (settleQueueCheck st) = runningUid st := by
  unfold runningUid
  rw [sqc_running]

theorem openFoldAux_append2 (s : Option Nat) (l1 l2 : List Ev) :
    openFoldAux s (l1 ++ l2) =
      Option.bind (openFoldAux s l1) (fun s' => openFoldAux s' l2) := by
  rw [openFoldAux_append]
  cases openFoldAux s l1 <;> rfl

theorem invB_complete (cfg : Config) (st : EmState) (r : Running)
    (h : InvB cfg st) (hr : st.running = some r) :
    InvB cfg (completeRun st r) := by
  have hfl : st.flushing = true := h.runFlush (by simp [hr])
  have hinit : st.initialized = true := h.flushInit hfl
  have hruid : runningUid st = some r.uid := by simp [runningUid, hr]
  cases hout : r.out with
  | ok v =>
      have hevs : ∀ e ∈ (if st.enabled = true then
          successFanOut r.key v r.args st.subs else []),
          (∀ s0 : Option Nat, openStep s0 e = some s0) ∧
            (∀ u k, e ≠ Ev.settleStart u k) ∧
            (∀ u k a, e ≠ Ev.ranUnderlying u k a) := by
        intro e he
        by_cases hen : st.enabled = true
        · rw [if_pos hen] at he
          rcases successFanOut_mem he with ⟨sid, rfl⟩ | ⟨sid, rfl⟩ <;>
            exact ⟨fun s0 => rfl, fun u k => by simp, fun u k a => by simp⟩
        · rw [if_neg hen] at he; simp at he
      simp only [completeRun, hout]
      refine ⟨?_, ?_, ?_, ?_, ?_, ?_, ?_, ?_, ?_⟩
      · intro h'
        rw [sqc_running] at h'
        simp at h'
      · intro _
        rw [sqc_initialized]
        exact hinit
      · intro _ hni
        rw [sqc_initialized] at hni
        simp only at hni
        rw [hni] at hinit
        exact absurd hinit (by simp)
      · intro hinitNe
        rw [sqc_log, sqc_queue, sqc_initialized]
        simp only
        rw [countRanOf_append, countRanOf_append]
        have h1 : countRanOf initKey (if st.enabled = true then
            successFanOut r.key v r.args st.subs else []) = 0 := by
          by_cases hen : st.enabled = true
          · rw [if_pos hen]; exact successFanOut_no_ran
          · rw [if_neg hen]; rfl
        have h2 : countRanOf initKey
            [Ev.resolvedEv r.uid v, Ev.settleEnd r.uid r.key] = 0 := by
          simp [countRanOf]
        rw [h1, h2]
        simpa using h.initCount hinitNe
      · intro hni
        rw [sqc_initialized] at hni
        simp only at hni
        rw [hni] at hinit
        exact absurd hinit (by simp)
      · intro hinitNe hi
        rcases h.initFront hinitNe hinit with h1 | ⟨h2, _⟩
        · left
          rw [sqc_log]
          simp only
          rw [initStartedB_append, initStartedB_append, h1]
          rfl
        · rw [hr] at h2; exact absurd h2 (by simp)
      · intro _ _
        rw [sqc_flushing, sqc_queue, sqc_running]
        simp only
        cases hq : st.queue with
        | nil => simp
        | cons t rest => simp [hfl]
      · rw [sqc_log, runningUid_sqc]
        have hop := h.opens
        unfold openFold at hop ⊢
        simp only
        have hp : openFoldAux (some r.uid) (if st.enabled = true then
            successFanOut r.key v r.args st.subs else []) = some (some r.uid) := by
          refine openFoldAux_pass ?_ _
          intro e he s0
          exact ((hevs e he).1 s0)
        rw [openFoldAux_append2, openFoldAux_append2, hop, hruid]
        simp only [Option.bind]
        rw [hp]
        simp [openFoldAux, openStep, runningUid]
      · intro hinitNe
        rw [sqc_log]
        simp only
        refine c2a_prop_extend ?_ ?_
        · refine c2a_prop_extend (h.c2a hinitNe) ?_
          intro u k hmem
          exact ((hevs _ hmem).2.1 u k) rfl
        · intro u k hmem
          simp at hmem
  | error e =>
      simp only [completeRun, hout]
      refine ⟨?_, ?_, ?_, ?_, ?_, ?_, ?_, ?_, ?_⟩
      · intro h'
        rw [sqc_running] at h'
        simp at h'
      · intro _
        rw [sqc_initialized]
        exact hinit
      · intro _ hni
        rw [sqc_initialized] at hni
        simp only at hni
        rw [hni] at hinit
        exact absurd hinit (by simp)
      · intro hinitNe
        rw [sqc_log, sqc_queue, sqc_initialized]
        simp only
        rw [countRanOf_append, countRanOf_append]
        have h2 : countRanOf initKey
            [Ev.rejectedEv r.uid e, Ev.settleEnd r.uid r.key] = 0 := by
          simp [countRanOf]
        rw [catchFanOut_no_ran, h2]
        simpa using h.initCount hinitNe
      · intro hni
        rw [sqc_initialized] at hni
        simp only at hni
        rw [hni] at hinit
        exact absurd hinit (by simp)
      · intro hinitNe hi
        rcases h.initFront hinitNe hinit with h1 | ⟨h2, _⟩
        · left
          rw [sqc_log]
          simp only
          rw [initStartedB_append, initStartedB_append, h1]
          rfl
        · rw [hr] at h2; exact absurd h2 (by simp)
      · intro _ _
        rw [sqc_flushing, sqc_queue, sqc_running]
        simp only
        cases hq : st.queue with
        | nil => simp
        | cons t rest => simp [hfl]
      · rw [sqc_log, runningUid_sqc]
        have hop := h.opens
        unfold openFold at hop ⊢
        simp only
        rw [openFoldAux_append2, openFoldAux_append2, hop, hruid]
        simp only [Option.bind]
        rw [openFoldAux_catchFanOut]
        simp [openFoldAux, openStep, runningUid]
      · intro hinitNe
        rw [sqc_log]
        simp only
        refine c2a_prop_extend ?_ ?_
        · refine c2a_prop_extend (h.c2a hinitNe) ?_
          intro u k hmem
          exact catchFanOut_no_start hmem
        · intro u k hmem
          simp at hmem

theorem invB_startTask (cfg : Config) (st : EmState) (t : QTask)
    (rest : List QTask) (h : InvB cfg st) (_hh : st.halted = false)
    (hr : st.running = none) (hf : st.flushing = true)
    (hq : st.queue = t :: rest) :
    InvB cfg (startTask { st with queue := rest } t) := by
  have hinit : st.initialized = true := h.flushInit hf
  have hruid : runningUid st = none := by simp [runningUid, hr]
  have hop := h.opens
  unfold openFold at hop
  rw [hruid] at hop
  have hInitDone : lookupEntry cfg initKey ≠ none → taskKeyIsInit t = false →
      ∃ u' k', Ev.settleStart u' initKey ∈ st.log ∧
        Ev.settleEnd u' k' ∈ st.log := by
    intro hinitNe htk
    rcases h.initFront hinitNe hinit with h1 | ⟨_, h3⟩
    · obtain ⟨u', hu'⟩ := initStartedB_elim h1
      rcases openFold_started_closes hop hu' with ⟨k', hk'⟩ | habs
      · exact ⟨u', k', hu', hk'⟩
      · exact absurd habs (by simp)
    · rw [hq] at h3
      simp only [headIsInit] at h3
      exact absurd h3 (by simp [htk])
  have hcount := fun hinitNe => h.initCount hinitNe
  cases t with
  | settleAsync uid key2 args2 d out =>
      simp only [startTask]
      refine ⟨?_, ?_, ?_, ?_, ?_, ?_, ?_, ?_, ?_⟩
      · intro _; exact hf
      · intro _; exact hinit
      · intro _ hni
        simp only at hni
        rw [hni] at hinit
        exact absurd hinit (by simp)
      · intro hinitNe
        have hc := hcount hinitNe
        rw [hq, countInitTasks_cons] at hc
        simp only
        rw [countRanOf_append]
        have htk : taskKeyIsInit (QTask.settleAsync uid key2 args2 d out) =
            (key2 == initKey) := rfl
        rw [htk] at hc
        by_cases hk2 : (key2 == initKey) = true
        · rw [hk2] at hc
          have : countRanOf initKey
              [Ev.settleStart uid key2, Ev.ranUnderlying uid key2 args2] = 1 := by
            simp [countRanOf, hk2]
          rw [this]
          simp only [hinit] at hc ⊢
          simp at hc ⊢
          omega
        · rw [if_neg hk2] at hc
          have : countRanOf initKey
              [Ev.settleStart uid key2, Ev.ranUnderlying uid key2 args2] = 0 := by
            simp [countRanOf, hk2]
          rw [this]
          simp only [hinit] at hc ⊢
          simp at hc ⊢
          omega
      · intro hni
        simp only at hni
        rw [hni] at hinit
        exact absurd hinit (by simp)
      · intro hinitNe _
        by_cases hk2 : (key2 == initKey) = true
        · left
          simp only
          rw [initStartedB_append]
          have : initStartedB [Ev.settleStart uid key2,
              Ev.ranUnderlying uid key2 args2] = true := by
            simp [initStartedB, hk2]
          rw [this]
          simp
        · rcases h.initFront hinitNe hinit with h1 | ⟨_, h3⟩
          · left
            simp only
            rw [initStartedB_append, h1]
            rfl
          · rw [hq] at h3
            simp only [headIsInit] at h3
            exact absurd h3 (by simp [taskKeyIsInit, hk2])
      · intro _ _
        simp [hf]
      · simp only
        unfold openFold
        rw [openFoldAux_append2, hop]
        simp only [Option.some_bind]
        simp [openFoldAux, openStep, runningUid]
      · intro hinitNe
        simp only
        refine c2a_prop_extend_start (h.c2a hinitNe) ?_ ?_
        · intro u k hmem; simp at hmem
        · intro hk2
          refine hInitDone hinitNe ?_
          simp [taskKeyIsInit]
          exact hk2
  | settleSync uid key2 args2 out =>
      cases out with
      | ok v =>
          simp only [startTask]
          have hevs : ∀ e ∈ (if st.enabled = true then
              successFanOut key2 v args2 st.subs else []),
              (∀ s0 : Option Nat, openStep s0 e = some s0) ∧
                (∀ u k, e ≠ Ev.settleStart u k) ∧
                (∀ u k a, e ≠ Ev.ranUnderlying u k a) := by
            intro e he
            by_cases hen : st.enabled = true
            · rw [if_pos hen] at he
              rcases successFanOut_mem he with ⟨sid, rfl⟩ | ⟨sid, rfl⟩ <;>
                exact ⟨fun s0 => rfl, fun u k => by simp, fun u k a => by simp⟩
            · rw [if_neg hen] at he; simp at he
          refine ⟨?_, ?_, ?_, ?_, ?_, ?_, ?_, ?_, ?_⟩
          · intro h'
            rw [sqc_running] at h'
            simp [hr] at h'
          · intro _
            rw [sqc_initialized]
            exact hinit
          · intro _ hni
            rw [sqc_initialized] at hni
            simp only at hni
            rw [hni] at hinit
            exact absurd hinit (by simp)
          · intro hinitNe
            have hc := hcount hinitNe
            rw [hq, countInitTasks_cons] at hc
            rw [sqc_log, sqc_queue, sqc_initialized]
            simp only
            rw [countRanOf_append, countRanOf_append, countRanOf_append]
            have hevs0 : countRanOf initKey (if st.enabled = true then
                successFanOut key2 v args2 st.subs else []) = 0 := by
              by_cases hen : st.enabled = true
              · rw [if_pos hen]; exact successFanOut_no_ran
              · rw [if_neg hen]; rfl
            have hend0 : countRanOf initKey [Ev.settleEnd uid key2] = 0 := by
              simp [countRanOf]
            rw [hevs0, hend0]
            have htk : taskKeyIsInit (QTask.settleSync uid key2 args2
                (Except.ok v)) = (key2 == initKey) := rfl
            rw [htk] at hc
            by_cases hk2 : (key2 == initKey) = true
            · rw [hk2] at hc
              have : countRanOf initKey
                  [Ev.settleStart uid key2, Ev.ranUnderlying uid key2 args2] = 1 := by
                simp [countRanOf, hk2]
              rw [this]
              simp only [hinit] at hc ⊢
              simp at hc ⊢
              omega
            · rw [if_neg hk2] at hc
              have : countRanOf initKey
                  [Ev.settleStart uid key2, Ev.ranUnderlying uid key2 args2] = 0 := by
                simp [countRanOf, hk2]
              rw [this]
              simp only [hinit] at hc ⊢
              simp at hc ⊢
              omega
          · intro hni
            rw [sqc_initialized] at hni
            simp only at hni
            rw [hni] at hinit
            exact absurd hinit (by simp)
          · intro hinitNe _
            rw [sqc_log, sqc_running, sqc_queue]
            by_cases hk2 : (key2 == initKey) = true
            · left
              simp only
              rw [initStartedB_append, initStartedB_append, initStartedB_append]
              have : initStartedB [Ev.settleStart uid key2,
                  Ev.ranUnderlying uid key2 args2] = true := by
                simp [initStartedB, hk2]
              rw [this]
              simp
            · rcases h.initFront hinitNe hinit with h1 | ⟨_, h3⟩
              · left
                simp only
                rw [initStartedB_append, initStartedB_append,
                  initStartedB_append, h1]
                rfl
              · rw [hq] at h3
                simp only [headIsInit] at h3
                exact absurd h3 (by simp [taskKeyIsInit, hk2])
          · intro _ _
            rw [sqc_flushing, sqc_queue, sqc_running]
            simp only
            cases hrest : rest with
            | nil => simp [hr]
            | cons t2 rest2 => simp [hf]
          · rw [sqc_log, runningUid_sqc]
            simp only
            unfold openFold
            have h1 : openFoldAux none
                [Ev.settleStart uid key2, Ev.ranUnderlying uid key2 args2] =
                some (some uid) := by
              simp [openFoldAux, openStep]
            have h2 : openFoldAux (some uid) (if st.enabled = true then
                successFanOut key2 v args2 st.subs else []) = some (some uid) := by
              refine openFoldAux_pass ?_ _
              intro e he s0
              exact (hevs e he).1 s0
            rw [openFoldAux_append2, openFoldAux_append2, openFoldAux_append2, hop]
            simp only [Option.some_bind]
            rw [h1]
            simp only [Option.some_bind]
            rw [h2]
            simp only [Option.some_bind]
            simp [openFoldAux, openStep, runningUid, hr]
          · intro hinitNe
            rw [sqc_log]
            simp only
            refine c2a_prop_extend ?_ ?_
            · refine c2a_prop_extend ?_ ?_
              · refine c2a_prop_extend_start (h.c2a hinitNe) ?_ ?_
                · intro u k hmem; simp at hmem
                · intro hk2
                  refine hInitDone hinitNe ?_
                  simp [taskKeyIsInit]
                  exact hk2
              · intro u k hmem
                exact ((hevs _ hmem).2.1 u k) rfl
            · intro u k hmem
              simp at hmem
      | error e2 =>
          simp only [startTask]
          refine ⟨?_, ?_, ?_, ?_, ?_, ?_, ?_, ?_, ?_⟩
          · intro h'
            simp [hr] at h'
          · intro _; exact hinit
          · intro _ hni
            simp only at hni
            rw [hni] at hinit
            exact absurd hinit (by simp)
          · intro hinitNe
            have hc := hcount hinitNe
            rw [hq, countInitTasks_cons] at hc
            simp only
            rw [countRanOf_append, countRanOf_append, countRanOf_append]
            have hend0 : countRanOf initKey
                [Ev.settleEnd uid key2, Ev.drainHalted uid key2] = 0 := by
              simp [countRanOf]
            rw [hend0, catchFanOut_no_ran]
            have htk : taskKeyIsInit (QTask.settleSync uid key2 args2
                (Except.error e2)) = (key2 == initKey) := rfl
            rw [htk] at hc
            by_cases hk2 : (key2 == initKey) = true
            · rw [hk2] at hc
              have : countRanOf initKey
                  [Ev.settleStart uid key2, Ev.ranUnderlying uid key2 args2] = 1 := by
                simp [countRanOf, hk2]
              rw [this]
              simp only [hinit] at hc ⊢
              simp at hc ⊢
              omega
            · rw [if_neg hk2] at hc
              have : countRanOf initKey
                  [Ev.settleStart uid key2, Ev.ranUnderlying uid key2 args2] = 0 := by
                simp [countRanOf, hk2]
              rw [this]
              simp only [hinit] at hc ⊢
              simp at hc ⊢
              omega
          · intro hni
            simp only at hni
            rw [hni] at hinit
            exact absurd hinit (by simp)
          · intro hinitNe _
            by_cases hk2 : (key2 == initKey) = true
            · left
              simp only
              rw [initStartedB_append, initStartedB_append, initStartedB_append]
              have : initStartedB [Ev.settleStart uid key2,
                  Ev.ranUnderlying uid key2 args2] = true := by
                simp [initStartedB, hk2]
              rw [this]
              simp
            · rcases h.initFront hinitNe hinit with h1 | ⟨_, h3⟩
              · left
                simp only
                rw [initStartedB_append, initStartedB_append,
                  initStartedB_append, h1]
                rfl
              · rw [hq] at h3
                simp only [headIsInit] at h3
                exact absurd h3 (by simp [taskKeyIsInit, hk2])
          · intro hh2 _
            simp at hh2
          · simp only
            unfold openFold
            have h1 : openFoldAux none
                [Ev.settleStart uid key2, Ev.ranUnderlying uid key2 args2] =
                some (some uid) := by
              simp [openFoldAux, openStep]
            rw [openFoldAux_append2, openFoldAux_append2, openFoldAux_append2, hop]
            simp only [Option.some_bind]
            rw [h1]
            simp only [Option.some_bind]
            rw [openFoldAux_catchFanOut]
            simp only [Option.some_bind]
            simp [openFoldAux, openStep, runningUid, hr]
          · intro hinitNe
            simp only
            refine c2a_prop_extend ?_ ?_
            · refine c2a_prop_extend ?_ ?_
              · refine c2a_prop_extend_start (h.c2a hinitNe) ?_ ?_
                · intro u k hmem; simp at hmem
                · intro hk2
                  refine hInitDone hinitNe ?_
                  simp [taskKeyIsInit]
                  exact hk2
              · intro u k hmem
                exact catchFanOut_no_start hmem
            · intro u k hmem
              simp at hmem
  | removeSub uid sid =>
      simp only [startTask]
      refine ⟨?_, ?_, ?_, ?_, ?_, ?_, ?_, ?_, ?_⟩
      · intro h'
        rw [sqc_running] at h'
        simp [hr] at h'
      · intro _
        rw [sqc_initialized]
        exact hinit
      · intro _ hni
        rw [sqc_initialized] at hni
        simp only at hni
        rw [hni] at hinit
        exact absurd hinit (by simp)
      · intro hinitNe
        have hc := hcount hinitNe
        rw [hq, countInitTasks_cons] at hc
        rw [sqc_log, sqc_queue, sqc_initialized]
        simp only
        rw [countRanOf_append]
        have : countRanOf initKey [Ev.removedSub uid sid] = 0 := by
          simp [countRanOf]
        rw [this]
        have htk : taskKeyIsInit (QTask.removeSub uid sid) = false := rfl
        rw [htk] at hc
        simp only [hinit] at hc ⊢
        simp at hc ⊢
        omega
      · intro hni
        rw [sqc_initialized] at hni
        simp only at hni
        rw [hni] at hinit
        exact absurd hinit (by simp)
      · intro hinitNe _
        rw [sqc_log, sqc_running, sqc_queue]
        rcases h.initFront hinitNe hinit with h1 | ⟨_, h3⟩
        · left
          simp only
          rw [initStartedB_append, h1]
          rfl
        · rw [hq] at h3
          simp only [headIsInit] at h3
          exact absurd h3 (by simp [taskKeyIsInit])
      · intro _ _
        rw [sqc_flushing, sqc_queue, sqc_running]
        simp only
        cases hrest : rest with
        | nil => simp [hr]
        | cons t2 rest2 => simp [hf]
      · rw [sqc_log, runningUid_sqc]
        simp only
        unfold openFold
        rw [openFoldAux_append2, hop]
        simp only [Option.some_bind]
        simp [openFoldAux, openStep, runningUid, hr]
      · intro hinitNe
        rw [sqc_log]
        simp only
        refine c2a_prop_extend (h.c2a hinitNe) ?_
        intro u k hmem
        simp at hmem

theorem invB_tick (cfg : Config) (st : EmState) (h : InvB cfg st) :
    InvB cfg (step cfg st Act.tick) := by
  rw [step_tick]
  by_cases hh : st.halted = true
  · rw [tick_of_halted hh]; exact h
  · have hh2 : st.halted = false := by simpa using hh
    cases hr : st.running with
    | some r =>
        cases hrem : r.rem with
        | zero =>
            rw [tick_complete hh2 hr hrem]
            exact invB_complete cfg st r h hr
        | succ n =>
            rw [tick_decrement hh2 hr hrem]
            have hfl : st.flushing = true := h.runFlush (by simp [hr])
            have hinit : st.initialized = true := h.flushInit hfl
            refine ⟨?_, ?_, ?_, ?_, ?_, ?_, ?_, ?_, ?_⟩
            · intro _; exact hfl
            · intro _; exact hinit
            · intro _ hni
              simp only at hni
              rw [hni] at hinit
              exact absurd hinit (by simp)
            · intro hinitNe
              simpa using h.initCount hinitNe
            · intro hni
              simp only at hni
              rw [hni] at hinit
              exact absurd hinit (by simp)
            · intro hinitNe _
              rcases h.initFront hinitNe hinit with h1 | ⟨h2, _⟩
              · left; exact h1
              · rw [hr] at h2; exact absurd h2 (by simp)
            · intro _ _
              simp [hfl]
            · have hop := h.opens
              unfold openFold at hop ⊢
              rw [hop]
              simp [runningUid, hr]
            · intro hinitNe
              exact h.c2a hinitNe
    | none =>
        by_cases hf : st.flushing = true
        · cases hq : st.queue with
          | nil =>
              rw [tick_empty hh2 hr hf hq]
              have hinit : st.initialized = true := h.flushInit hf
              refine ⟨?_, ?_, ?_, ?_, ?_, ?_, ?_, ?_, ?_⟩
              · intro h'
                simp only at h'
                rw [hr] at h'
                simp at h'
              · intro h'; simp at h'
              · intro _ hni
                simp only at hni
                rw [hni] at hinit
                exact absurd hinit (by simp)
              · intro hinitNe
                simpa using h.initCount hinitNe
              · intro hni
                simp only at hni
                rw [hni] at hinit
                exact absurd hinit (by simp)
              · intro hinitNe _
                rcases h.initFront hinitNe hinit with h1 | ⟨_, h3⟩
                · left; exact h1
                · rw [hq] at h3; simp [headIsInit] at h3
              · intro _ _
                constructor
                · intro h'; simp at h'
                · intro h'
                  simp only [hq] at h'
                  rcases h' with h' | h'
                  · exact absurd rfl h'
                  · rw [hr] at h'; simp at h'
              · have hop := h.opens
                unfold openFold at hop ⊢
                rw [hop]
                simp [runningUid, hr]
              · intro hinitNe
                exact h.c2a hinitNe
          | cons t rest =>
              rw [tick_pop hh2 hr hf hq]
              exact invB_startTask cfg st t rest h hh2 hr hf hq
        · rw [tick_idle hh2 hr (by simpa using hf)]
          exact h

theorem invB_step (cfg : Config) (st : EmState) (a : Act) (h : InvB cfg st) :
    InvB cfg (step cfg st a) := by
  cases a with
  | invoke key args => exact invB_invoke cfg st key args h
  | subscribe sr => exact invB_subscribe cfg st sr h
  | unsubscribe sid => exact invB_unsubscribe cfg st sid h
  | enable => exact invB_enable cfg st h
  | disable => exact invB_disable cfg st h
  | tick => exact invB_tick cfg st h

theorem invB_run (cfg : Config) (acts : List Act) : InvB cfg (run cfg acts) := by
  induction acts using List.reverseRecOn with
  | nil => exact invB_init cfg
  | append_singleton ms a ih =>
      rw [run_snoc]
      exact invB_step cfg _ a ih

theorem noInitEnd_append (l1 l2 : List Ev) :
    noInitEnd (l1 ++ l2) = (noInitEnd l1 && noInitEnd l2) := by
  simp [noInitEnd, List.all_append]

theorem noInitEnd_of_noInitSettleEv {l : List Ev}
    (h : noInitSettleEv l = true) : noInitEnd l = true := by
  rw [noInitEnd, List.all_eq_true]
  intro e he
  have := List.all_eq_true.mp h e he
  match e, this with
  | .settleEnd u k, this => simpa using this
  | .invoked _ _, _ => rfl
  | .returnedPromise _ _, _ => rfl
  | .returnedUndef _, _ => rfl
  | .threwOnce _, _ => rfl
  | .rejectedOnce _, _ => rfl
  | .enqueued _ _ _, _ => rfl
  | .enqueuedRemove _ _, _ => rfl
  | .settleStart _ _, _ => rfl
  | .ranUnderlying _ _ _, _ => rfl
  | .notifyMember _ _ _ _, _ => rfl
  | .notifyAll _ _ _ _, _ => rfl
  | .notifyCatch _ _ _ _, _ => rfl
  | .resolvedEv _ _, _ => rfl
  | .rejectedEv _ _, _ => rfl
  | .removedSub _ _, _ => rfl
  | .drainHalted _ _, _ => rfl

theorem notifyMember_mem_successEvsFor {key : String} {v : Nat}
    {args : List Nat} {sid : Nat} {rc : SubRecord} {cb : CbKind}
    (hcb : (rc.memberCbs.find? (fun p => p.1 = key)).map (fun p => p.2) =
      some cb) :
    Ev.notifyMember sid key v args ∈ successEvsFor key v args sid rc := by
  unfold successEvsFor
  rw [hcb]
  cases cb <;> cases hall : rc.allCb <;> simp

theorem notifyMember_mem_successFanOut {key : String} {v : Nat}
    {args : List Nat} :
    ∀ {subs : List (Nat × SubRecord)} {sid : Nat} {rc : SubRecord} {cb : CbKind},
      (sid, rc) ∈ subs →
      (rc.memberCbs.find? (fun p => p.1 = key)).map (fun p => p.2) = some cb →
      Ev.notifyMember sid key v args ∈ successFanOut key v args subs := by
  intro subs
  induction subs with
  | nil => intro sid rc cb h _; simp at h
  | cons p rest ih =>
      intro sid rc cb hmem hcb
      obtain ⟨sid2, rc2⟩ := p
      simp only [List.mem_cons] at hmem
      rcases hmem with heq | hmem
      · injection heq with h1 h2
        subst h1; subst h2
        simp only [successFanOut, List.mem_append]
        exact Or.inl (notifyMember_mem_successEvsFor hcb)
      · simp only [successFanOut, List.mem_append]
        exact Or.inr (ih hmem hcb)

/-- C7 (amended).  The claimed equivalence is false of the program in both
directions, so only the true half survives: in a non-halted, initialized
state, whenever the queue is non-empty or a settle task is in flight,
`flushing` is true — the flag never under-reports pending work.  The
converse does not hold in the source: after the last settle completes
`flushing` stays true until the drain loop's next turn observes the empty
queue (lines 27-30) and only that turn resets it, which the second conjunct
states as the reset mechanism over an arbitrary state; and while the
initialization gate holds the queue can be non-empty with `flushing` false
(the counterexample to the original claim). -/
theorem flushing_covers_pending_work (cfg : Config) (acts : List Act)
    (hh : (run cfg acts).halted = false)
    (hi : (run cfg acts).initialized = true) :
    (((run cfg acts).queue ≠ [] ∨ (run cfg acts).running.isSome = true) →
      (run cfg acts).flushing = true) ∧
    (∀ st : EmState, st.halted = false → st.running = none →
      st.flushing = true → st.queue = [] → (tick st).flushing = false) := by
  constructor
  · intro hor
    exact ((invB_run cfg acts).flushIff hh hi).mpr hor
  · intro st hh2 hr2 hf2 hq2
    rw [tick_empty hh2 hr2 hf2 hq2]

/-- Witness for the amended C7 theorem: a run whose queue holds a settle is
flushing, and a drain turn taken on an idle empty-queue flushing state
resets the flag. -/
theorem flushing_covers_pending_work_witness :
    (run cfgSlowFirst actsUnsubPre).flushing = true ∧
    (tick { initState with flushing := true }).flushing = false := by
  constructor
  · exact (flushing_covers_pending_work cfgSlowFirst actsUnsubPre
      rfl rfl).1 (Or.inl (by decide))
  · exact (flushing_covers_pending_work cfgSlowFirst actsUnsubPre
      rfl rfl).2 { initState with flushing := true } rfl rfl rfl rfl

/-- C3.  A second invocation of `initialize` fails immediately and changes
nothing: for an asynchronous initialize member the call returns an already
rejected promise (the `rejectedOnce` event) and the resulting state is the
old state except for the fresh promise identity and the log of the failed
call; queue, flags and registry are untouched.  For a synchronous initialize
member the error is thrown to the caller (`threwOnce`).  The first conjunct
is the lifetime guarantee: the underlying initialize callable has run at
most once, exactly once (counting the still-queued settle) once
`initialized` is true. -/
theorem double_initialize_rejected (cfg : Config) (acts : List Act) :
    (lookupEntry cfg initKey ≠ none →
      countRanOf initKey (run cfg acts).log +
          countInitTasks (run cfg acts).queue =
        (if (run cfg acts).initialized then 1 else 0)) ∧
    (∀ args d f, lookupEntry cfg initKey = some (Entry.asyncFn d f) →
      (run cfg acts).initialized = true →
      run cfg (acts ++ [Act.invoke initKey args]) =
        { run cfg acts with
            nextUid := (run cfg acts).nextUid + 1,
            log := (run cfg acts).log ++ [Ev.invoked initKey args,
              Ev.returnedPromise (run cfg acts).nextUid initKey,
              Ev.rejectedOnce (run cfg acts).nextUid] }) ∧
    (∀ args f, lookupEntry cfg initKey = some (Entry.syncFn f) →
      (run cfg acts).initialized = true →
      run cfg (acts ++ [Act.invoke initKey args]) =
        { run cfg acts with
            nextUid := (run cfg acts).nextUid + 1,
            log := (run cfg acts).log ++ [Ev.invoked initKey args,
              Ev.threwOnce initKey] }) := by
  refine ⟨fun hinitNe => (invB_run cfg acts).initCount hinitNe, ?_, ?_⟩
  · intro args d f hl hi
    rw [run_snoc, step_invoke, invoke_async_double hl hi]
  · intro args f hl hi
    rw [run_snoc, step_invoke, invoke_sync_double hl hi]

/-- Witness for the C3 theorem: initialize has completed, its callable ran
exactly once, and a second invocation leaves everything but the log and the
promise counter unchanged. -/
theorem double_initialize_rejected_witness :
    ((lookupEntry cfgInitM initKey).isSome = true ∧
      countRanOf initKey
          (run cfgInitM [Act.invoke initKey [], Act.tick, Act.tick]).log +
        countInitTasks
          (run cfgInitM [Act.invoke initKey [], Act.tick, Act.tick]).queue = 1) ∧
    ((run cfgInitM [Act.invoke initKey [], Act.tick, Act.tick]).initialized =
        true ∧
      run cfgInitM ([Act.invoke initKey [], Act.tick, Act.tick] ++
          [Act.invoke initKey []]) =
        { run cfgInitM [Act.invoke initKey [], Act.tick, Act.tick] with
            nextUid := (run cfgInitM
              [Act.invoke initKey [], Act.tick, Act.tick]).nextUid + 1,
            log := (run cfgInitM
                [Act.invoke initKey [], Act.tick, Act.tick]).log ++
              [Ev.invoked initKey [],
                Ev.returnedPromise (run cfgInitM
                  [Act.invoke initKey [], Act.tick, Act.tick]).nextUid initKey,
                Ev.rejectedOnce (run cfgInitM
                  [Act.invoke initKey [], Act.tick, Act.tick]).nextUid] }) := by
  have hne : lookupEntry cfgInitM initKey ≠ none := by
    intro hc
    have h1 : (lookupEntry cfgInitM initKey).isSome = true := rfl
    rw [hc] at h1
    simp at h1
  refine ⟨⟨rfl, ?_⟩, ⟨by decide, ?_⟩⟩
  · have := (double_initialize_rejected cfgInitM
      [Act.invoke initKey [], Act.tick, Act.tick]).1 hne
    rw [this]
    decide
  · exact (double_initialize_rejected cfgInitM
      [Act.invoke initKey [], Act.tick, Act.tick]).2.1 []
      0 (fun _ => Except.ok 0) rfl (by decide)

/-- C2.  The initialization gate: with an `initialize` property configured,
(i) while `initialized` is false nothing has ever been drained (no execution
event exists) and the drain loop is idle, although invocations of other
members do enqueue their settles (conjunct three characterizes such an
invocation: the settle is appended, the gate stays closed, no drain starts);
(ii) any settle of another member that does start is preceded in the log by
the completed start and end of the initialize settle; (iii) the first
invocation of `initialize` places its settle at the front of the queue. -/
theorem initialize_gate_holds (cfg : Config) (acts : List Act)
    (hinitNe : lookupEntry cfg initKey ≠ none) :
    ((run cfg acts).initialized = false →
      (run cfg acts).flushing = false ∧ execUids (run cfg acts).log = []) ∧
    (∀ A u k B2, (run cfg acts).log = A ++ Ev.settleStart u k :: B2 →
      k ≠ initKey →
      ∃ u' k', Ev.settleStart u' initKey ∈ A ∧ Ev.settleEnd u' k' ∈ A) ∧
    (∀ key args d f, key ≠ initKey →
      lookupEntry cfg key = some (Entry.asyncFn d f) →
      (run cfg acts).initialized = false →
      (run cfg (acts ++ [Act.invoke key args])).queue =
          (run cfg acts).queue ++
            [QTask.settleAsync (run cfg acts).nextUid key args d (f args)] ∧
        (run cfg (acts ++ [Act.invoke key args])).initialized = false ∧
        (run cfg (acts ++ [Act.invoke key args])).flushing = false) ∧
    (∀ args d f, lookupEntry cfg initKey = some (Entry.asyncFn d f) →
      (run cfg acts).initialized = false →
      (run cfg (acts ++ [Act.invoke initKey args])).queue =
        QTask.settleAsync (run cfg acts).nextUid initKey args d (f args) ::
          (run cfg acts).queue) := by
  have hB := invB_run cfg acts
  refine ⟨?_, hB.c2a hinitNe, ?_, ?_⟩
  · intro hni
    obtain ⟨h1, _, _, h4⟩ := hB.gate hinitNe hni
    exact ⟨h1, h4⟩
  · intro key args d f hk hl hni
    obtain ⟨hfl, _, _, _⟩ := hB.gate hinitNe hni
    have hnp := noInitLookup_noInitProp hinitNe
    rw [run_snoc, step_invoke, invoke_async_other hl hk]
    refine ⟨?_, ?_, ?_⟩
    · rw [kick_queue]
    · rw [kick_initialized]
      simp [hnp, hni]
    · rw [kick_flushing]
      simp [hnp, hni, hfl]
  · intro args d f hl hni
    rw [run_snoc, step_invoke, invoke_async_init_first hl hni]

/-- Witness for the C2 theorem: a member invoked while gated is queued but
not drained, and a later initialize invocation is placed at the queue
front. -/
theorem initialize_gate_holds_witness :
    (lookupEntry cfgInitM initKey).isSome = true ∧
    (run cfgInitM [Act.invoke kM [5]]).initialized = false ∧
    ((run cfgInitM [Act.invoke kM [5]]).flushing = false ∧
      execUids (run cfgInitM [Act.invoke kM [5]]).log = []) ∧
    (run cfgInitM ([Act.invoke kM [5]] ++ [Act.invoke initKey []])).queue =
      QTask.settleAsync (run cfgInitM [Act.invoke kM [5]]).nextUid initKey []
          0 (Except.ok 0) ::
        (run cfgInitM [Act.invoke kM [5]]).queue := by
  have hne : lookupEntry cfgInitM initKey ≠ none := by
    intro hc
    have h1 : (lookupEntry cfgInitM initKey).isSome = true := rfl
    rw [hc] at h1
    simp at h1
  refine ⟨rfl, by decide, ?_, ?_⟩
  · exact (initialize_gate_holds cfgInitM [Act.invoke kM [5]] hne).1 (by decide)
  · exact (initialize_gate_holds cfgInitM [Act.invoke kM [5]] hne).2.2.2 []
      0 (fun _ => Except.ok 0) rfl (by decide)

/-- C8 (amended).  The `initialized` flag is raised synchronously at the
moment `initialize` is first invoked — inside `flush`, before the underlying
callable has completed (the resulting log still contains no completion event
of the initialize settle) — and it never returns to false afterwards. -/
theorem initialized_set_at_invocation (cfg : Config) (acts : List Act)
    (args : List Nat) (d : Nat) (f : List Nat → Except Nat Nat)
    (hc : lookupEntry cfg initKey = some (Entry.asyncFn d f))
    (hni : (run cfg acts).initialized = false) :
    (run cfg (acts ++ [Act.invoke initKey args])).initialized = true ∧
    noInitEnd (run cfg (acts ++ [Act.invoke initKey args])).log = true ∧
    (∀ more,
      (run cfg ((acts ++ [Act.invoke initKey args]) ++ more)).initialized =
        true) := by
  have hB := invB_run cfg acts
  have hstep : (run cfg (acts ++ [Act.invoke initKey args])).initialized =
      true := by
    rw [run_snoc, step_invoke, invoke_async_init_first hc hni]
  refine ⟨hstep, ?_, ?_⟩
  · rw [run_snoc, step_invoke, invoke_async_init_first hc hni]
    simp only
    rw [noInitEnd_append, noInitEnd_of_noInitSettleEv (hB.noInitEvs hni)]
    rfl
  · intro more
    exact initialized_mono_run cfg (acts ++ [Act.invoke initKey args]) more
      hstep

/-- Witness for the amended C8 theorem on the five-turn initialize
configuration. -/
theorem initialized_set_at_invocation_witness :
    (run cfgSlowInit []).initialized = false ∧
    (run cfgSlowInit ([] ++ [Act.invoke initKey []])).initialized = true ∧
    noInitEnd (run cfgSlowInit ([] ++ [Act.invoke initKey []])).log = true := by
  have h := initialized_set_at_invocation cfgSlowInit [] [] 5
    (fun _ => Except.ok 0) rfl (by decide)
  exact ⟨by decide, h.1, h.2.1⟩

/-- C10.  A subscription is inserted into the registry immediately and
synchronously, whether or not the Sequencer is flushing: the first conjunct
is an unconditional equation on states.  The second conjunct shows a settle
that completes after the registration notifies every currently registered
observer whose record carries a callback for the settling member. -/
theorem subscribe_registers_immediately (cfg : Config) (acts : List Act)
    (sr : SubRecord) :
    (run cfg (acts ++ [Act.subscribe sr])) =
      { run cfg acts with
          subs := (run cfg acts).subs ++ [((run cfg acts).nextSid, sr)],
          nextSid := (run cfg acts).nextSid + 1 } ∧
    (∀ r v sid rc cb,
      (run cfg acts).halted = false →
      (run cfg acts).running = some r → r.rem = 0 → r.out = Except.ok v →
      (run cfg acts).enabled = true →
      (sid, rc) ∈ (run cfg acts).subs →
      (rc.memberCbs.find? (fun p => p.1 = r.key)).map (fun p => p.2) =
        some cb →
      Ev.notifyMember sid r.key v r.args ∈
        (run cfg (acts ++ [Act.tick])).log) := by
  constructor
  · rw [run_snoc, step_subscribe]
  · intro r v sid rc cb hh hr hrem hout hen hmem hcb
    rw [run_snoc, step_tick, tick_complete hh hr hrem]
    simp only [completeRun, hout]
    rw [sqc_log]
    simp only
    have hm : Ev.notifyMember sid r.key v r.args ∈
        successFanOut r.key v r.args (run cfg acts).subs :=
      notifyMember_mem_successFanOut hmem hcb
    rw [if_pos hen]
    simp [List.mem_append, hm]

/-- Witness for the C10 theorem: the subscription equation at a concrete
state, and the notification for an observer that was registered before the
in-flight settle completes. -/
theorem subscribe_registers_immediately_witness :
    (run cfgOneAsync ([Act.subscribe subMemberOnly, Act.invoke kFirst [],
        Act.tick] ++ [Act.subscribe subCatchOnly])) =
      { run cfgOneAsync [Act.subscribe subMemberOnly, Act.invoke kFirst [],
            Act.tick] with
          subs := (run cfgOneAsync [Act.subscribe subMemberOnly,
              Act.invoke kFirst [], Act.tick]).subs ++
            [((run cfgOneAsync [Act.subscribe subMemberOnly,
                Act.invoke kFirst [], Act.tick]).nextSid, subCatchOnly)],
          nextSid := (run cfgOneAsync [Act.subscribe subMemberOnly,
            Act.invoke kFirst [], Act.tick]).nextSid + 1 } ∧
    Ev.notifyMember 0 kFirst 3 [] ∈
      (run cfgOneAsync ([Act.subscribe subMemberOnly, Act.invoke kFirst [],
        Act.tick] ++ [Act.tick])).log := by
  constructor
  · exact (subscribe_registers_immediately cfgOneAsync
      [Act.subscribe subMemberOnly, Act.invoke kFirst [], Act.tick]
      subCatchOnly).1
  · have h := (subscribe_registers_immediately cfgOneAsync
      [Act.subscribe subMemberOnly, Act.invoke kFirst [], Act.tick]
      subCatchOnly).2
      { uid := 0, key := kFirst, args := [], out := Except.ok 3, rem := 0 }
      3 0 subMemberOnly CbKind.ok (by decide) (by decide) rfl rfl
      (by decide) (by decide) (by decide)
    simpa using h

/-- C6 (amended).  Per subscription record, the per-member callback is
invoked whenever present; the `all` callback is invoked whenever present
unless the per-member callback of that same record throws synchronously, in
which case the throw aborts the argument evaluation of `Promise.allSettled`
and the `all` callback is skipped for that settle (this is the one
correction to the claim).  Distinct records are processed independently (the
fan-out over a concatenation is the concatenation of the fan-outs), and no
observer behaviour can prevent resolution or rejection of the original call
or stop the drain loop: completion always emits the resolution and the
settle end, and leaves `halted` untouched, for every registry whatsoever. -/
theorem observer_isolation (key : String) (v : Nat) (args : List Nat) :
    (∀ sid rc,
      (Ev.notifyMember sid key v args ∈ successEvsFor key v args sid rc ↔
        ((rc.memberCbs.find? (fun p => p.1 = key)).map
            (fun p => p.2)).isSome = true) ∧
      (Ev.notifyAll sid key v args ∈ successEvsFor key v args sid rc ↔
        (rc.allCb.isSome = true ∧
          (rc.memberCbs.find? (fun p => p.1 = key)).map (fun p => p.2) ≠
            some CbKind.throwSync))) ∧
    (∀ s1 s2, successFanOut key v args (s1 ++ s2) =
      successFanOut key v args s1 ++ successFanOut key v args s2) ∧
    (∀ st r, r.out = Except.ok v →
      (completeRun st r).halted = st.halted ∧
      Ev.resolvedEv r.uid v ∈ (completeRun st r).log ∧
      Ev.settleEnd r.uid r.key ∈ (completeRun st r).log) ∧
    (∀ (st : EmState) (r : Running) (e : Nat), r.out = Except.error e →
      (completeRun st r).halted = st.halted ∧
      Ev.rejectedEv r.uid e ∈ (completeRun st r).log ∧
      Ev.settleEnd r.uid r.key ∈ (completeRun st r).log) := by
  refine ⟨?_, ?_, ?_, ?_⟩
  · intro sid rc
    constructor
    · unfold successEvsFor
      cases hm : (rc.memberCbs.find? (fun p => p.1 = key)).map (fun p => p.2) with
      | none =>
          cases hall : rc.allCb with
          | none => simp
          | some c => simp
      | some cb =>
          cases cb with
          | throwSync => simp
          | ok => cases hall : rc.allCb with
              | none => simp
              | some c => simp
          | rejectAsync => cases hall : rc.allCb with
              | none => simp
              | some c => simp
    · unfold successEvsFor
      cases hm : (rc.memberCbs.find? (fun p => p.1 = key)).map (fun p => p.2) with
      | none =>
          cases hall : rc.allCb with
          | none => simp
          | some c => simp
      | some cb =>
          cases cb with
          | throwSync => simp
          | ok => cases hall : rc.allCb with
              | none => simp
              | some c => simp
          | rejectAsync => cases hall : rc.allCb with
              | none => simp
              | some c => simp
  · intro s1 s2
    induction s1 with
    | nil => rfl
    | cons p rest ih =>
        obtain ⟨sid, rc⟩ := p
        simp only [List.cons_append, successFanOut, List.append_eq, ih, List.append_assoc]
  · intro st r hout
    simp only [completeRun, hout]
    refine ⟨sqc_halted _, ?_, ?_⟩ <;> rw [sqc_log] <;> simp
  · intro st r e hout
    simp only [completeRun, hout]
    refine ⟨sqc_halted _, ?_, ?_⟩ <;> rw [sqc_log] <;> simp

/-- Witness for the amended C6 theorem: the record that throws synchronously
from its member callback is notified on the member callback but not on its
`all` callback. -/
theorem observer_isolation_witness :
    Ev.notifyMember 0 kFirst 3 [] ∈ successEvsFor kFirst 3 [] 0 subThrowMember ∧
    Ev.notifyAll 0 kFirst 3 [] ∉ successEvsFor kFirst 3 [] 0 subThrowMember := by
  constructor
  · exact ((observer_isolation kFirst 3 []).1 0 subThrowMember).1.mpr
      (by decide)
  · intro hmem
    have h := ((observer_isolation kFirst 3 []).1 0 subThrowMember).2.mp hmem
    exact h.2 (by decide)

theorem execProj_evUid {e : Ev} {u : Nat} (h : execProj e = some u) :
    evUid e = some u := by
  rcases execProj_shape h with ⟨k, rfl⟩ | ⟨s, rfl⟩ <;> rfl

theorem enqProj_evUid {e : Ev} {u : Nat} (h : enqProj e = some u) :
    evUid e = some u := by
  rcases enqProj_shape h with ⟨k, rfl⟩ | ⟨s, rfl⟩ <;> rfl

theorem mem_filterMap_evUid {l : List Ev} {e : Ev} {u : Nat}
    (he : e ∈ l) (h : evUid e = some u) : u ∈ l.filterMap evUid :=
  List.mem_filterMap.mpr ⟨e, he, h⟩

theorem trackedUb {st : EmState} (h : InvO st) :
    ∀ u ∈ tracked st, u < st.nextUid := by
  intro u hu
  rcases List.mem_append.mp hu with hx | hy
  · obtain ⟨e, he, hp⟩ := mem_execUids.mp hx
    exact h.logUb u (mem_filterMap_evUid he (execProj_evUid hp))
  · exact h.queueUb u hy

theorem hasEnqEv_append_left {l l2 : List Ev} {u : Nat}
    (h : hasEnqEv l u) : hasEnqEv (l ++ l2) u := by
  obtain ⟨k, fr, hm⟩ := h
  exact ⟨k, fr, List.mem_append_left l2 hm⟩

theorem hasEnqRemEv_append_left {l l2 : List Ev} {u : Nat}
    (h : hasEnqRemEv l u) : hasEnqRemEv (l ++ l2) u := by
  obtain ⟨s, hm⟩ := h
  exact ⟨s, List.mem_append_left l2 hm⟩

theorem hasEnqEv_append_elim {l l2 : List Ev} {u : Nat}
    (h : hasEnqEv (l ++ l2) u) : hasEnqEv l u ∨ hasEnqEv l2 u := by
  obtain ⟨k, fr, hm⟩ := h
  rcases List.mem_append.mp hm with h1 | h1
  · exact Or.inl ⟨k, fr, h1⟩
  · exact Or.inr ⟨k, fr, h1⟩

theorem hasEnqRemEv_append_elim {l l2 : List Ev} {u : Nat}
    (h : hasEnqRemEv (l ++ l2) u) : hasEnqRemEv l u ∨ hasEnqRemEv l2 u := by
  obtain ⟨s, hm⟩ := h
  rcases List.mem_append.mp hm with h1 | h1
  · exact Or.inl ⟨s, h1⟩
  · exact Or.inr ⟨s, h1⟩

theorem hasEnqEv_uid_mem {l : List Ev} {u : Nat} (h : hasEnqEv l u) :
    u ∈ l.filterMap evUid := by
  obtain ⟨k, fr, hm⟩ := h
  exact mem_filterMap_evUid hm rfl

theorem hasEnqRemEv_uid_mem {l : List Ev} {u : Nat} (h : hasEnqRemEv l u) :
    u ∈ l.filterMap evUid := by
  obtain ⟨s, hm⟩ := h
  exact mem_filterMap_evUid hm rfl

theorem no_start_of_exec_nil {l2 : List Ev} (hexec : execUids l2 = []) :
    ∀ u k, Ev.settleStart u k ∉ l2 := by
  intro u k hm
  have : u ∈ execUids l2 := mem_execUids.mpr ⟨_, hm, rfl⟩
  rw [hexec] at this
  simp at this

theorem no_rem_of_exec_nil {l2 : List Ev} (hexec : execUids l2 = []) :
    ∀ u s, Ev.removedSub u s ∉ l2 := by
  intro u s hm
  have : u ∈ execUids l2 := mem_execUids.mpr ⟨_, hm, rfl⟩
  rw [hexec] at this
  simp at this

theorem no_enqProj_of_no_enq_evs {l2 : List Ev}
    (h2 : ∀ x k fr, Ev.enqueued x k fr ∉ l2)
    (h3 : ∀ x s, Ev.enqueuedRemove x s ∉ l2) :
    ∀ e ∈ l2, enqProj e = none := by
  intro e he
  cases heq : enqProj e with
  | none => rfl
  | some u =>
      rcases enqProj_shape heq with ⟨k, rfl⟩ | ⟨s, rfl⟩
      · exact absurd he (h2 u k false)
      · exact absurd he (h3 u s)

theorem evBefore_no_enq_elim {lg l2 : List Ev} {u v : Nat}
    (hno : ∀ e ∈ l2, enqProj e = none)
    (h : evBefore (lg ++ l2) (enqEvOf u) (enqEvOf v)) :
    evBefore lg (enqEvOf u) (enqEvOf v) := by
  rcases evBefore_append_elim h with h | h | ⟨_, ⟨e, he, hq⟩⟩
  · exact h
  · obtain ⟨e1, e2, hp, _, hs⟩ := h
    have := hno e1 (hs.subset (by simp))
    rw [enqEvOf, this] at hp
    simp at hp
  · rw [enqEvOf, hno e he] at hq
    simp at hq

theorem evBefore_push_enq_elim {lg l2 : List Ev} {u v w : Nat}
    (hone : ∀ e ∈ l2, ∀ x, enqProj e = some x → x = w)
    (hu : u ≠ v)
    (h : evBefore (lg ++ l2) (enqEvOf u) (enqEvOf v)) :
    evBefore lg (enqEvOf u) (enqEvOf v) ∨
      (v = w ∧ ∃ e ∈ lg, enqProj e = some u) := by
  rcases evBefore_append_elim h with h | h | ⟨⟨e1, he1, hp⟩, ⟨e2, he2, hq⟩⟩
  · exact Or.inl h
  · obtain ⟨e1, e2, hp, hq, hs⟩ := h
    have h1 := hone e1 (hs.subset (by simp)) u hp
    have h2 := hone e2 (hs.subset (by simp)) v hq
    exact absurd (h1.trans h2.symm) hu
  · exact Or.inr ⟨hone e2 he2 v hq, e1, he1, hp⟩

theorem successFanOut_no_rem {key : String} {v : Nat} {args : List Nat}
    {subs : List (Nat × SubRecord)} {u s : Nat} :
    Ev.removedSub u s ∉ successFanOut key v args subs := by
  intro h
  rcases successFanOut_mem h with ⟨sid, he⟩ | ⟨sid, he⟩ <;> simp at he

theorem catchFanOut_no_rem {key : String} {err : Nat} {args : List Nat}
    {subs : List (Nat × SubRecord)} {u s : Nat} :
    Ev.removedSub u s ∉ catchFanOut key err args subs := by
  intro h
  obtain ⟨sid, he⟩ := catchFanOut_mem h
  simp at he

theorem successFanOut_no_enq_evs {key : String} {v : Nat} {args : List Nat}
    {subs : List (Nat × SubRecord)} {x : Nat} {k : String} {fr : Bool} :
    Ev.enqueued x k fr ∉ successFanOut key v args subs := by
  intro h
  rcases successFanOut_mem h with ⟨sid, he⟩ | ⟨sid, he⟩ <;> simp at he

theorem catchFanOut_no_enq_evs {key : String} {err : Nat} {args : List Nat}
    {subs : List (Nat × SubRecord)} {x : Nat} {k : String} {fr : Bool} :
    Ev.enqueued x k fr ∉ catchFanOut key err args subs := by
  intro h
  obtain ⟨sid, he⟩ := catchFanOut_mem h
  simp at he

theorem successFanOut_no_enqrem_evs {key : String} {v : Nat} {args : List Nat}
    {subs : List (Nat × SubRecord)} {x s : Nat} :
    Ev.enqueuedRemove x s ∉ successFanOut key v args subs := by
  intro h
  rcases successFanOut_mem h with ⟨sid, he⟩ | ⟨sid, he⟩ <;> simp at he

theorem catchFanOut_no_enqrem_evs {key : String} {err : Nat} {args : List Nat}
    {subs : List (Nat × SubRecord)} {x s : Nat} :
    Ev.enqueuedRemove x s ∉ catchFanOut key err args subs := by
  intro h
  obtain ⟨sid, he⟩ := catchFanOut_mem h
  simp at he

theorem successFanOut_no_uid {key : String} {v : Nat} {args : List Nat}
    {subs : List (Nat × SubRecord)} :
    (successFanOut key v args subs).filterMap evUid = [] := by
  rw [List.filterMap_eq_nil_iff]
  intro e he
  rcases successFanOut_mem he with ⟨sid, rfl⟩ | ⟨sid, rfl⟩ <;> rfl

theorem catchFanOut_no_uid {key : String} {err : Nat} {args : List Nat}
    {subs : List (Nat × SubRecord)} :
    (catchFanOut key err args subs).filterMap evUid = [] := by
  rw [List.filterMap_eq_nil_iff]
  intro e he
  obtain ⟨sid, rfl⟩ := catchFanOut_mem he
  rfl

theorem invO_of_eq_core {st st' : EmState} (h : InvO st)
    (hl : st'.log = st.log) (hq : st'.queue = st.queue)
    (hr : st'.running = st.running) (hn : st'.nextUid = st.nextUid) :
    InvO st' := by
  have htr : tracked st' = tracked st := by
    rw [tracked, tracked, hl, hq]
  refine ⟨?_, ?_, ?_, ?_, ?_, ?_, ?_, ?_, ?_, ?_, ?_⟩
  · rw [hl, hn]; exact h.logUb
  · rw [hq, hn]; exact h.queueUb
  · rw [hr, hn]; exact h.runUb
  · rw [htr]; exact h.nodup
  · rw [hl, htr]; exact h.pairOrd
  · rw [hl, htr]; exact h.enqMem
  · rw [hl]; exact h.kindSep
  · rw [hl]; exact h.startSrc
  · rw [hl]; exact h.remSrc
  · rw [hq, hl]; exact h.qSrc
  · rw [hr, hl]; exact h.runSrc

theorem invO_init : InvO initState := by
  refine ⟨?_, ?_, ?_, ?_, ?_, ?_, ?_, ?_, ?_, ?_, ?_⟩
  · intro u hu; simp [initState] at hu
  · intro u hu; simp [initState, queueUids] at hu
  · intro r hr; simp [initState] at hr
  · simp [tracked, initState, execUids, queueUids]
  · intro u v _ hb
    obtain ⟨e1, e2, _, _, hs⟩ := hb
    have := hs.subset (List.mem_cons_self e1 [e2])
    simp [initState] at this
  · intro u ev hev _; simp [initState] at hev
  · intro u hc
    obtain ⟨⟨k, fr, hm⟩, _⟩ := hc
    simp [initState] at hm
  · intro u k hm; simp [initState] at hm
  · intro u s hm; simp [initState] at hm
  · intro t ht; simp [initState] at ht
  · intro r hr; simp [initState] at hr

theorem invO_push_core {st : EmState} {t : QTask} {l2 : List Ev}
    (h : InvO st)
    (ht : t.uid = st.nextUid)
    (hexec : execUids l2 = [])
    (henq : ∀ e ∈ l2, ∀ x, enqProj e = some x → x = st.nextUid)
    (huid : ∀ u ∈ l2.filterMap evUid, u = st.nextUid)
    (hsettle : isSettleTask t = true →
        (∃ k fr, Ev.enqueued st.nextUid k fr ∈ l2) ∧
          ∀ x s, Ev.enqueuedRemove x s ∉ l2)
    (hremove : isSettleTask t = false →
        (∃ s, Ev.enqueuedRemove st.nextUid s ∈ l2) ∧
          ∀ x k fr, Ev.enqueued x k fr ∉ l2)
    (henqall : ∀ x k fr, Ev.enqueued x k fr ∈ l2 → x = st.nextUid)
    (hremall : ∀ x s, Ev.enqueuedRemove x s ∈ l2 → x = st.nextUid) :
    InvO { st with nextUid := st.nextUid + 1,
                   queue := st.queue ++ [t],
                   log := st.log ++ l2 } := by
  have htr : tracked { st with nextUid := st.nextUid + 1,
                               queue := st.queue ++ [t],
                               log := st.log ++ l2 } =
      tracked st ++ [st.nextUid] := by
    simp only [tracked, execUids_append, hexec, List.append_nil, queueUids,
      List.map_append, List.map_cons, List.map_nil, ht, List.append_assoc]
  have hfr : st.nextUid ∉ tracked st :=
    fun hm => absurd (trackedUb h _ hm) (Nat.lt_irrefl _)
  refine ⟨?_, ?_, ?_, ?_, ?_, ?_, ?_, ?_, ?_, ?_, ?_⟩
  · intro u hu
    simp only [List.filterMap_append, List.mem_append] at hu
    rcases hu with hu | hu
    · exact Nat.lt_succ_of_lt (h.logUb u hu)
    · rw [huid u hu]; exact Nat.lt_succ_self _
  · intro u hu
    simp only [queueUids, List.map_append, List.map_cons, List.map_nil,
      List.mem_append, List.mem_singleton, ht] at hu
    rcases hu with hu | rfl
    · exact Nat.lt_succ_of_lt (h.queueUb u hu)
    · exact Nat.lt_succ_self _
  · intro r hr
    exact Nat.lt_succ_of_lt (h.runUb r hr)
  · rw [htr, List.nodup_append]
    refine ⟨h.nodup, List.nodup_singleton _, ?_⟩
    intro a ha hb
    rw [List.mem_singleton] at hb
    subst hb
    exact hfr ha
  · intro u v hne hb
    rw [htr]
    rcases evBefore_push_enq_elim henq hne hb with hold | ⟨rfl, e, he, hp⟩
    · exact before2_append_right (h.pairOrd u v hne hold)
    · exact before2_snoc (h.enqMem u e he hp)
  · intro u ev hev hp
    rw [htr]
    rcases List.mem_append.mp hev with h1 | h1
    · exact List.mem_append_left _ (h.enqMem u ev h1 hp)
    · rw [henq ev h1 u hp]
      exact List.mem_append_right _ (by simp)
  · intro u hc
    obtain ⟨hE, hR⟩ := hc
    rcases hasEnqEv_append_elim hE with hE1 | hE1
    · rcases hasEnqRemEv_append_elim hR with hR1 | hR1
      · exact h.kindSep u ⟨hE1, hR1⟩
      · obtain ⟨s, hs⟩ := hR1
        have hu : u = st.nextUid := hremall u s hs
        have hlt : u < st.nextUid := h.logUb u (hasEnqEv_uid_mem hE1)
        omega
    · rcases hasEnqRemEv_append_elim hR with hR1 | hR1
      · obtain ⟨k, fr, hk⟩ := hE1
        have hu : u = st.nextUid := henqall u k fr hk
        have hlt : u < st.nextUid := h.logUb u (hasEnqRemEv_uid_mem hR1)
        omega
      · obtain ⟨k, fr, hk⟩ := hE1
        obtain ⟨s, hs⟩ := hR1
        cases hset : isSettleTask t with
        | true => exact absurd hs ((hsettle hset).2 u s)
        | false => exact absurd hk ((hremove hset).2 u k fr)
  · intro u k hm
    rcases List.mem_append.mp hm with h1 | h1
    · exact hasEnqEv_append_left (h.startSrc u k h1)
    · exact absurd h1 (no_start_of_exec_nil hexec u k)
  · intro u s hm
    rcases List.mem_append.mp hm with h1 | h1
    · exact hasEnqRemEv_append_left (h.remSrc u s h1)
    · exact absurd h1 (no_rem_of_exec_nil hexec u s)
  · intro t2 ht2
    rcases List.mem_append.mp ht2 with h1 | h1
    · exact ⟨fun hs => hasEnqEv_append_left ((h.qSrc t2 h1).1 hs),
        fun hs => hasEnqRemEv_append_left ((h.qSrc t2 h1).2 hs)⟩
    · rw [List.mem_singleton] at h1
      subst h1
      constructor
      · intro hs
        obtain ⟨⟨k, fr, hm⟩, _⟩ := hsettle hs
        rw [ht]
        exact ⟨k, fr, List.mem_append_right _ hm⟩
      · intro hs
        obtain ⟨⟨s, hm⟩, _⟩ := hremove hs
        rw [ht]
        exact ⟨s, List.mem_append_right _ hm⟩
  · intro r hr
    exact hasEnqEv_append_left (h.runSrc r hr)

theorem invO_front_core {st : EmState} {t : QTask} {l2 : List Ev}
    (h : InvO st)
    (ht : t.uid = st.nextUid)
    (hexec : execUids l2 = [])
    (henq : ∀ e ∈ l2, enqProj e = none)
    (huid : ∀ u ∈ l2.filterMap evUid, u = st.nextUid)
    (hset : isSettleTask t = true)
    (hsrc : ∃ k fr, Ev.enqueued st.nextUid k fr ∈ l2)
    (henqall : ∀ x k fr, Ev.enqueued x k fr ∈ l2 → x = st.nextUid)
    (hnorem : ∀ x s, Ev.enqueuedRemove x s ∉ l2) :
    InvO { st with nextUid := st.nextUid + 1,
                   queue := t :: st.queue,
                   log := st.log ++ l2 } := by
  have htr : tracked { st with nextUid := st.nextUid + 1,
                               queue := t :: st.queue,
                               log := st.log ++ l2 } =
      execUids st.log ++ st.nextUid :: queueUids st.queue := by
    simp only [tracked, execUids_append, hexec, List.append_nil, queueUids,
      List.map_cons, ht]
  have hfr : st.nextUid ∉ tracked st :=
    fun hm => absurd (trackedUb h _ hm) (Nat.lt_irrefl _)
  refine ⟨?_, ?_, ?_, ?_, ?_, ?_, ?_, ?_, ?_, ?_, ?_⟩
  · intro u hu
    simp only [List.filterMap_append, List.mem_append] at hu
    rcases hu with hu | hu
    · exact Nat.lt_succ_of_lt (h.logUb u hu)
    · rw [huid u hu]; exact Nat.lt_succ_self _
  · intro u hu
    simp only [queueUids, List.map_cons, List.mem_cons, ht] at hu
    rcases hu with rfl | hu
    · exact Nat.lt_succ_self _
    · exact Nat.lt_succ_of_lt (h.queueUb u hu)
  · intro r hr
    exact Nat.lt_succ_of_lt (h.runUb r hr)
  · rw [htr, List.nodup_middle, List.nodup_cons]
    exact ⟨hfr, h.nodup⟩
  · intro u v hne hb
    rw [htr]
    exact before2_insert_middle (h.pairOrd u v hne (evBefore_no_enq_elim henq hb))
  · intro u ev hev hp
    rw [htr]
    rcases List.mem_append.mp hev with h1 | h1
    · have hmem := h.enqMem u ev h1 hp
      rcases List.mem_append.mp hmem with h2 | h2
      · exact List.mem_append_left _ h2
      · exact List.mem_append_right _ (List.mem_cons_of_mem _ h2)
    · rw [henq ev h1] at hp
      simp at hp
  · intro u hc
    obtain ⟨hE, hR⟩ := hc
    rcases hasEnqRemEv_append_elim hR with hR1 | hR1
    · rcases hasEnqEv_append_elim hE with hE1 | hE1
      · exact h.kindSep u ⟨hE1, hR1⟩
      · obtain ⟨k, fr, hk⟩ := hE1
        have hu : u = st.nextUid := henqall u k fr hk
        have hlt : u < st.nextUid := h.logUb u (hasEnqRemEv_uid_mem hR1)
        omega
    · obtain ⟨s, hs⟩ := hR1
      exact absurd hs (hnorem u s)
  · intro u k hm
    rcases List.mem_append.mp hm with h1 | h1
    · exact hasEnqEv_append_left (h.startSrc u k h1)
    · exact absurd h1 (no_start_of_exec_nil hexec u k)
  · intro u s hm
    rcases List.mem_append.mp hm with h1 | h1
    · exact hasEnqRemEv_append_left (h.remSrc u s h1)
    · exact absurd h1 (no_rem_of_exec_nil hexec u s)
  · intro t2 ht2
    rcases List.mem_cons.mp ht2 with h1 | h1
    · subst h1
      constructor
      · intro _
        obtain ⟨k, fr, hm⟩ := hsrc
        rw [ht]
        exact ⟨k, fr, List.mem_append_right _ hm⟩
      · intro hfalse
        rw [hset] at hfalse
        simp at hfalse
    · exact ⟨fun hs => hasEnqEv_append_left ((h.qSrc t2 h1).1 hs),
        fun hs => hasEnqRemEv_append_left ((h.qSrc t2 h1).2 hs)⟩
  · intro r hr
    exact hasEnqEv_append_left (h.runSrc r hr)

theorem invO_reject_core {st : EmState} {l2 : List Ev}
    (h : InvO st)
    (hexec : execUids l2 = [])
    (hnoenq2 : ∀ x k fr, Ev.enqueued x k fr ∉ l2)
    (hnorem2 : ∀ x s, Ev.enqueuedRemove x s ∉ l2)
    (huid : ∀ u ∈ l2.filterMap evUid, u < st.nextUid + 1) :
    InvO { st with nextUid := st.nextUid + 1, log := st.log ++ l2 } := by
  have henq : ∀ e ∈ l2, enqProj e = none :=
    no_enqProj_of_no_enq_evs hnoenq2 hnorem2
  have htr : tracked { st with nextUid := st.nextUid + 1,
                               log := st.log ++ l2 } = tracked st := by
    simp only [tracked, execUids_append, hexec, List.append_nil]
  refine ⟨?_, ?_, ?_, ?_, ?_, ?_, ?_, ?_, ?_, ?_, ?_⟩
  · intro u hu
    simp only [List.filterMap_append, List.mem_append] at hu
    rcases hu with hu | hu
    · exact Nat.lt_succ_of_lt (h.logUb u hu)
    · exact huid u hu
  · intro u hu
    exact Nat.lt_succ_of_lt (h.queueUb u hu)
  · intro r hr
    exact Nat.lt_succ_of_lt (h.runUb r hr)
  · rw [htr]; exact h.nodup
  · intro u v hne hb
    rw [htr]
    exact h.pairOrd u v hne (evBefore_no_enq_elim henq hb)
  · intro u ev hev hp
    rw [htr]
    rcases List.mem_append.mp hev with h1 | h1
    · exact h.enqMem u ev h1 hp
    · rw [henq ev h1] at hp
      simp at hp
  · intro u hc
    obtain ⟨hE, hR⟩ := hc
    rcases hasEnqEv_append_elim hE with hE1 | hE1
    · rcases hasEnqRemEv_append_elim hR with hR1 | hR1
      · exact h.kindSep u ⟨hE1, hR1⟩
      · obtain ⟨s, hs⟩ := hR1
        exact absurd hs (hnorem2 u s)
    · obtain ⟨k, fr, hk⟩ := hE1
      exact absurd hk (hnoenq2 u k fr)
  · intro u k hm
    rcases List.mem_append.mp hm with h1 | h1
    · exact hasEnqEv_append_left (h.startSrc u k h1)
    · exact absurd h1 (no_start_of_exec_nil hexec u k)
  · intro u s hm
    rcases List.mem_append.mp hm with h1 | h1
    · exact hasEnqRemEv_append_left (h.remSrc u s h1)
    · exact absurd h1 (no_rem_of_exec_nil hexec u s)
  · intro t2 ht2
    exact ⟨fun hs => hasEnqEv_append_left ((h.qSrc t2 ht2).1 hs),
      fun hs => hasEnqRemEv_append_left ((h.qSrc t2 ht2).2 hs)⟩
  · intro r hr
    exact hasEnqEv_append_left (h.runSrc r hr)

theorem invO_finish_core {st : EmState} {r : Running} {l2 : List Ev}
    (h : InvO st) (hr : st.running = some r)
    (hexec : execUids l2 = [])
    (hnoenq2 : ∀ x k fr, Ev.enqueued x k fr ∉ l2)
    (hnorem2 : ∀ x s, Ev.enqueuedRemove x s ∉ l2)
    (huid : ∀ u ∈ l2.filterMap evUid, u = r.uid) :
    InvO { st with running := none, log := st.log ++ l2 } := by
  have henq : ∀ e ∈ l2, enqProj e = none :=
    no_enqProj_of_no_enq_evs hnoenq2 hnorem2
  have htr : tracked { st with running := none,
                               log := st.log ++ l2 } = tracked st := by
    simp only [tracked, execUids_append, hexec, List.append_nil]
  refine ⟨?_, ?_, ?_, ?_, ?_, ?_, ?_, ?_, ?_, ?_, ?_⟩
  · intro u hu
    simp only [List.filterMap_append, List.mem_append] at hu
    rcases hu with hu | hu
    · exact h.logUb u hu
    · rw [huid u hu]
      exact h.runUb r hr
  · exact h.queueUb
  · intro r' hr'
    simp at hr'
  · rw [htr]; exact h.nodup
  · intro u v hne hb
    rw [htr]
    exact h.pairOrd u v hne (evBefore_no_enq_elim henq hb)
  · intro u ev hev hp
    rw [htr]
    rcases List.mem_append.mp hev with h1 | h1
    · exact h.enqMem u ev h1 hp
    · rw [henq ev h1] at hp
      simp at hp
  · intro u hc
    obtain ⟨hE, hR⟩ := hc
    rcases hasEnqEv_append_elim hE with hE1 | hE1
    · rcases hasEnqRemEv_append_elim hR with hR1 | hR1
      · exact h.kindSep u ⟨hE1, hR1⟩
      · obtain ⟨s, hs⟩ := hR1
        exact absurd hs (hnorem2 u s)
    · obtain ⟨k, fr, hk⟩ := hE1
      exact absurd hk (hnoenq2 u k fr)
  · intro u k hm
    rcases List.mem_append.mp hm with h1 | h1
    · exact hasEnqEv_append_left (h.startSrc u k h1)
    · exact absurd h1 (no_start_of_exec_nil hexec u k)
  · intro u s hm
    rcases List.mem_append.mp hm with h1 | h1
    · exact hasEnqRemEv_append_left (h.remSrc u s h1)
    · exact absurd h1 (no_rem_of_exec_nil hexec u s)
  · intro t2 ht2
    exact ⟨fun hs => hasEnqEv_append_left ((h.qSrc t2 ht2).1 hs),
      fun hs => hasEnqRemEv_append_left ((h.qSrc t2 ht2).2 hs)⟩
  · intro r' hr'
    simp at hr'

theorem invO_exec_core {st : EmState} {t : QTask} {rest : List QTask}
    {l2 : List Ev} {ro : Option Running}
    (h : InvO st)
    (hq : st.queue = t :: rest)
    (hexec : execUids l2 = [t.uid])
    (hnoenq2 : ∀ x k fr, Ev.enqueued x k fr ∉ l2)
    (hnorem2 : ∀ x s, Ev.enqueuedRemove x s ∉ l2)
    (huid : ∀ u ∈ l2.filterMap evUid, u = t.uid)
    (hstarts : ∀ u k, Ev.settleStart u k ∈ l2 → u = t.uid ∧ isSettleTask t = true)
    (hrems : ∀ u s, Ev.removedSub u s ∈ l2 → u = t.uid ∧ isSettleTask t = false)
    (hro : ∀ r, ro = some r → r.uid = t.uid ∧ isSettleTask t = true) :
    InvO { st with queue := rest, running := ro, log := st.log ++ l2 } := by
  have henq : ∀ e ∈ l2, enqProj e = none :=
    no_enqProj_of_no_enq_evs hnoenq2 hnorem2
  have htmem : t ∈ st.queue := by rw [hq]; exact List.mem_cons_self t rest
  have htuid : t.uid < st.nextUid := by
    refine h.queueUb t.uid ?_
    rw [hq]
    simp [queueUids]
  have hqt := h.qSrc t htmem
  have htr : tracked { st with queue := rest, running := ro,
                               log := st.log ++ l2 } = tracked st := by
    simp only [tracked, execUids_append, hexec, queueUids, hq, List.map_cons,
      List.append_assoc, List.singleton_append]
  refine ⟨?_, ?_, ?_, ?_, ?_, ?_, ?_, ?_, ?_, ?_, ?_⟩
  · intro u hu
    simp only [List.filterMap_append, List.mem_append] at hu
    rcases hu with hu | hu
    · exact h.logUb u hu
    · rw [huid u hu]
      exact htuid
  · intro u hu
    refine h.queueUb u ?_
    rw [hq]
    simp only [queueUids, List.map_cons, List.mem_cons]
    exact Or.inr hu
  · intro r hr
    rw [(hro r hr).1]
    exact htuid
  · rw [htr]; exact h.nodup
  · intro u v hne hb
    rw [htr]
    exact h.pairOrd u v hne (evBefore_no_enq_elim henq hb)
  · intro u ev hev hp
    rw [htr]
    rcases List.mem_append.mp hev with h1 | h1
    · exact h.enqMem u ev h1 hp
    · rw [henq ev h1] at hp
      simp at hp
  · intro u hc
    obtain ⟨hE, hR⟩ := hc
    rcases hasEnqEv_append_elim hE with hE1 | hE1
    · rcases hasEnqRemEv_append_elim hR with hR1 | hR1
      · exact h.kindSep u ⟨hE1, hR1⟩
      · obtain ⟨s, hs⟩ := hR1
        exact absurd hs (hnorem2 u s)
    · obtain ⟨k, fr, hk⟩ := hE1
      exact absurd hk (hnoenq2 u k fr)
  · intro u k hm
    rcases List.mem_append.mp hm with h1 | h1
    · exact hasEnqEv_append_left (h.startSrc u k h1)
    · obtain ⟨hu, hst⟩ := hstarts u k h1
      subst hu
      exact hasEnqEv_append_left (hqt.1 hst)
  · intro u s hm
    rcases List.mem_append.mp hm with h1 | h1
    · exact hasEnqRemEv_append_left (h.remSrc u s h1)
    · obtain ⟨hu, hst⟩ := hrems u s h1
      subst hu
      exact hasEnqRemEv_append_left (hqt.2 hst)
  · intro t2 ht2
    have ht2m : t2 ∈ st.queue := by
      rw [hq]
      exact List.mem_cons_of_mem t ht2
    exact ⟨fun hs => hasEnqEv_append_left ((h.qSrc t2 ht2m).1 hs),
      fun hs => hasEnqRemEv_append_left ((h.qSrc t2 ht2m).2 hs)⟩
  · intro r hr
    obtain ⟨hu, hst⟩ := hro r hr
    rw [hu]
    exact hasEnqEv_append_left (hqt.1 hst)

theorem invO_decrement {st : EmState} {r : Running} {n : Nat}
    (h : InvO st) (hr : st.running = some r) :
    InvO { st with running := some { r with rem := n } } := by
  refine ⟨h.logUb, h.queueUb, ?_, h.nodup, h.pairOrd, h.enqMem, h.kindSep,
    h.startSrc, h.remSrc, h.qSrc, ?_⟩
  · intro r' hr'
    have heq : { r with rem := n } = r' := Option.some.inj hr'
    subst heq
    exact h.runUb r hr
  · intro r' hr'
    have heq : { r with rem := n } = r' := Option.some.inj hr'
    subst heq
    exact h.runSrc r hr

theorem completeRun_ok {st : EmState} {r : Running} {v : Nat}
    (ho : r.out = Except.ok v) :
    completeRun st r = settleQueueCheck
      { st with running := none,
                log := st.log ++
                  ((if st.enabled then successFanOut r.key v r.args st.subs
                    else []) ++
                    [Ev.resolvedEv r.uid v, Ev.settleEnd r.uid r.key]) } := by
  unfold completeRun
  rw [ho]
  simp [List.append_assoc]

theorem completeRun_err {st : EmState} {r : Running} {e : Nat}
    (ho : r.out = Except.error e) :
    completeRun st r = settleQueueCheck
      { st with running := none,
                log := st.log ++
                  (catchFanOut r.key e r.args st.subs ++
                    [Ev.rejectedEv r.uid e, Ev.settleEnd r.uid r.key]) } := by
  unfold completeRun
  rw [ho]
  simp [List.append_assoc]

theorem invO_invoke (cfg : Config) (st : EmState) (key : String)
    (args : List Nat) (h : InvO st) : InvO (invoke cfg st key args) := by
  cases hl : lookupEntry cfg key with
  | none => rw [invoke_missing hl]; exact h
  | some e =>
      cases e with
      | value v => rw [invoke_value hl]; exact h
      | asyncFn d f =>
          by_cases hk : key = initKey
          · subst hk
            by_cases hi : st.initialized = true
            · rw [invoke_async_double hl hi]
              refine invO_reject_core h rfl ?_ ?_ ?_
              · intro x k fr hm; simp at hm
              · intro x s hm; simp at hm
              · intro u hu
                have hcalc : ([Ev.invoked initKey args,
                    Ev.returnedPromise st.nextUid initKey,
                    Ev.rejectedOnce st.nextUid].filterMap evUid) =
                    [st.nextUid, st.nextUid] := rfl
                rw [hcalc] at hu
                simp at hu
                omega
            · rw [invoke_async_init_first hl (by simpa using hi)]
              refine invO_of_eq_core
                (@invO_front_core st
                  (QTask.settleAsync st.nextUid initKey args d (f args))
                  [Ev.invoked initKey args,
                   Ev.returnedPromise st.nextUid initKey,
                   Ev.enqueued st.nextUid initKey true]
                  h rfl rfl ?_ ?_ rfl ⟨initKey, true, by simp⟩ ?_ ?_)
                rfl rfl rfl rfl
              · intro e he
                simp only [List.mem_cons, List.not_mem_nil, or_false] at he
                rcases he with rfl | rfl | rfl <;> rfl
              · intro u hu
                have hcalc : ([Ev.invoked initKey args,
                    Ev.returnedPromise st.nextUid initKey,
                    Ev.enqueued st.nextUid initKey true].filterMap evUid) =
                    [st.nextUid, st.nextUid] := rfl
                rw [hcalc] at hu
                simp at hu
                exact hu
              · intro x k fr hm
                simp at hm
                exact hm.1
              · intro x s hm; simp at hm
          · rw [invoke_async_other hl hk]
            refine invO_of_eq_core
              (@invO_push_core st
                (QTask.settleAsync st.nextUid key args d (f args))
                [Ev.invoked key args, Ev.returnedPromise st.nextUid key,
                 Ev.enqueued st.nextUid key false]
                h rfl rfl ?_ ?_ ?_ ?_ ?_ ?_)
              (kick_log _) (kick_queue _) (kick_running _) (kick_nextUid _)
            · intro e he x hx
              simp only [List.mem_cons, List.not_mem_nil, or_false] at he
              rcases he with rfl | rfl | rfl
              · simp [enqProj] at hx
              · simp [enqProj] at hx
              · simp [enqProj] at hx
                omega
            · intro u hu
              have hcalc : ([Ev.invoked key args,
                  Ev.returnedPromise st.nextUid key,
                  Ev.enqueued st.nextUid key false].filterMap evUid) =
                  [st.nextUid, st.nextUid] := rfl
              rw [hcalc] at hu
              simp at hu
              exact hu
            · intro _
              refine ⟨⟨key, false, by simp⟩, ?_⟩
              intro x s hm; simp at hm
            · intro hfalse
              simp [isSettleTask] at hfalse
            · intro x k2 fr hm
              simp at hm
              exact hm.1
            · intro x s hm; simp at hm
      | syncFn f =>
          by_cases hk : key = initKey
          · subst hk
            by_cases hi : st.initialized = true
            · rw [invoke_sync_double hl hi]
              refine invO_reject_core h rfl ?_ ?_ ?_
              · intro x k fr hm; simp at hm
              · intro x s hm; simp at hm
              · intro u hu
                have hcalc : ([Ev.invoked initKey args,
                    Ev.threwOnce initKey].filterMap evUid) = ([] : List Nat) := rfl
                rw [hcalc] at hu
                simp at hu
            · rw [invoke_sync_init_first hl (by simpa using hi)]
              refine invO_of_eq_core
                (@invO_front_core st
                  (QTask.settleSync st.nextUid initKey args (f args))
                  [Ev.invoked initKey args,
                   Ev.enqueued st.nextUid initKey true,
                   Ev.returnedUndef initKey]
                  h rfl rfl ?_ ?_ rfl ⟨initKey, true, by simp⟩ ?_ ?_)
                rfl rfl rfl rfl
              · intro e he
                simp only [List.mem_cons, List.not_mem_nil, or_false] at he
                rcases he with rfl | rfl | rfl <;> rfl
              · intro u hu
                have hcalc : ([Ev.invoked initKey args,
                    Ev.enqueued st.nextUid initKey true,
                    Ev.returnedUndef initKey].filterMap evUid) =
                    [st.nextUid] := rfl
                rw [hcalc] at hu
                simp at hu
                exact hu
              · intro x k fr hm
                simp at hm
                exact hm.1
              · intro x s hm; simp at hm
          · rw [invoke_sync_other hl hk]
            refine invO_of_eq_core
              (@invO_push_core st
                (QTask.settleSync st.nextUid key args (f args))
                [Ev.invoked key args, Ev.enqueued st.nextUid key false,
                 Ev.returnedUndef key]
                h rfl rfl ?_ ?_ ?_ ?_ ?_ ?_)
              (kick_log _) (kick_queue _) (kick_running _) (kick_nextUid _)
            · intro e he x hx
              simp only [List.mem_cons, List.not_mem_nil, or_false] at he
              rcases he with rfl | rfl | rfl
              · simp [enqProj] at hx
              · simp [enqProj] at hx
                omega
              · simp [enqProj] at hx
            · intro u hu
              have hcalc : ([Ev.invoked key args,
                  Ev.enqueued st.nextUid key false,
                  Ev.returnedUndef key].filterMap evUid) = [st.nextUid] := rfl
              rw [hcalc] at hu
              simp at hu
              exact hu
            · intro _
              refine ⟨⟨key, false, by simp⟩, ?_⟩
              intro x s hm; simp at hm
            · intro hfalse
              simp [isSettleTask] at hfalse
            · intro x k2 fr hm
              simp at hm
              exact hm.1
            · intro x s hm; simp at hm

theorem invO_tick (st : EmState) (h : InvO st) : InvO (tick st) := by
  by_cases hh : st.halted = true
  · rw [tick_of_halted hh]; exact h
  · have hh' : st.halted = false := by simpa using hh
    cases hr : st.running with
    | some r =>
        cases hrem : r.rem with
        | zero =>
            rw [tick_complete hh' hr hrem]
            cases ho : r.out with
            | ok v =>
                rw [completeRun_ok ho]
                refine invO_of_eq_core
                  (@invO_finish_core st r
                    ((if st.enabled then successFanOut r.key v r.args st.subs
                      else []) ++
                      [Ev.resolvedEv r.uid v, Ev.settleEnd r.uid r.key])
                    h hr ?_ ?_ ?_ ?_)
                  (sqc_log _) (sqc_queue _) ?_ (sqc_nextUid _)
                · rw [execUids_append]
                  have h2 : execUids [Ev.resolvedEv r.uid v,
                      Ev.settleEnd r.uid r.key] = [] := rfl
                  rw [h2, List.append_nil]
                  by_cases he : st.enabled = true
                  · rw [if_pos he]; exact successFanOut_no_exec
                  · rw [if_neg he]; rfl
                · intro x k fr hm
                  rcases List.mem_append.mp hm with h1 | h1
                  · by_cases he : st.enabled = true
                    · rw [if_pos he] at h1
                      exact successFanOut_no_enq_evs h1
                    · rw [if_neg he] at h1
                      simp at h1
                  · simp at h1
                · intro x s hm
                  rcases List.mem_append.mp hm with h1 | h1
                  · by_cases he : st.enabled = true
                    · rw [if_pos he] at h1
                      exact successFanOut_no_enqrem_evs h1
                    · rw [if_neg he] at h1
                      simp at h1
                  · simp at h1
                · intro u hu
                  rw [List.filterMap_append] at hu
                  rcases List.mem_append.mp hu with h1 | h1
                  · by_cases he : st.enabled = true
                    · rw [if_pos he, successFanOut_no_uid] at h1
                      simp at h1
                    · rw [if_neg he] at h1
                      simp at h1
                  · have hcalc : ([Ev.resolvedEv r.uid v,
                        Ev.settleEnd r.uid r.key].filterMap evUid) =
                        [r.uid, r.uid] := rfl
                    rw [hcalc] at h1
                    simp at h1
                    exact h1
                · rw [sqc_running]
            | error e =>
                rw [completeRun_err ho]
                refine invO_of_eq_core
                  (@invO_finish_core st r
                    (catchFanOut r.key e r.args st.subs ++
                      [Ev.rejectedEv r.uid e, Ev.settleEnd r.uid r.key])
                    h hr ?_ ?_ ?_ ?_)
                  (sqc_log _) (sqc_queue _) ?_ (sqc_nextUid _)
                · rw [execUids_append]
                  have h2 : execUids [Ev.rejectedEv r.uid e,
                      Ev.settleEnd r.uid r.key] = [] := rfl
                  rw [h2, List.append_nil]
                  exact catchFanOut_no_exec
                · intro x k fr hm
                  rcases List.mem_append.mp hm with h1 | h1
                  · exact catchFanOut_no_enq_evs h1
                  · simp at h1
                · intro x s hm
                  rcases List.mem_append.mp hm with h1 | h1
                  · exact catchFanOut_no_enqrem_evs h1
                  · simp at h1
                · intro u hu
                  rw [List.filterMap_append, catchFanOut_no_uid] at hu
                  have hcalc : ([Ev.rejectedEv r.uid e,
                      Ev.settleEnd r.uid r.key].filterMap evUid) =
                      [r.uid, r.uid] := rfl
                  rw [hcalc] at hu
                  simp at hu
                  exact hu
                · rw [sqc_running]
        | succ n =>
            rw [tick_decrement hh' hr hrem]
            exact invO_decrement h hr
    | none =>
        by_cases hf : st.flushing = true
        · cases hq2 : st.queue with
          | nil =>
              rw [tick_empty hh' hr hf hq2]
              exact invO_of_eq_core h rfl rfl rfl rfl
          | cons t rest =>
              rw [tick_pop hh' hr hf hq2]
              cases t with
              | settleAsync uid key args dur out =>
                  refine invO_of_eq_core
                    (@invO_exec_core st
                      (QTask.settleAsync uid key args dur out) rest
                      [Ev.settleStart uid key, Ev.ranUnderlying uid key args]
                      (some { uid := uid, key := key, args := args,
                              out := out, rem := dur })
                      h hq2 rfl ?_ ?_ ?_ ?_ ?_ ?_)
                    rfl rfl rfl rfl
                  · intro x k fr hm; simp at hm
                  · intro x s hm; simp at hm
                  · intro u hu
                    have hcalc : ([Ev.settleStart uid key,
                        Ev.ranUnderlying uid key args].filterMap evUid) =
                        [uid, uid] := rfl
                    rw [hcalc] at hu
                    simp at hu
                    exact hu
                  · intro u k2 hm
                    simp at hm
                    exact ⟨hm.1, rfl⟩
                  · intro u s hm; simp at hm
                  · intro r2 hr2
                    have heq := Option.some.inj hr2
                    subst heq
                    exact ⟨rfl, rfl⟩
              | settleSync uid key args out =>
                  cases out with
                  | ok rv =>
                      refine invO_of_eq_core
                        (@invO_exec_core st
                          (QTask.settleSync uid key args (Except.ok rv)) rest
                          ([Ev.settleStart uid key,
                            Ev.ranUnderlying uid key args] ++
                            ((if st.enabled then
                                successFanOut key rv args st.subs
                              else []) ++ [Ev.settleEnd uid key]))
                          none h hq2 ?_ ?_ ?_ ?_ ?_ ?_ ?_)
                        ?_ ?_ ?_ ?_
                      · rw [execUids_append, execUids_append]
                        have h1 : execUids [Ev.settleStart uid key,
                            Ev.ranUnderlying uid key args] = [uid] := rfl
                        have h2 : execUids [Ev.settleEnd uid key] = [] := rfl
                        rw [h1, h2, List.append_nil]
                        by_cases he : st.enabled = true
                        · rw [if_pos he, successFanOut_no_exec]; rfl
                        · rw [if_neg he]; rfl
                      · intro x k fr hm
                        rcases List.mem_append.mp hm with h1 | h1
                        · simp at h1
                        · rcases List.mem_append.mp h1 with h2 | h2
                          · by_cases he : st.enabled = true
                            · rw [if_pos he] at h2
                              exact successFanOut_no_enq_evs h2
                            · rw [if_neg he] at h2
                              simp at h2
                          · simp at h2
                      · intro x s hm
                        rcases List.mem_append.mp hm with h1 | h1
                        · simp at h1
                        · rcases List.mem_append.mp h1 with h2 | h2
                          · by_cases he : st.enabled = true
                            · rw [if_pos he] at h2
                              exact successFanOut_no_enqrem_evs h2
                            · rw [if_neg he] at h2
                              simp at h2
                          · simp at h2
                      · intro u hu
                        rw [List.filterMap_append, List.filterMap_append] at hu
                        have h1 : ([Ev.settleStart uid key,
                            Ev.ranUnderlying uid key args].filterMap evUid) =
                            [uid, uid] := rfl
                        have h2 : ([Ev.settleEnd uid key].filterMap evUid) =
                            [uid] := rfl
                        have h3 : ((if st.enabled then
                            successFanOut key rv args st.subs
                            else []).filterMap evUid) = [] := by
                          by_cases he : st.enabled = true
                          · rw [if_pos he, successFanOut_no_uid]
                          · rw [if_neg he]; rfl
                        rw [h1, h2, h3] at hu
                        simp at hu
                        exact hu
                      · intro u k2 hm
                        rcases List.mem_append.mp hm with h1 | h1
                        · simp at h1
                          exact ⟨h1.1, rfl⟩
                        · rcases List.mem_append.mp h1 with h2 | h2
                          · by_cases he : st.enabled = true
                            · rw [if_pos he] at h2
                              exact absurd h2 successFanOut_no_start
                            · rw [if_neg he] at h2
                              simp at h2
                          · simp at h2
                      · intro u s hm
                        rcases List.mem_append.mp hm with h1 | h1
                        · simp at h1
                        · rcases List.mem_append.mp h1 with h2 | h2
                          · by_cases he : st.enabled = true
                            · rw [if_pos he] at h2
                              exact absurd h2 successFanOut_no_rem
                            · rw [if_neg he] at h2
                              simp at h2
                          · simp at h2
                      · intro r2 hr2; simp at hr2
                      · simp only [startTask]
                        rw [sqc_log]
                        simp [List.append_assoc]
                      · simp only [startTask]
                        rw [sqc_queue]
                      · simp only [startTask]
                        rw [sqc_running]
                        exact hr
                      · simp only [startTask]
                        rw [sqc_nextUid]
                  | error ee =>
                      refine invO_of_eq_core
                        (@invO_exec_core st
                          (QTask.settleSync uid key args (Except.error ee)) rest
                          ([Ev.settleStart uid key,
                            Ev.ranUnderlying uid key args] ++
                            (catchFanOut key ee args st.subs ++
                              [Ev.settleEnd uid key, Ev.drainHalted uid key]))
                          none h hq2 ?_ ?_ ?_ ?_ ?_ ?_ ?_)
                        ?_ ?_ ?_ ?_
                      · rw [execUids_append, execUids_append]
                        have h1 : execUids [Ev.settleStart uid key,
                            Ev.ranUnderlying uid key args] = [uid] := rfl
                        have h2 : execUids [Ev.settleEnd uid key,
                            Ev.drainHalted uid key] = [] := rfl
                        rw [h1, h2, List.append_nil, catchFanOut_no_exec]
                        rfl
                      · intro x k fr hm
                        rcases List.mem_append.mp hm with h1 | h1
                        · simp at h1
                        · rcases List.mem_append.mp h1 with h2 | h2
                          · exact catchFanOut_no_enq_evs h2
                          · simp at h2
                      · intro x s hm
                        rcases List.mem_append.mp hm with h1 | h1
                        · simp at h1
                        · rcases List.mem_append.mp h1 with h2 | h2
                          · exact catchFanOut_no_enqrem_evs h2
                          · simp at h2
                      · intro u hu
                        rw [List.filterMap_append, List.filterMap_append,
                          catchFanOut_no_uid] at hu
                        have h1 : ([Ev.settleStart uid key,
                            Ev.ranUnderlying uid key args].filterMap evUid) =
                            [uid, uid] := rfl
                        have h2 : ([Ev.settleEnd uid key,
                            Ev.drainHalted uid key].filterMap evUid) =
                            [uid, uid] := rfl
                        rw [h1, h2] at hu
                        simp at hu
                        exact hu
                      · intro u k2 hm
                        rcases List.mem_append.mp hm with h1 | h1
                        · simp at h1
                          exact ⟨h1.1, rfl⟩
                        · rcases List.mem_append.mp h1 with h2 | h2
                          · exact absurd h2 catchFanOut_no_start
                          · simp at h2
                      · intro u s hm
                        rcases List.mem_append.mp hm with h1 | h1
                        · simp at h1
                        · rcases List.mem_append.mp h1 with h2 | h2
                          · exact absurd h2 catchFanOut_no_rem
                          · simp at h2
                      · intro r2 hr2; simp at hr2
                      · simp only [startTask]
                        simp [List.append_assoc]
                      · simp only [startTask]
                      · simp only [startTask]
                        exact hr
                      · simp only [startTask]
              | removeSub uid sid =>
                  refine invO_of_eq_core
                    (@invO_exec_core st (QTask.removeSub uid sid) rest
                      [Ev.removedSub uid sid] none h hq2 rfl ?_ ?_ ?_ ?_ ?_ ?_)
                    ?_ ?_ ?_ ?_
                  · intro x k fr hm; simp at hm
                  · intro x s hm; simp at hm
                  · intro u hu
                    have hcalc : ([Ev.removedSub uid sid].filterMap evUid) =
                        [uid] := rfl
                    rw [hcalc] at hu
                    simp at hu
                    exact hu
                  · intro u k2 hm; simp at hm
                  · intro u s hm
                    simp at hm
                    exact ⟨hm.1, rfl⟩
                  · intro r2 hr2; simp at hr2
                  · simp only [startTask]
                    rw [sqc_log]
                  · simp only [startTask]
                    rw [sqc_queue]
                  · simp only [startTask]
                    rw [sqc_running]
                    exact hr
                  · simp only [startTask]
                    rw [sqc_nextUid]
        · have hf' : st.flushing = false := by simpa using hf
          rw [tick_idle hh' hr hf']
          exact h

theorem invO_step (cfg : Config) (st : EmState) (a : Act) (h : InvO st) :
    InvO (step cfg st a) := by
  cases a with
  | invoke key args => exact invO_invoke cfg st key args h
  | subscribe sr =>
      rw [step_subscribe]
      exact invO_of_eq_core h rfl rfl rfl rfl
  | unsubscribe sid =>
      by_cases hf : st.flushing = true
      · rw [step_unsub_flushing hf]
        refine @invO_push_core st (QTask.removeSub st.nextUid sid)
          [Ev.enqueuedRemove st.nextUid sid] h rfl rfl ?_ ?_ ?_ ?_ ?_ ?_
        · intro e he x hx
          simp only [List.mem_singleton] at he
          subst he
          simp [enqProj] at hx
          omega
        · intro u hu
          have hcalc : ([Ev.enqueuedRemove st.nextUid sid].filterMap evUid) =
              [st.nextUid] := rfl
          rw [hcalc] at hu
          simp at hu
          exact hu
        · intro hfalse
          simp [isSettleTask] at hfalse
        · intro _
          refine ⟨⟨sid, by simp⟩, ?_⟩
          intro x k fr hm; simp at hm
        · intro x k fr hm; simp at hm
        · intro x s hm
          simp at hm
          exact hm.1
      · rw [step_unsub_idle (by simpa using hf)]
        exact invO_of_eq_core h rfl rfl rfl rfl
  | enable =>
      rw [step_enable]
      exact invO_of_eq_core h rfl rfl rfl rfl
  | disable =>
      rw [step_disable]
      exact invO_of_eq_core h rfl rfl rfl rfl
  | tick =>
      rw [step_tick]
      exact invO_tick st h

theorem invO_run (cfg : Config) (acts : List Act) : InvO (run cfg acts) := by
  induction acts using List.reverseRecOn with
  | nil => exact invO_init
  | append_singleton ms a ih =>
      rw [run_snoc]
      exact invO_step cfg _ a ih

theorem tracked_kick (st : EmState) : tracked (kick st) = tracked st := by
  rw [tracked, kick_log, kick_queue, tracked]

theorem tracked_sqc (st : EmState) :
    tracked (settleQueueCheck st) = tracked st := by
  rw [tracked, sqc_log, sqc_queue, tracked]

theorem tracked_tick (st : EmState) : tracked (tick st) = tracked st := by
  by_cases hh : st.halted = true
  · rw [tick_of_halted hh]
  · have hh' : st.halted = false := by simpa using hh
    cases hr : st.running with
    | some r =>
        cases hrem : r.rem with
        | zero =>
            rw [tick_complete hh' hr hrem]
            cases ho : r.out with
            | ok v =>
                rw [completeRun_ok ho, tracked_sqc]
                simp only [tracked, execUids_append]
                have h3 : execUids [Ev.resolvedEv r.uid v,
                    Ev.settleEnd r.uid r.key] = [] := rfl
                have h4 : execUids (if st.enabled = true then
                    successFanOut r.key v r.args st.subs else []) = [] := by
                  by_cases he : st.enabled = true
                  · rw [if_pos he]; exact successFanOut_no_exec
                  · rw [if_neg he]; rfl
                rw [h3, h4]
                simp
            | error e =>
                rw [completeRun_err ho, tracked_sqc]
                simp only [tracked, execUids_append]
                have h3 : execUids [Ev.rejectedEv r.uid e,
                    Ev.settleEnd r.uid r.key] = [] := rfl
                rw [h3, catchFanOut_no_exec]
                simp
        | succ n =>
            rw [tick_decrement hh' hr hrem]
            rfl
    | none =>
        by_cases hf : st.flushing = true
        · cases hq2 : st.queue with
          | nil =>
              rw [tick_empty hh' hr hf hq2]
              rfl
          | cons t rest =>
              rw [tick_pop hh' hr hf hq2]
              cases t with
              | settleAsync uid key args dur out =>
                  simp only [startTask, tracked, execUids_append]
                  have h1 : execUids [Ev.settleStart uid key,
                      Ev.ranUnderlying uid key args] = [uid] := rfl
                  rw [h1, hq2]
                  simp [queueUids, QTask.uid, List.append_assoc]
              | settleSync uid key args out =>
                  cases out with
                  | ok rv =>
                      simp only [startTask]
                      rw [tracked_sqc]
                      simp only [tracked, execUids_append]
                      have h1 : execUids [Ev.settleStart uid key,
                          Ev.ranUnderlying uid key args] = [uid] := rfl
                      have h2 : execUids [Ev.settleEnd uid key] = [] := rfl
                      have h3 : execUids (if st.enabled then
                          successFanOut key rv args st.subs else []) = [] := by
                        by_cases he : st.enabled = true
                        · rw [if_pos he]; exact successFanOut_no_exec
                        · rw [if_neg he]; rfl
                      rw [h1, h2, h3, hq2]
                      simp [queueUids, QTask.uid, List.append_assoc]
                  | error ee =>
                      simp only [startTask, tracked, execUids_append]
                      have h1 : execUids [Ev.settleStart uid key,
                          Ev.ranUnderlying uid key args] = [uid] := rfl
                      have h2 : execUids [Ev.settleEnd uid key,
                          Ev.drainHalted uid key] = [] := rfl
                      rw [h1, h2, catchFanOut_no_exec, hq2]
                      simp [queueUids, QTask.uid, List.append_assoc]
              | removeSub uid sid =>
                  simp only [startTask]
                  rw [tracked_sqc]
                  simp only [tracked, execUids_append]
                  have h1 : execUids [Ev.removedSub uid sid] = [uid] := rfl
                  rw [h1, hq2]
                  simp [queueUids, QTask.uid, List.append_assoc]
        · have hf' : st.flushing = false := by simpa using hf
          rw [tick_idle hh' hr hf']

theorem tracked_extend_sub {st st' : EmState} (l2 : List Ev)
    (hl : st'.log = st.log ++ l2)
    (hq : List.Sublist st.queue st'.queue) :
    List.Sublist (tracked st) (tracked st') := by
  rw [tracked, tracked, hl, execUids_append]
  exact List.Sublist.append (List.sublist_append_left _ _) (hq.map QTask.uid)

theorem tracked_step_sub (cfg : Config) (st : EmState) (a : Act) :
    List.Sublist (tracked st) (tracked (step cfg st a)) := by
  cases a with
  | invoke key args =>
      rw [step_invoke]
      cases hl : lookupEntry cfg key with
      | none =>
          rw [invoke_missing hl]
      | some e =>
          cases e with
          | value v => rw [invoke_value hl]
          | asyncFn d f =>
              by_cases hk : key = initKey
              · subst hk
                by_cases hi : st.initialized = true
                · rw [invoke_async_double hl hi]
                  refine tracked_extend_sub _ rfl ?_
                  exact List.Sublist.refl _
                · rw [invoke_async_init_first hl (by simpa using hi)]
                  refine tracked_extend_sub _ rfl ?_
                  exact List.sublist_cons_self _ _
              · rw [invoke_async_other hl hk]
                refine tracked_extend_sub _ (kick_log _) ?_
                rw [kick_queue]
                exact List.sublist_append_left _ _
          | syncFn f =>
              by_cases hk : key = initKey
              · subst hk
                by_cases hi : st.initialized = true
                · rw [invoke_sync_double hl hi]
                  refine tracked_extend_sub _ rfl ?_
                  exact List.Sublist.refl _
                · rw [invoke_sync_init_first hl (by simpa using hi)]
                  refine tracked_extend_sub _ rfl ?_
                  exact List.sublist_cons_self _ _
              · rw [invoke_sync_other hl hk]
                refine tracked_extend_sub _ (kick_log _) ?_
                rw [kick_queue]
                exact List.sublist_append_left _ _
  | subscribe sr =>
      rw [step_subscribe]
      exact List.Sublist.refl _
  | unsubscribe sid =>
      by_cases hf : st.flushing = true
      · rw [step_unsub_flushing hf]
        refine tracked_extend_sub _ rfl ?_
        exact List.sublist_append_left _ _
      · rw [step_unsub_idle (by simpa using hf)]
        exact List.Sublist.refl _
  | enable =>
      rw [step_enable]
      exact List.Sublist.refl _
  | disable =>
      rw [step_disable]
      exact List.Sublist.refl _
  | tick =>
      rw [step_tick, tracked_tick]

theorem tracked_run_sub (cfg : Config) (acts more : List Act) :
    List.Sublist (tracked (run cfg acts)) (tracked (run cfg (acts ++ more))) := by
  induction more using List.reverseRecOn with
  | nil =>
      rw [List.append_nil]
  | append_singleton ms a ih =>
      rw [← List.append_assoc, run_snoc]
      exact ih.trans (tracked_step_sub cfg _ a)

theorem log_tick_prefix (st : EmState) : ∃ l2, (tick st).log = st.log ++ l2 := by
  by_cases hh : st.halted = true
  · exact ⟨[], by rw [tick_of_halted hh]; simp⟩
  · have hh' : st.halted = false := by simpa using hh
    cases hr : st.running with
    | some r =>
        cases hrem : r.rem with
        | zero =>
            rw [tick_complete hh' hr hrem]
            cases ho : r.out with
            | ok v =>
                refine ⟨(if st.enabled then successFanOut r.key v r.args st.subs
                  else []) ++ [Ev.resolvedEv r.uid v, Ev.settleEnd r.uid r.key], ?_⟩
                rw [completeRun_ok ho, sqc_log]
            | error e =>
                refine ⟨catchFanOut r.key e r.args st.subs ++
                  [Ev.rejectedEv r.uid e, Ev.settleEnd r.uid r.key], ?_⟩
                rw [completeRun_err ho, sqc_log]
        | succ n =>
            refine ⟨[], ?_⟩
            rw [tick_decrement hh' hr hrem]
            simp
    | none =>
        by_cases hf : st.flushing = true
        · cases hq2 : st.queue with
          | nil =>
              refine ⟨[], ?_⟩
              rw [tick_empty hh' hr hf hq2]
              simp
          | cons t rest =>
              rw [tick_pop hh' hr hf hq2]
              cases t with
              | settleAsync uid key args dur out =>
                  refine ⟨[Ev.settleStart uid key,
                    Ev.ranUnderlying uid key args], ?_⟩
                  simp only [startTask]
              | settleSync uid key args out =>
                  cases out with
                  | ok rv =>
                      refine ⟨[Ev.settleStart uid key,
                        Ev.ranUnderlying uid key args] ++
                        ((if st.enabled then successFanOut key rv args st.subs
                          else []) ++ [Ev.settleEnd uid key]), ?_⟩
                      simp only [startTask]
                      rw [sqc_log]
                      simp [List.append_assoc]
                  | error ee =>
                      refine ⟨[Ev.settleStart uid key,
                        Ev.ranUnderlying uid key args] ++
                        (catchFanOut key ee args st.subs ++
                          [Ev.settleEnd uid key, Ev.drainHalted uid key]), ?_⟩
                      simp only [startTask]
                      simp [List.append_assoc]
              | removeSub uid sid =>
                  refine ⟨[Ev.removedSub uid sid], ?_⟩
                  simp only [startTask]
                  rw [sqc_log]
        · refine ⟨[], ?_⟩
          rw [tick_idle hh' hr (by simpa using hf)]
          simp

theorem log_step_prefix (cfg : Config) (st : EmState) (a : Act) :
    ∃ l2, (step cfg st a).log = st.log ++ l2 := by
  cases a with
  | invoke key args =>
      rw [step_invoke]
      cases hl : lookupEntry cfg key with
      | none => exact ⟨[], by rw [invoke_missing hl]; simp⟩
      | some e =>
          cases e with
          | value v => exact ⟨[], by rw [invoke_value hl]; simp⟩
          | asyncFn d f =>
              by_cases hk : key = initKey
              · subst hk
                by_cases hi : st.initialized = true
                · exact ⟨_, by rw [invoke_async_double hl hi]⟩
                · exact ⟨_, by rw [invoke_async_init_first hl (by simpa using hi)]⟩
              · exact ⟨_, by rw [invoke_async_other hl hk, kick_log]⟩
          | syncFn f =>
              by_cases hk : key = initKey
              · subst hk
                by_cases hi : st.initialized = true
                · exact ⟨_, by rw [invoke_sync_double hl hi]⟩
                · exact ⟨_, by rw [invoke_sync_init_first hl (by simpa using hi)]⟩
              · exact ⟨_, by rw [invoke_sync_other hl hk, kick_log]⟩
  | subscribe sr => exact ⟨[], by rw [step_subscribe]; simp⟩
  | unsubscribe sid =>
      by_cases hf : st.flushing = true
      · exact ⟨_, by rw [step_unsub_flushing hf]⟩
      · exact ⟨[], by rw [step_unsub_idle (by simpa using hf)]; simp⟩
  | enable => exact ⟨[], by rw [step_enable]; simp⟩
  | disable => exact ⟨[], by rw [step_disable]; simp⟩
  | tick =>
      rw [step_tick]
      exact log_tick_prefix st

theorem log_run_prefix (cfg : Config) (acts more : List Act) :
    ∃ l2, (run cfg (acts ++ more)).log = (run cfg acts).log ++ l2 := by
  induction more using List.reverseRecOn with
  | nil => exact ⟨[], by simp⟩
  | append_singleton ms a ih =>
      obtain ⟨l2, hl⟩ := ih
      obtain ⟨l3, hl3⟩ := log_step_prefix cfg (run cfg (acts ++ ms)) a
      refine ⟨l2 ++ l3, ?_⟩
      rw [← List.append_assoc, run_snoc, hl3, hl, List.append_assoc]

theorem hasEnqEv_run (cfg : Config) (acts more : List Act) {u : Nat}
    (h : hasEnqEv (run cfg acts).log u) :
    hasEnqEv (run cfg (acts ++ more)).log u := by
  obtain ⟨l2, hl⟩ := log_run_prefix cfg acts more
  rw [hl]
  exact hasEnqEv_append_left h

theorem tracked_unsub_push (st : EmState) (sid : Nat) :
    tracked { st with queue := st.queue ++ [QTask.removeSub st.nextUid sid],
                      nextUid := st.nextUid + 1,
                      log := st.log ++ [Ev.enqueuedRemove st.nextUid sid] } =
      tracked st ++ [st.nextUid] := by
  have h1 : execUids [Ev.enqueuedRemove st.nextUid sid] = [] := rfl
  simp only [tracked, execUids_append, h1, List.append_nil, queueUids,
    List.map_append, List.map_cons, List.map_nil, QTask.uid, List.append_assoc]

/-- C1.  Settle tasks run in exactly the order the calls were made: whenever
the back-of-queue insertion of task `u` precedes that of task `v` in a run's
log and both tasks have begun executing, `u`'s execution event strictly
precedes `v`'s (the front insertion of the first initialize settle is the
one insertion the `enqProj` projection deliberately excludes, matching the
claim's stated exception); and the settle open/close discipline holds over
the whole log — at most one settle is ever open and it is exactly the
in-flight one — so no two settle tasks ever execute concurrently, even for
asynchronous callables. -/
theorem settle_fifo_and_exclusive (cfg : Config) (acts : List Act)
    (u v : Nat) (hne : u ≠ v)
    (henq : evBefore (run cfg acts).log (enqEvOf u) (enqEvOf v))
    (hu : u ∈ execUids (run cfg acts).log)
    (hv : v ∈ execUids (run cfg acts).log) :
    evBefore (run cfg acts).log (execEvOf u) (execEvOf v) ∧
      openFold (run cfg acts).log = some (runningUid (run cfg acts)) := by
  have hO := invO_run cfg acts
  have hB := invB_run cfg acts
  refine ⟨?_, hB.opens⟩
  have h1 : before2 (execUids (run cfg acts).log ++
      queueUids (run cfg acts).queue) u v := hO.pairOrd u v hne henq
  have h2 : before2 (execUids (run cfg acts).log) u v :=
    before2_prefix h1 hv hO.nodup
  exact before2_filterMap h2

/-- Witness for C1 at the two-member scenario: the slow member `a` is called
before the fast member `b`, both settles complete across five turns, and the
theorem yields the execution order plus the exclusion discipline. -/
theorem settle_fifo_and_exclusive_witness :
    evBefore (run cfgTwoAsync actsTwo).log (execEvOf 0) (execEvOf 1) ∧
      openFold (run cfgTwoAsync actsTwo).log =
        some (runningUid (run cfgTwoAsync actsTwo)) := by
  refine settle_fifo_and_exclusive cfgTwoAsync actsTwo 0 1 (by decide)
    ⟨Ev.enqueued 0 kA false, Ev.enqueued 1 kB false, rfl, rfl, by decide⟩
    (by decide) (by decide)

/-- C9.  The handle returned by subscribe removes the record synchronously
when the Sequencer is idle (`flushing` false); while flushing it leaves the
registry untouched and appends a zero-argument removal task at the back of
the queue; and whenever that removal task later executes, every settle task
that was pending or in flight at unsubscribe time has already completed —
its `settleEnd` event precedes the removal event in the log. -/
theorem unsubscribe_idle_or_deferred (cfg : Config) (acts : List Act)
    (sid : Nat) (more : List Act) :
    ((run cfg acts).flushing = false →
      step cfg (run cfg acts) (Act.unsubscribe sid) =
        { (run cfg acts) with
            subs := (run cfg acts).subs.filter (fun p => p.1 != sid) }) ∧
    ((run cfg acts).flushing = true →
      step cfg (run cfg acts) (Act.unsubscribe sid) =
        { (run cfg acts) with
            queue := (run cfg acts).queue ++
              [QTask.removeSub (run cfg acts).nextUid sid],
            nextUid := (run cfg acts).nextUid + 1,
            log := (run cfg acts).log ++
              [Ev.enqueuedRemove (run cfg acts).nextUid sid] }) ∧
    ((run cfg acts).flushing = true →
      ∀ A sid2 B,
        (run cfg (acts ++ Act.unsubscribe sid :: more)).log =
          A ++ Ev.removedSub (run cfg acts).nextUid sid2 :: B →
        ∀ u ∈ pendingSettleUids (run cfg acts),
          ∃ k, Ev.settleEnd u k ∈ A) := by
  refine ⟨fun hf => step_unsub_idle hf, fun hf => step_unsub_flushing hf, ?_⟩
  intro hf A sid2 B hsplit u hu
  have hO := invO_run cfg acts
  have hkey : u ∈ tracked (run cfg acts) ∧
      hasEnqEv (run cfg acts).log u := by
    rcases List.mem_append.mp hu with h1 | h1
    · obtain ⟨t, htmem, huid⟩ := List.mem_map.mp h1
      have htq : t ∈ (run cfg acts).queue := List.mem_of_mem_filter htmem
      have hsettle : isSettleTask t = true := List.of_mem_filter htmem
      constructor
      · exact List.mem_append_right _ (List.mem_map.mpr ⟨t, htq, huid⟩)
      · have h2 := (hO.qSrc t htq).1 hsettle
        rw [huid] at h2
        exact h2
    · cases hro : (run cfg acts).running with
      | none =>
          rw [runningUid, hro] at h1
          simp at h1
      | some rr =>
          rw [runningUid, hro] at h1
          simp at h1
          subst h1
          constructor
          · have hop : openFoldAux none (run cfg acts).log =
                some (some rr.uid) := by
              have hB := (invB_run cfg acts).opens
              rw [runningUid, hro] at hB
              simpa [openFold] using hB
            rcases openFold_open_started (run cfg acts).log none hop with
              hc | ⟨k, hk⟩
            · simp at hc
            · exact List.mem_append_left _ (mem_execUids.mpr ⟨_, hk, rfl⟩)
          · exact hO.runSrc rr hro
  have hb1 : before2 (tracked (run cfg (acts ++ [Act.unsubscribe sid]))) u
      ((run cfg acts).nextUid) := by
    rw [run_snoc, step_unsub_flushing hf, tracked_unsub_push]
    exact before2_snoc hkey.1
  have hb2 : before2
      (tracked (run cfg (acts ++ Act.unsubscribe sid :: more))) u
      ((run cfg acts).nextUid) := by
    have hsub := tracked_run_sub cfg (acts ++ [Act.unsubscribe sid]) more
    rw [List.append_assoc, List.singleton_append] at hsub
    exact hb1.trans hsub
  have hEnqFin : hasEnqEv (run cfg (acts ++ Act.unsubscribe sid :: more)).log
      u := hasEnqEv_run cfg acts (Act.unsubscribe sid :: more) hkey.2
  have hOfin := invO_run cfg (acts ++ Act.unsubscribe sid :: more)
  have hBfin := invB_run cfg (acts ++ Act.unsubscribe sid :: more)
  have hexecsplit : execUids (run cfg (acts ++ Act.unsubscribe sid :: more)).log =
      execUids A ++ (run cfg acts).nextUid :: execUids B := by
    rw [hsplit, execUids_append]
    have hcs : execUids (Ev.removedSub (run cfg acts).nextUid sid2 :: B) =
        (run cfg acts).nextUid :: execUids B := by
      simp [execUids, List.filterMap_cons, execProj]
    rw [hcs]
  have hndm : (execUids A ++ (run cfg acts).nextUid ::
      (execUids B ++ queueUids (run cfg (acts ++ Act.unsubscribe sid :: more)).queue)).Nodup := by
    have hnd := hOfin.nodup
    rw [tracked, hexecsplit] at hnd
    simpa [List.append_assoc, List.cons_append] using hnd
  have hrB : (run cfg acts).nextUid ∉
      execUids B ++ queueUids (run cfg (acts ++ Act.unsubscribe sid :: more)).queue := by
    have h5 := List.nodup_middle.mp hndm
    have h6 := (List.nodup_cons.mp h5).1
    intro hc
    exact h6 (List.mem_append_right _ hc)
  have hb3 : before2 (execUids A ++ (run cfg acts).nextUid ::
      (execUids B ++ queueUids (run cfg (acts ++ Act.unsubscribe sid :: more)).queue))
      u ((run cfg acts).nextUid) := by
    have hb4 := hb2
    rw [tracked, hexecsplit] at hb4
    simpa [List.append_assoc, List.cons_append] using hb4
  have huA : u ∈ execUids A := before2_of_mid hb3 hrB
  obtain ⟨e, heA, hep⟩ := mem_execUids.mp huA
  rcases execProj_shape hep with ⟨k, rfl⟩ | ⟨s2, rfl⟩
  · have hpre : openFoldAux none A = some none := by
      have hop2 : openFoldAux none
          (A ++ Ev.removedSub (run cfg acts).nextUid sid2 :: B) =
          some (runningUid (run cfg (acts ++ Act.unsubscribe sid :: more))) := by
        rw [← hsplit]
        exact hBfin.opens
      exact openFold_removal_prefix hop2
    rcases openFold_started_closes hpre heA with ⟨k2, hk2⟩ | hcontra
    · exact ⟨k2, hk2⟩
    · simp at hcontra
  · have hrem : hasEnqRemEv (run cfg (acts ++ Act.unsubscribe sid :: more)).log
        u := by
      refine hOfin.remSrc u s2 ?_
      rw [hsplit]
      exact List.mem_append_left _ heA
    exact absurd ⟨hEnqFin, hrem⟩ (hOfin.kindSep u)

/-- Witness for C9 at the slow-member scenario: the removal deferred while
task 0's settle was pending executes only after that settle's completion,
which indeed appears in the log prefix before the removal event. -/
theorem unsubscribe_idle_or_deferred_witness :
    ∃ k, Ev.settleEnd 0 k ∈
      [Ev.invoked kFirst [], Ev.returnedPromise 0 kFirst,
       Ev.enqueued 0 kFirst false, Ev.enqueuedRemove 1 0,
       Ev.settleStart 0 kFirst, Ev.ranUnderlying 0 kFirst [],
       Ev.notifyMember 0 kFirst 0 [], Ev.resolvedEv 0 0,
       Ev.settleEnd 0 kFirst] := by
  refine (unsubscribe_idle_or_deferred cfgSlowFirst actsUnsubPre 0
      actsUnsubMore).2.2 rfl
    [Ev.invoked kFirst [], Ev.returnedPromise 0 kFirst,
     Ev.enqueued 0 kFirst false, Ev.enqueuedRemove 1 0,
     Ev.settleStart 0 kFirst, Ev.ranUnderlying 0 kFirst [],
     Ev.notifyMember 0 kFirst 0 [], Ev.resolvedEv 0 0,
     Ev.settleEnd 0 kFirst] 0 [] rfl 0 (by decide)
